import Mathlib

/-!
Tomahawk Twitter SIP plugin: peer-rendezvous signalling.

A shallow embedding of `src/sip/twitter/twitter.cpp` (class `TwitterPlugin`).

* Qt value types are modelled by plain data: `QString` is a list of characters,
  a `QVariant` is an invalid, string or `int` value, a `QHash<QString, T>` is an
  association list.
* The plugin object, the `TomahawkSettings` singleton and the `Servent`
  singleton are fields of one explicit state record; every slot of the class is
  a function from state to state.
* Calls that leave the plugin (relay fetches, posts, deletes, settings writes,
  registrar calls) are appended, in program order, to the state's effect log.
* `QMetaObject::invokeMethod( this, ... )` from the plugin's own thread is a
  direct call, so it is embedded as a plain function call.
* Identifiers (`qint64`) are integers; no arithmetic is done on them, only
  comparisons. An `int` is an integer that `QString::toInt` keeps within
  `INT_MIN`..`INT_MAX`.
* Qt library functions are embedded after the Qt 4 sources: `QString::split`,
  `startsWith`, `mid`, `chop`, `toInt` (C locale), `number`, `arg`,
  `QVariant::toString`, `QVariant::toInt`, `QRegExp::exactMatch` for the one
  pattern the plugin uses.
-/

namespace Tomahawk

/-! ## Qt strings -/

/-- A `QString`, as its sequence of characters. -/
abbrev QString := List Char

/-- Text of a string literal of the source. -/
def qs (s : String) : QString := s.toList

/-- `QString::split( sep )` with the default `KeepEmptyParts` behaviour: the
fields between the separators, empty fields included; a string without
separator is the single field of the result. -/
def split (sep : Char) : QString → List QString
  | [] => [[]]
  | c :: cs =>
    if c = sep then [] :: split sep cs
    else
      match split sep cs with
      | [] => [[c]]
      | p :: ps => (c :: p) :: ps

/-- `QString::startsWith( s )`. -/
def startsWith (str s : QString) : Bool := s.isPrefixOf str

/-- `QString::mid( position )`: the string from `position` to its end. -/
def mid (str : QString) (position : Nat) : QString := str.drop position

/-- `QString::chop( n )`: the string without its last `n` characters. -/
def chop (str : QString) (n : Nat) : QString := str.take (str.length - n)

/-- `QChar::isSpace()`: the characters U+0009..U+000D and the Unicode
separators (space, no-break space, U+1680, U+180E, U+2000..U+200A, U+2028,
U+2029, U+202F, U+205F, U+3000). -/
def isSpace (c : Char) : Bool :=
  (9 ≤ c.toNat && c.toNat ≤ 13) || c.toNat = 32 || c.toNat = 160 || c.toNat = 5760
    || c.toNat = 6158 || (8192 ≤ c.toNat && c.toNat ≤ 8202) || c.toNat = 8232
    || c.toNat = 8233 || c.toNat = 8239 || c.toNat = 8287 || c.toNat = 12288

/-- `QChar::digitValue()` on the ASCII range: the value of a decimal digit
`0`..`9`, `none` (for `-1`) on any other character. -/
def digitValue (c : Char) : Option Nat :=
  if 48 ≤ c.toNat ∧ c.toNat ≤ 57 then some (c.toNat - 48) else none

/-- A character that is one of the decimal digits `0`..`9`. -/
def isDigitChar (c : Char) : Prop := 48 ≤ c.toNat ∧ c.toNat ≤ 57

/-- Value of a run of decimal digits read left to right from accumulator
`acc`; `none` when a character is not a digit. -/
def digitsValue : Nat → QString → Option Nat
  | acc, [] => some acc
  | acc, c :: cs =>
    match digitValue c with
    | some d => digitsValue (10 * acc + d) cs
    | none => none

/-- The number read by `strtoll` in base 10 from text already stripped of
white space: an optional sign and at least one digit, nothing else. -/
def signedValue : QString → Option Int
  | [] => none
  | c :: cs =>
    if c = '-' then
      (if cs.isEmpty then none else (digitsValue 0 cs).map (fun n => - (n : Int)))
    else if c = '+' then
      (if cs.isEmpty then none else (digitsValue 0 cs).map (fun n => (n : Int)))
    else (digitsValue 0 (c :: cs)).map (fun n => (n : Int))

/-- The text without leading and trailing white space. -/
def trimmed (str : QString) : QString :=
  ((str.dropWhile isSpace).reverse.dropWhile isSpace).reverse

def INT_MIN : Int := -2147483648
def INT_MAX : Int := 2147483647

/-- `QString::toInt( &ok )` in base 10 with the C locale: surrounding white
space is skipped, the rest must be an optionally signed decimal number that
fits an `int`; `none` stands for `ok == false`. -/
def toIntOk (str : QString) : Option Int :=
  match signedValue (trimmed str) with
  | some v => if INT_MIN ≤ v ∧ v ≤ INT_MAX then some v else none
  | none => none

/-- `QString::toInt()`: the converted value, `0` when the conversion fails. -/
def toInt (str : QString) : Int := (toIntOk str).getD 0

/-- Decimal digits of `n`, most significant first, prepended to `acc`; `fuel`
bounds the number of digits. -/
def numberDigits : Nat → Nat → QString → QString
  | 0, _, acc => acc
  | fuel + 1, n, acc =>
    let acc1 := Char.ofNat (48 + n % 10) :: acc
    if n / 10 = 0 then acc1 else numberDigits fuel (n / 10) acc1

/-- `QString::number( n )` for an integer, base 10. -/
def number (n : Int) : QString :=
  match n with
  | Int.ofNat m => numberDigits (m + 1) m []
  | Int.negSucc m => '-' :: numberDigits (m + 2) (m + 1) []

/-! ## `QString::arg` -/

/-- The one or two digits of a place marker at the start of the text: the
marker's number and how many characters the digits take. -/
def escapeDigits : QString → Option (Nat × Nat)
  | [] => none
  | c :: cs =>
    match digitValue c with
    | none => none
    | some d1 =>
      match cs with
      | [] => some (d1, 1)
      | c2 :: _ =>
        match digitValue c2 with
        | some d2 => some (10 * d1 + d2, 2)
        | none => some (d1, 1)

/-- The place marker that starts right after a `%`: an optional `L` and one or
two digits. Gives the marker's number and its length after the `%`; `none`
when the `%` starts no marker. -/
def escapeAt : QString → Option (Nat × Nat)
  | [] => none
  | c :: cs =>
    if c = 'L' then (escapeDigits cs).map (fun e => (e.1, e.2 + 1))
    else escapeDigits (c :: cs)

/-- The smaller of two optional marker numbers. -/
def minEscape : Option Nat → Option Nat → Option Nat
  | none, r => r
  | some n, none => some n
  | some n, some m => some (min n m)

/-- `findArgEscapes`: the lowest number among the place markers of the string,
`none` when the string has no place marker. -/
def findArgEscapes : QString → Option Nat
  | [] => none
  | c :: cs =>
    if c = '%' then minEscape ((escapeAt cs).map (fun e => e.1)) (findArgEscapes cs)
    else findArgEscapes cs

/-- `replaceArgEscapes`: the string with every place marker numbered
`min_escape` replaced by `arg`; `skip` counts the characters of a replaced
marker that are still to be passed over. -/
def replaceArgEscapes (min_escape : Nat) (arg : QString) : Nat → QString → QString
  | _, [] => []
  | skip + 1, _ :: cs => replaceArgEscapes min_escape arg skip cs
  | 0, c :: cs =>
    if c = '%' then
      match escapeAt cs with
      | some e =>
        if e.1 = min_escape then arg ++ replaceArgEscapes min_escape arg e.2 cs
        else c :: replaceArgEscapes min_escape arg 0 cs
      | none => c :: replaceArgEscapes min_escape arg 0 cs
    else c :: replaceArgEscapes min_escape arg 0 cs

/-- `QString::arg( a )`: every occurrence of the lowest numbered place marker
is replaced by `a`; a string without place marker is returned as it is. -/
def arg (str a : QString) : QString :=
  match findArgEscapes str with
  | none => str
  | some m => replaceArgEscapes m a 0 str

/-! ## `QVariant` and `QHash` -/

/-- The value of an `int` after conversion from a `qlonglong`. -/
def wrapInt (v : Int) : Int := (v + 2147483648) % 4294967296 - 2147483648

def LLONG_MIN : Int := -9223372036854775808
def LLONG_MAX : Int := 9223372036854775807

/-- `QString::toLongLong()`: as `toInt` with the range of a `qlonglong`. -/
def toLongLong (str : QString) : Int :=
  match signedValue (trimmed str) with
  | some v => if LLONG_MIN ≤ v ∧ v ≤ LLONG_MAX then v else 0
  | none => 0

/-- The `QVariant` values the plugin stores in a peer record: a string, an
`int`, or nothing (a default constructed, invalid variant). -/
inductive QVariant
  | invalid
  | string (s : QString)
  | int (i : Int)
  deriving DecidableEq

/-- `QVariant::toString()`. -/
def QVariant.toString : QVariant → QString
  | .invalid => []
  | .string s => s
  | .int i => number i

/-- `QVariant::toInt()`: a string is converted through `qlonglong`. -/
def QVariant.toInt : QVariant → Int
  | .invalid => 0
  | .string s => wrapInt (toLongLong s)
  | .int i => i

/-- A `QHash< QString, T >`, as the list of its entries. -/
structure QHash (α : Type) where
  entries : List (QString × α)

namespace QHash

variable {α : Type}

/-- A default constructed hash. -/
def empty : QHash α := ⟨[]⟩

/-- `QHash::isEmpty()`. -/
def isEmpty (h : QHash α) : Bool := h.entries.isEmpty

/-- `QHash::contains( key )`. -/
def contains (h : QHash α) (key : QString) : Bool := h.entries.any (fun e => e.1 = key)

/-- Lookup of `key` in a list of entries. -/
def find : List (QString × α) → QString → Option α
  | [], _ => none
  | e :: es, key => if e.1 = key then some e.2 else find es key

/-- `QHash::value( key )` and the reading `operator[]`: the value stored under
`key`, a default constructed value when there is none. -/
def value (h : QHash α) (key : QString) (dflt : α) : α := (find h.entries key).getD dflt

/-- Entries with the value under `key` set to `v`. -/
def set : List (QString × α) → QString → α → List (QString × α)
  | [], key, v => [(key, v)]
  | e :: es, key, v => if e.1 = key then (key, v) :: es else e :: set es key v

/-- The assignment `hash[ key ] = v` and `QHash::insert( key, v )`. -/
def insert (h : QHash α) (key : QString) (v : α) : QHash α := ⟨set h.entries key v⟩

/-- `QHash::keys()`. -/
def keys (h : QHash α) : List QString := h.entries.map (fun e => e.1)

end QHash

/-- A peer record, `QHash< QString, QVariant >`. -/
abbrev PeerData := QHash QVariant

/-- Reading `peerData[ key ]`. -/
def PeerData.get (peerData : PeerData) (key : QString) : QVariant :=
  peerData.value key QVariant.invalid

/-- `qStableSort` of a list of strings with `operator<`. -/
def qStableSort (l : List QString) : List QString := l.insertionSort (fun a b => a ≤ b)

/-! ## Collaborators of the plugin -/

/-- A `QTweetStatus`, as far as the plugin reads it: `id()`,
`user().screenName()` and `text()`. -/
structure QTweetStatus where
  id : Int
  screenName : QString
  text : QString

/-- A `QTweetDMStatus`, as far as the plugin reads it: `id()`,
`senderScreenName()` and `text()`. -/
structure QTweetDMStatus where
  id : Int
  senderScreenName : QString
  text : QString

/-- The values of `TomahawkSettings` the plugin reads and writes. -/
structure TomahawkSettings where
  twitterCachedPeers : QHash PeerData
  twitterCachedFriendsSinceId : Int
  twitterCachedMentionsSinceId : Int
  twitterCachedDirectMessagesSinceId : Int
  twitterScreenName : QString
  twitterOAuthToken : QString
  twitterOAuthTokenSecret : QString

/-- The `Servent` singleton as the plugin sees it: the local external
address, the nodes a session exists to (`connectedToSession`), and the string
`createConnectionKey( name, nodeid, key )` returns. -/
structure Servent where
  externalAddress : QString
  externalPort : Int
  sessions : List QString
  connectionKey : QString → QString → QString → QString

/-- A call that leaves the plugin, as recorded in the effect log. -/
inductive Effect
  /-- `m_friendsTimeline->fetch( sinceid, 0, 800 )` -/
  | fetchFriendsTimeline (sinceid : Int)
  /-- `m_mentions->fetch( sinceid, 0, 800 )` -/
  | fetchMentions (sinceid : Int)
  /-- `m_directMessages->fetch( sinceid, 0, 800 )` -/
  | fetchDirectMessages (sinceid : Int)
  /-- `m_directMessageNew->post( screenName, text )` -/
  | post (screenName text : QString)
  /-- `m_directMessageDestroy->destroyMessage( id )` -/
  | destroyMessage (id : Int)
  /-- `credVerifier->verify()` -/
  | verify
  /-- `Servent::createConnectionKey( name, nodeid, key )` -/
  | createConnectionKey (name nodeid key : QString)
  /-- `Servent::connectToPeer( host, port, key, name, id )` -/
  | connectToPeer (host : QString) (port : Int) (key name id : QString)
  /-- `TomahawkSettings::setTwitterCachedPeers( peers )` -/
  | setTwitterCachedPeers (peers : QHash PeerData)
  /-- `TomahawkSettings::setTwitterCachedFriendsSinceId( id )` -/
  | setTwitterCachedFriendsSinceId (id : Int)
  /-- `TomahawkSettings::setTwitterCachedMentionsSinceId( id )` -/
  | setTwitterCachedMentionsSinceId (id : Int)
  /-- `TomahawkSettings::setTwitterCachedDirectMessagesSinceId( id )` -/
  | setTwitterCachedDirectMessagesSinceId (id : Int)
  /-- `TomahawkSettings::setTwitterScreenName( name )` -/
  | setTwitterScreenName (name : QString)
  /-- `m_friendsTimeline.data()->deleteLater()` -/
  | friendsTimelineDeleteLater
  /-- `m_twitterAuth.data()->deleteLater()` -/
  | twitterAuthDeleteLater

/-- True on a `post` effect. -/
def Effect.isPost : Effect → Bool
  | .post _ _ => true
  | _ => false

/-- True on a `connectToPeer` effect. -/
def Effect.isConnectToPeer : Effect → Bool
  | .connectToPeer _ _ _ _ _ => true
  | _ => false

/-- True on a `fetchDirectMessages` effect. -/
def Effect.isFetchDirectMessages : Effect → Bool
  | .fetchDirectMessages _ => true
  | _ => false

/-- True on a `destroyMessage` effect. -/
def Effect.isDestroyMessage : Effect → Bool
  | .destroyMessage _ => true
  | _ => false

/-- True on a `setTwitterCachedPeers` effect. -/
def Effect.isSetTwitterCachedPeers : Effect → Bool
  | .setTwitterCachedPeers _ => true
  | _ => false

/-! ## The plugin -/

/-- The members of `TwitterPlugin` together with the singletons it works on.
A `QWeakPointer` member is `true` when it is bound (`!isNull()`).
`uuids` is the sequence of strings `QUuid::createUuid().toString()` returns,
`uuidsTaken` the number of them consumed so far; `log` is the effect log. -/
structure TwitterPlugin where
  m_isAuthed : Bool
  m_twitterAuth : Bool
  m_friendsTimeline : Bool
  m_mentions : Bool
  m_directMessages : Bool
  m_directMessageNew : Bool
  m_directMessageDestroy : Bool
  m_cachedFriendsSinceId : Int
  m_cachedMentionsSinceId : Int
  m_cachedDirectMessagesSinceId : Int
  m_cachedPeers : QHash PeerData
  m_keyCache : List QString
  m_finishedFriends : Bool
  m_finishedMentions : Bool
  settings : TomahawkSettings
  servent : Servent
  uuids : Nat → QString
  uuidsTaken : Nat
  log : List Effect

namespace TwitterPlugin

/-- `TwitterPlugin::TwitterPlugin`: the plugin as constructed, not authed, with
no bound client, cursors `0`, empty caches and a reset barrier, next to the
given settings, servent and uuid sequence. -/
def init (settings : TomahawkSettings) (servent : Servent) (uuids : Nat → QString) :
    TwitterPlugin :=
  { m_isAuthed := false
    m_twitterAuth := false
    m_friendsTimeline := false
    m_mentions := false
    m_directMessages := false
    m_directMessageNew := false
    m_directMessageDestroy := false
    m_cachedFriendsSinceId := 0
    m_cachedMentionsSinceId := 0
    m_cachedDirectMessagesSinceId := 0
    m_cachedPeers := QHash.empty
    m_keyCache := []
    m_finishedFriends := false
    m_finishedMentions := false
    settings := settings
    servent := servent
    uuids := uuids
    uuidsTaken := 0
    log := [] }

/-- `TwitterPlugin::isValid`. -/
def isValid (self : TwitterPlugin) : Bool :=
  self.m_isAuthed || !self.m_cachedPeers.isEmpty

/-- Appends one effect to the log. -/
def emit (self : TwitterPlugin) (e : Effect) : TwitterPlugin :=
  { self with log := self.log ++ [e] }

/-- `TomahawkSettings::instance()->setTwitterCachedPeers( m_cachedPeers )`. -/
def setTwitterCachedPeers (self : TwitterPlugin) : TwitterPlugin :=
  { self with
    settings := { self.settings with twitterCachedPeers := self.m_cachedPeers }
    log := self.log ++ [Effect.setTwitterCachedPeers self.m_cachedPeers] }

/-- The text `sendOffer` builds from a peer record. -/
def offerString (peerData : PeerData) : QString :=
  arg (arg (arg (qs "TOMAHAWKPEER:Host=%1:Port=%2:PKey=%3")
    (peerData.get (qs "ohst")).toString)
    (peerData.get (qs "oprt")).toString)
    (peerData.get (qs "okey")).toString

/-- `TwitterPlugin::sendOffer`. -/
def sendOffer (self : TwitterPlugin) (screenName : QString) (peerData : PeerData) :
    TwitterPlugin :=
  if self.m_directMessageNew then self.emit (Effect.post screenName (offerString peerData))
  else self

/-- `TwitterPlugin::makeConnection`. -/
def makeConnection (self : TwitterPlugin) (screenName : QString) (peerData : PeerData) :
    TwitterPlugin :=
  if !peerData.contains (qs "host") || !peerData.contains (qs "port")
      || !peerData.contains (qs "pkey") then self
  else
    let node : QString := '@' :: screenName
    if !self.servent.sessions.contains node then
      self.emit (Effect.connectToPeer (peerData.get (qs "host")).toString
        (toInt (peerData.get (qs "port")).toString)
        (peerData.get (qs "pkey")).toString node node)
    else self

/-- The key `registerOffer` generates:
`QUuid::createUuid().toString().split( '-' ).last()` with its last character
chopped off. -/
def freshKey (uuid : QString) : QString :=
  chop ((split '-' uuid).getLastD []) 1

/-- The local variables of a running `registerOffer` call, next to the plugin
it runs on: `_peerData`, `peersChanged`, `needToSend`, `needToAddToCache`. -/
structure RegisterOffer where
  plugin : TwitterPlugin
  peerData : PeerData
  peersChanged : Bool
  needToSend : Bool
  needToAddToCache : Bool

namespace RegisterOffer

/-- The block `if ( !_peerData.contains( "okey" ) )`: a record without local
handshake key gets a freshly generated one. -/
def generateKey (f : RegisterOffer) : RegisterOffer :=
  if !f.peerData.contains (qs "okey") then
    { f with
      plugin := { f.plugin with uuidsTaken := f.plugin.uuidsTaken + 1 }
      peerData :=
        f.peerData.insert (qs "okey")
          (QVariant.string (freshKey (f.plugin.uuids f.plugin.uuidsTaken)))
      peersChanged := true
      needToAddToCache := true
      needToSend := true }
  else f

/-- The block `if ( !m_keyCache.contains( _peerData["okey"].toString() ) )`. -/
def checkKeyCache (f : RegisterOffer) : RegisterOffer :=
  if !f.plugin.m_keyCache.contains (f.peerData.get (qs "okey")).toString then
    { f with needToAddToCache := true }
  else f

/-- The block that compares the advertised address of the record with
`Servent::externalAddress()` and `Servent::externalPort()`. -/
def checkAdvertised (f : RegisterOffer) : RegisterOffer :=
  if !f.peerData.contains (qs "ohst") || !f.peerData.contains (qs "oprt")
      || decide ((f.peerData.get (qs "ohst")).toString ≠ f.plugin.servent.externalAddress)
      || decide ((f.peerData.get (qs "oprt")).toInt ≠ f.plugin.servent.externalPort) then
    { f with needToSend := true }
  else f

/-- The block `if( needToAddToCache )`: the key is registered with the servent
and what the servent returns is added to `m_keyCache`. -/
def addToCache (node : QString) (f : RegisterOffer) : RegisterOffer :=
  if f.needToAddToCache then
    { f with
      plugin :=
        { f.plugin with
          m_keyCache := f.plugin.m_keyCache ++
            [f.plugin.servent.connectionKey node node (f.peerData.get (qs "okey")).toString]
          log := f.plugin.log ++
            [Effect.createConnectionKey node node (f.peerData.get (qs "okey")).toString] } }
  else f

/-- The record with the current external address as advertised address. -/
def advertise (f : RegisterOffer) : PeerData :=
  (f.peerData.insert (qs "ohst") (QVariant.string f.plugin.servent.externalAddress)).insert
    (qs "oprt") (QVariant.int f.plugin.servent.externalPort)

/-- The block `if( needToSend )`: the record takes the current external address,
is stored in `m_cachedPeers` and offered to the peer. -/
def send (screenName : QString) (f : RegisterOffer) : RegisterOffer :=
  if f.needToSend then
    { f with
      plugin :=
        sendOffer
          { f.plugin with m_cachedPeers := f.plugin.m_cachedPeers.insert screenName f.advertise }
          screenName f.advertise
      peerData := f.advertise
      peersChanged := true }
  else f

/-- The block that calls `makeConnection` for a record with `host`, `port` and
`pkey`. -/
def connect (screenName : QString) (f : RegisterOffer) : RegisterOffer :=
  if f.peerData.contains (qs "host") && f.peerData.contains (qs "port")
      && f.peerData.contains (qs "pkey") then
    { f with plugin := makeConnection f.plugin screenName f.peerData }
  else f

/-- The block `if ( peersChanged )` that ends `registerOffer`. -/
def persist (f : RegisterOffer) : TwitterPlugin :=
  if f.peersChanged then f.plugin.setTwitterCachedPeers else f.plugin

end RegisterOffer

/-- `TwitterPlugin::registerOffer`: its blocks in program order, started with
`_peerData = peerData` and the three flags `false`. -/
def registerOffer (self : TwitterPlugin) (screenName : QString) (peerData : PeerData) :
    TwitterPlugin :=
  RegisterOffer.persist
    (RegisterOffer.connect screenName
      (RegisterOffer.send screenName
        (RegisterOffer.addToCache ('@' :: screenName)
          (RegisterOffer.checkAdvertised
            (RegisterOffer.checkKeyCache
              (RegisterOffer.generateKey ⟨self, peerData, false, false, false⟩))))))

/-- The state without the parts `registerOffer` works on: the peer cache, the
key cache, the number of consumed uuids, the effect log and the persisted peer
cache. -/
def outsidePeers (self : TwitterPlugin) : TwitterPlugin :=
  { self with
    m_cachedPeers := QHash.empty
    m_keyCache := []
    uuidsTaken := 0
    log := []
    settings := { self.settings with twitterCachedPeers := QHash.empty } }

/-- `TwitterPlugin::pollDirectMessages`. -/
def pollDirectMessages (self : TwitterPlugin) : TwitterPlugin :=
  if !self.m_finishedMentions || !self.m_finishedFriends then self
  else
    let self1 : TwitterPlugin :=
      { self with m_finishedFriends := false, m_finishedMentions := false }
    if !self1.isValid then self1
    else
      let self2 : TwitterPlugin :=
        if self1.m_cachedDirectMessagesSinceId = 0 then
          { self1 with
            m_cachedDirectMessagesSinceId := self1.settings.twitterCachedDirectMessagesSinceId }
        else self1
      if self2.m_directMessages then
        self2.emit (Effect.fetchDirectMessages self2.m_cachedDirectMessagesSinceId)
      else self2

/-- `TwitterPlugin::checkTimerFired`. -/
def checkTimerFired (self : TwitterPlugin) : TwitterPlugin :=
  if !self.isValid then self
  else
    let self1 : TwitterPlugin :=
      if self.m_cachedFriendsSinceId = 0 then
        { self with m_cachedFriendsSinceId := self.settings.twitterCachedFriendsSinceId }
      else self
    let self2 : TwitterPlugin :=
      if self1.m_friendsTimeline then
        self1.emit (Effect.fetchFriendsTimeline self1.m_cachedFriendsSinceId)
      else self1
    let self3 : TwitterPlugin :=
      if self2.m_cachedMentionsSinceId = 0 then
        { self2 with m_cachedMentionsSinceId := self2.settings.twitterCachedMentionsSinceId }
      else self2
    if self3.m_mentions then self3.emit (Effect.fetchMentions self3.m_cachedMentionsSinceId)
    else self3

/-- Body of the loop of `TwitterPlugin::connectTimerFired` for one cached
screen name. -/
def connectTimerPeer (self : TwitterPlugin) (screenName : QString) : TwitterPlugin :=
  let peerData : PeerData := self.m_cachedPeers.value screenName QHash.empty
  if !peerData.contains (qs "host") || !peerData.contains (qs "port")
      || !peerData.contains (qs "pkey") then self
  else registerOffer self screenName peerData

/-- `TwitterPlugin::connectTimerFired`. -/
def connectTimerFired (self : TwitterPlugin) : TwitterPlugin :=
  if !self.isValid || self.m_cachedPeers.isEmpty then self
  else (qStableSort self.m_cachedPeers.keys).foldl connectTimerPeer self

/-- The characters of the class `[a-zA-Z0-9]`. -/
def isScreenNameChar (c : Char) : Bool :=
  (97 ≤ c.toNat && c.toNat ≤ 122) || (65 ≤ c.toNat && c.toNat ≤ 90)
    || (48 ≤ c.toNat && c.toNat ≤ 57)

/-- `QRegExp( "^(@[a-zA-Z0-9]+ )?Got Tomahawk\\?(.*)$" ).exactMatch( text )`:
the text is `Got Tomahawk?` followed by anything, optionally preceded by `@`,
one or more characters of the class and one blank. -/
def regexExactMatch (text : QString) : Bool :=
  startsWith text (qs "Got Tomahawk?") ||
    (match text with
     | [] => false
     | c :: rest =>
       decide (c = '@') && !(rest.takeWhile isScreenNameChar).isEmpty
         && startsWith (rest.dropWhile isScreenNameChar) (qs " Got Tomahawk?"))

/-- Body of the loop of `TwitterPlugin::friendsTimelineStatuses` for one
status. -/
def friendsTimelineStatus (myScreenName : QString) (self : TwitterPlugin)
    (status : QTweetStatus) : TwitterPlugin :=
  let self1 : TwitterPlugin :=
    if status.id > self.m_cachedFriendsSinceId then
      { self with m_cachedFriendsSinceId := status.id }
    else self
  if status.screenName = myScreenName then self1
  else if regexExactMatch status.text then
    (if !self1.m_cachedPeers.contains status.screenName then
      registerOffer self1 status.screenName QHash.empty
    else self1)
  else self1

/-- `TwitterPlugin::friendsTimelineStatuses`. -/
def friendsTimelineStatuses (self : TwitterPlugin) (statuses : List QTweetStatus) :
    TwitterPlugin :=
  let self1 : TwitterPlugin :=
    statuses.foldl (friendsTimelineStatus self.settings.twitterScreenName) self
  let self2 : TwitterPlugin :=
    { self1 with
      settings :=
        { self1.settings with twitterCachedFriendsSinceId := self1.m_cachedFriendsSinceId }
      log := self1.log ++ [Effect.setTwitterCachedFriendsSinceId self1.m_cachedFriendsSinceId] }
  pollDirectMessages { self2 with m_finishedFriends := true }

/-- Body of the loop of `TwitterPlugin::mentionsStatuses` for one status. -/
def mentionsStatus (myScreenName : QString) (self : TwitterPlugin)
    (status : QTweetStatus) : TwitterPlugin :=
  let self1 : TwitterPlugin :=
    if status.id > self.m_cachedMentionsSinceId then
      { self with m_cachedMentionsSinceId := status.id }
    else self
  if status.screenName = myScreenName then self1
  else if regexExactMatch status.text then
    (if !self1.m_cachedPeers.contains status.screenName then
      registerOffer self1 status.screenName QHash.empty
    else self1)
  else self1

/-- `TwitterPlugin::mentionsStatuses`. -/
def mentionsStatuses (self : TwitterPlugin) (statuses : List QTweetStatus) :
    TwitterPlugin :=
  let self1 : TwitterPlugin :=
    statuses.foldl (mentionsStatus self.settings.twitterScreenName) self
  let self2 : TwitterPlugin :=
    { self1 with
      settings :=
        { self1.settings with twitterCachedMentionsSinceId := self1.m_cachedMentionsSinceId }
      log := self1.log ++
        [Effect.setTwitterCachedMentionsSinceId self1.m_cachedMentionsSinceId] }
  pollDirectMessages { self2 with m_finishedMentions := true }

/-- An offer read from the text of a direct message: `host`, `port`, `pkey`. -/
structure InboundOffer where
  host : QString
  port : Int
  pkey : QString
  deriving DecidableEq

/-- The checks `TwitterPlugin::directMessages` runs on the text of a message
(every `continue` is `none`) and the three values it reads from an accepted
text. -/
def parseOffer (text : QString) : Option InboundOffer :=
  let splitList := split ':' text
  if splitList.length ≠ 4 then none
  else if splitList.getD 0 [] ≠ qs "TOMAHAWKPEER" then none
  else if !startsWith (splitList.getD 1 []) (qs "Host=")
      || !startsWith (splitList.getD 2 []) (qs "Port=")
      || !startsWith (splitList.getD 3 []) (qs "PKey=") then none
  else
    let port := toInt (mid (splitList.getD 2 []) 5)
    if port = 0 then none
    else some ⟨mid (splitList.getD 1 []) 5, port, mid (splitList.getD 3 []) 5⟩

/-- Body of the loop of `TwitterPlugin::directMessages` for one message; the
second component is the local `peersChanged`. -/
def directMessage (acc : TwitterPlugin × Bool) (status : QTweetDMStatus) :
    TwitterPlugin × Bool :=
  let self := acc.1
  let self1 : TwitterPlugin :=
    if status.id > self.m_cachedDirectMessagesSinceId then
      { self with m_cachedDirectMessagesSinceId := status.id }
    else self
  match parseOffer status.text with
  | none => (self1, acc.2)
  | some offer =>
    let peerData0 : PeerData :=
      if self1.m_cachedPeers.contains status.senderScreenName then
        self1.m_cachedPeers.value status.senderScreenName QHash.empty
      else QHash.empty
    let peerData : PeerData :=
      ((peerData0.insert (qs "host") (QVariant.string offer.host)).insert
        (qs "port") (QVariant.int offer.port)).insert (qs "pkey") (QVariant.string offer.pkey)
    let self2 : TwitterPlugin :=
      { self1 with m_cachedPeers := self1.m_cachedPeers.insert status.senderScreenName peerData }
    let self3 : TwitterPlugin := registerOffer self2 status.senderScreenName peerData
    let self4 : TwitterPlugin :=
      if self3.m_directMessageDestroy then self3.emit (Effect.destroyMessage status.id)
      else self3
    (self4, true)

/-- `TwitterPlugin::directMessages`. -/
def directMessages (self : TwitterPlugin) (messages : List QTweetDMStatus) : TwitterPlugin :=
  let r := messages.foldl directMessage (self, false)
  let self1 : TwitterPlugin := if r.2 then r.1.setTwitterCachedPeers else r.1
  { self1 with
    settings :=
      { self1.settings with
        twitterCachedDirectMessagesSinceId := self1.m_cachedDirectMessagesSinceId }
    log := self1.log ++
      [Effect.setTwitterCachedDirectMessagesSinceId self1.m_cachedDirectMessagesSinceId] }

/-- Body of the loop of `TwitterPlugin::connectPlugin` for one cached screen
name. -/
def connectPeer (self : TwitterPlugin) (screenName : QString) : TwitterPlugin :=
  registerOffer self screenName (self.m_cachedPeers.value screenName QHash.empty)

/-- `TwitterPlugin::connectPlugin`: the state it leaves and the value it
returns. -/
def connectPlugin (self : TwitterPlugin) : TwitterPlugin × Bool :=
  let self1 : TwitterPlugin := { self with m_cachedPeers := self.settings.twitterCachedPeers }
  let self2 : TwitterPlugin := (qStableSort self1.m_cachedPeers.keys).foldl connectPeer self1
  if self2.settings.twitterOAuthToken.isEmpty || self2.settings.twitterOAuthTokenSecret.isEmpty
  then (self2, self2.m_cachedPeers.isEmpty)
  else (({ self2 with m_twitterAuth := true } : TwitterPlugin).emit Effect.verify, true)

/-- `TwitterPlugin::disconnectPlugin`; the call `m_cachedPeers.empty()` at its
end only asks whether the hash is empty. -/
def disconnectPlugin (self : TwitterPlugin) : TwitterPlugin :=
  let self1 : TwitterPlugin :=
    if self.m_friendsTimeline then self.emit Effect.friendsTimelineDeleteLater else self
  let self2 : TwitterPlugin :=
    if self1.m_twitterAuth then self1.emit Effect.twitterAuthDeleteLater else self1
  self2.setTwitterCachedPeers

/-- `TwitterPlugin::connectAuthVerifyReply` for a user with the given `id()` and
`screenName()`. -/
def connectAuthVerifyReply (self : TwitterPlugin) (id : Int) (screenName : QString) :
    TwitterPlugin :=
  if id = 0 then { self with m_isAuthed := false }
  else if self.m_twitterAuth then
    checkTimerFired
      { self with
        m_isAuthed := true
        settings := { self.settings with twitterScreenName := screenName }
        log := self.log ++ [Effect.setTwitterScreenName screenName]
        m_friendsTimeline := true
        m_mentions := true
        m_directMessages := true
        m_directMessageNew := true
        m_directMessageDestroy := true }
  else { self with m_isAuthed := false }

end TwitterPlugin

/-- The state without the parts `pollDirectMessages` works on: the two halves
of the barrier, the direct-message cursor and the effect log. -/
def outsideBarrier (self : TwitterPlugin) : TwitterPlugin :=
  { self with
    m_finishedFriends := false
    m_finishedMentions := false
    m_cachedDirectMessagesSinceId := 0
    log := [] }

/-- The log of `b` is the log of `a` followed by effects that all satisfy `ok`. -/
def LogExtends (ok : Effect → Bool) (a b : TwitterPlugin) : Prop :=
  ∃ extra : List Effect, b.log = a.log ++ extra ∧ ∀ e ∈ extra, ok e = true

/-- The effects `registerOffer` can log: a key registration, a post, a
connection attempt, a write of the peer cache. -/
def Effect.isRegisterOfferEffect : Effect → Bool
  | .createConnectionKey _ _ _ => true
  | .post _ _ => true
  | .connectToPeer _ _ _ _ _ => true
  | .setTwitterCachedPeers _ => true
  | _ => false

/-- The offer messages posted so far, oldest first. -/
def posts (self : TwitterPlugin) : List Effect := self.log.filter Effect.isPost

/-- The number of direct-message fetches issued so far. -/
def directMessageFetches (self : TwitterPlugin) : Nat :=
  self.log.countP Effect.isFetchDirectMessages

/-- What the loops of the two status handlers keep: the two halves of the
barrier, the binding of the direct-message client, the number of
direct-message fetches, and validity. -/
def BarrierKept (a b : TwitterPlugin) : Prop :=
  b.m_finishedFriends = a.m_finishedFriends ∧ b.m_finishedMentions = a.m_finishedMentions
    ∧ b.m_directMessages = a.m_directMessages
    ∧ directMessageFetches b = directMessageFetches a
    ∧ (a.isValid = true → b.isValid = true)

/-- The completion of one of the two fetches the barrier waits for, with the
batch it delivers. -/
inductive Completion
  | timeline (statuses : List QTweetStatus)
  | mentions (statuses : List QTweetStatus)

/-- True on a timeline completion. -/
def Completion.isTimeline : Completion → Bool
  | .timeline _ => true
  | .mentions _ => false

/-- True on a mentions completion. -/
def Completion.isMentions : Completion → Bool
  | .timeline _ => false
  | .mentions _ => true

/-- The handler that runs on a completion. -/
def complete (self : TwitterPlugin) : Completion → TwitterPlugin
  | .timeline statuses => self.friendsTimelineStatuses statuses
  | .mentions statuses => self.mentionsStatuses statuses

/-- None of the three cursors in memory is smaller in `b` than in `a`. -/
def CursorsLe (a b : TwitterPlugin) : Prop :=
  a.m_cachedFriendsSinceId ≤ b.m_cachedFriendsSinceId
    ∧ a.m_cachedMentionsSinceId ≤ b.m_cachedMentionsSinceId
    ∧ a.m_cachedDirectMessagesSinceId ≤ b.m_cachedDirectMessagesSinceId

/-- The cursor after a batch: `max( c, maximum id in the batch )`, which is `c`
for an empty batch. -/
def maxCursor (c : Int) (ids : List Int) : Int := ids.foldl max c

/-- A direct-message text that deviates from the marker format, in the words
of the spec: it does not split on `:` into exactly 4 fields, or its first field
is not `TOMAHAWKPEER`, or a field lacks its `Host=`, `Port=` or `PKey=` prefix,
or the port is non-numeric (`QString::toInt` reports a failed conversion) or
zero. -/
def Deviates (text : QString) : Prop :=
  (split ':' text).length ≠ 4
    ∨ (split ':' text).getD 0 [] ≠ qs "TOMAHAWKPEER"
    ∨ startsWith ((split ':' text).getD 1 []) (qs "Host=") = false
    ∨ startsWith ((split ':' text).getD 2 []) (qs "Port=") = false
    ∨ startsWith ((split ':' text).getD 3 []) (qs "PKey=") = false
    ∨ toIntOk (mid ((split ':' text).getD 2 []) 5) = none
    ∨ toIntOk (mid ((split ':' text).getD 2 []) 5) = some 0

/-- Two peer records that agree on every key other than `okey`, `ohst` and
`oprt`, the three keys `registerOffer` writes. -/
def SameRemote (a b : PeerData) : Prop :=
  ∀ key, key ≠ qs "okey" → key ≠ qs "ohst" → key ≠ qs "oprt" →
    a.get key = b.get key ∧ a.contains key = b.contains key

/-- A settings store with no cached peer, cursors `0`, no screen name and no
credentials. -/
def emptySettings : TomahawkSettings :=
  { twitterCachedPeers := QHash.empty
    twitterCachedFriendsSinceId := 0
    twitterCachedMentionsSinceId := 0
    twitterCachedDirectMessagesSinceId := 0
    twitterScreenName := []
    twitterOAuthToken := []
    twitterOAuthTokenSecret := [] }

/-- A servent at the external address `address`, `port`, connected to no
session, whose `createConnectionKey` returns the key it is given. -/
def serventAt (address : QString) (port : Int) : Servent :=
  { externalAddress := address
    externalPort := port
    sessions := []
    connectionKey := fun _ _ key => key }

/-- A settings store without credentials that holds one cached peer, `peer`,
with the record `peerData`, and the value `cursor` for each of the three
cursors. -/
def settingsWithPeer (peerData : PeerData) (cursor : Int) : TomahawkSettings :=
  { emptySettings with
    twitterCachedPeers := QHash.empty.insert (qs "peer") peerData
    twitterCachedFriendsSinceId := cursor
    twitterCachedMentionsSinceId := cursor
    twitterCachedDirectMessagesSinceId := cursor }

/-- A settings store with credentials and nothing else. -/
def settingsWithCredentials : TomahawkSettings :=
  { emptySettings with
    twitterOAuthToken := qs "token"
    twitterOAuthTokenSecret := qs "secret" }

/-- A uuid sequence: the same uuid text at every draw. -/
def sampleUuids (_ : Nat) : QString := qs "\x7b6ba7b810-9dad-11d1-80b4-00c04fd430c8\x7d"

/-- The plugin once `connectPlugin` found credentials and the relay verified
them for the user `me`: authed, with every client bound. -/
def authedPlugin (servent : Servent) : TwitterPlugin :=
  TwitterPlugin.connectAuthVerifyReply
    (TwitterPlugin.connectPlugin
      (TwitterPlugin.init settingsWithCredentials servent sampleUuids)).1 42 (qs "me")

/-- A peer record that holds nothing but the advertised address `ohst`, `oprt`
and the local handshake key `okey`. -/
def advertisedRecord (h : QString) (p : Int) (k : QString) : PeerData :=
  ((QHash.empty.insert (qs "ohst") (QVariant.string h)).insert
    (qs "oprt") (QVariant.int p)).insert (qs "okey") (QVariant.string k)

/-- A record with remote host, remote port and remote handshake key. -/
def Connectable (peerData : PeerData) : Bool :=
  peerData.contains (qs "host") && peerData.contains (qs "port")
    && peerData.contains (qs "pkey")

namespace TwitterPlugin.RegisterOffer

/-- The frame of `registerOffer` when it reaches the block
`if( needToAddToCache )`: the three blocks before it have set the record and
the flags. -/
def decided (self : TwitterPlugin) (peerData : PeerData) : RegisterOffer :=
  checkAdvertised (checkKeyCache (generateKey ⟨self, peerData, false, false, false⟩))

/-- The record after the block `if( needToSend )`. -/
def sent (f : RegisterOffer) : PeerData :=
  if f.needToSend then f.advertise else f.peerData

/-- The peer cache in memory after the block `if( needToSend )`. -/
def cache (screenName : QString) (f : RegisterOffer) : QHash PeerData :=
  if f.needToSend then f.plugin.m_cachedPeers.insert screenName f.advertise
  else f.plugin.m_cachedPeers

/-- The registration logged by the block `if( needToAddToCache )`, if any. -/
def registrationEffects (screenName : QString) (f : RegisterOffer) : List Effect :=
  if f.needToAddToCache then
    [Effect.createConnectionKey ('@' :: screenName) ('@' :: screenName)
      (f.peerData.get (qs "okey")).toString]
  else []

/-- The post logged by the block `if( needToSend )`, if any. -/
def sendEffects (screenName : QString) (f : RegisterOffer) : List Effect :=
  if f.needToSend && f.plugin.m_directMessageNew then
    [Effect.post screenName (TwitterPlugin.offerString f.advertise)]
  else []

/-- The connection attempt logged through `makeConnection`, if any. -/
def connectEffects (screenName : QString) (f : RegisterOffer) : List Effect :=
  if Connectable f.sent && !f.plugin.servent.sessions.contains ('@' :: screenName) then
    [Effect.connectToPeer (f.sent.get (qs "host")).toString
      (toInt (f.sent.get (qs "port")).toString) (f.sent.get (qs "pkey")).toString
      ('@' :: screenName) ('@' :: screenName)]
  else []

/-- The write of the peer cache logged by the block `if ( peersChanged )`, if
any. -/
def persistEffects (screenName : QString) (f : RegisterOffer) : List Effect :=
  if f.peersChanged || f.needToSend then [Effect.setTwitterCachedPeers (f.cache screenName)]
  else []

/-- The effects of the blocks from `if( needToAddToCache )` on, in program
order. -/
def effects (screenName : QString) (f : RegisterOffer) : List Effect :=
  f.registrationEffects screenName ++ (f.sendEffects screenName
    ++ (f.connectEffects screenName ++ f.persistEffects screenName))

end TwitterPlugin.RegisterOffer

/-- The test of `registerOffer` on the advertised address of a record: `true`
when `ohst` or `oprt` is missing or differs from the servent's external
address. -/
def stale (servent : Servent) (peerData : PeerData) : Bool :=
  !peerData.contains (qs "ohst") || !peerData.contains (qs "oprt")
    || decide ((peerData.get (qs "ohst")).toString ≠ servent.externalAddress)
    || decide ((peerData.get (qs "oprt")).toInt ≠ servent.externalPort)

deriving instance DecidableEq for QHash

deriving instance DecidableEq for Effect

/-- The cached record of `identity` holds the local handshake key `okey`. -/
def HoldsKey (self : TwitterPlugin) (identity : QString) (okey : QVariant) : Prop :=
  self.m_cachedPeers.contains identity = true
    ∧ (self.m_cachedPeers.value identity QHash.empty).contains (qs "okey") = true
    ∧ (self.m_cachedPeers.value identity QHash.empty).get (qs "okey") = okey

/-- True on every effect but the registration, for `identity`, of a key other
than `key`. -/
def Effect.keepsKey (identity key : QString) : Effect → Bool
  | .createConnectionKey name _ k => decide (name ≠ '@' :: identity) || decide (k = key)
  | _ => true

/-- The message id of a `destroyMessage` effect. -/
def Effect.destroyedId : Effect → Option Int
  | .destroyMessage id => some id
  | _ => none

/-- The ids of the messages whose deletion has been requested so far, oldest
first. -/
def destroyedIds (self : TwitterPlugin) : List Int := self.log.filterMap Effect.destroyedId

/-- True on a message whose text `directMessages` accepts as an offer. -/
def isOffer (status : QTweetDMStatus) : Bool := (TwitterPlugin.parseOffer status.text).isSome

/-- The test the loops of `friendsTimelineStatuses` and `mentionsStatuses` run
before they invoke `registerOffer` for the author of a status: the author is
not the local screen name, the text matches the pattern, and `m_cachedPeers`
holds no record of the author. -/
def discovered (myScreenName : QString) (self : TwitterPlugin) (status : QTweetStatus) : Bool :=
  decide (status.screenName ≠ myScreenName) && TwitterPlugin.regexExactMatch status.text
    && !self.m_cachedPeers.contains status.screenName

/-- The record `registerOffer` builds from an empty record on the state `self`:
a key from the next uuid, then the external address of the servent as
advertised address. -/
def discoveryRecord (self : TwitterPlugin) : PeerData :=
  ((QHash.empty.insert (qs "okey")
      (QVariant.string (TwitterPlugin.freshKey (self.uuids self.uuidsTaken)))).insert
    (qs "ohst") (QVariant.string self.servent.externalAddress)).insert
    (qs "oprt") (QVariant.int self.servent.externalPort)

/-- True on the effects addressed to `identity`: a post to it, a registration
of a connection key under the name `@identity`, and a connection attempt to
the node `@identity`. -/
def Effect.concerns (identity : QString) : Effect → Bool
  | .post screenName _ => decide (screenName = identity)
  | .createConnectionKey name _ _ => decide (name = '@' :: identity)
  | .connectToPeer _ _ _ name _ => decide (name = '@' :: identity)
  | _ => false

/-- What the bodies of the loops of `friendsTimelineStatuses` and
`mentionsStatuses` have in common: on a state that differs from the one they
are given in nothing the offer registration reads, they invoke `registerOffer`
with an empty record when the author is discovered, and do nothing else. -/
def DiscoveryStep (myScreenName : QString)
    (step : TwitterPlugin → QTweetStatus → TwitterPlugin) : Prop :=
  ∀ (self : TwitterPlugin) (status : QTweetStatus), ∃ self1 : TwitterPlugin,
    self1.m_cachedPeers = self.m_cachedPeers ∧ self1.log = self.log
      ∧ self1.uuids = self.uuids ∧ self1.uuidsTaken = self.uuidsTaken
      ∧ self1.servent = self.servent ∧ self1.m_directMessageNew = self.m_directMessageNew
      ∧ step self status
          = if discovered myScreenName self status then
              TwitterPlugin.registerOffer self1 status.screenName QHash.empty
            else self1

/-- The effects addressed to `identity` when `registerOffer` runs for it with
an empty record on the state `self`, the message client being bound: the
registration of the generated key and the post of the offer. -/
def discoveryEffects (self : TwitterPlugin) (identity : QString) : List Effect :=
  [Effect.createConnectionKey ('@' :: identity) ('@' :: identity)
      (TwitterPlugin.freshKey (self.uuids self.uuidsTaken)),
    Effect.post identity (TwitterPlugin.offerString (discoveryRecord self))]

/-- The peer cache persisted in the settings store equals the peer cache in
memory. -/
def PeersPersisted (self : TwitterPlugin) : Prop :=
  self.settings.twitterCachedPeers = self.m_cachedPeers

/-- The states of a plugin between two of its operations, once `connectPlugin`
has run: the state `connectPlugin` leaves, and every state one of the
operations of the plugin leaves when it starts from such a state. -/
inductive Connected : TwitterPlugin → Prop
  | afterConnectPlugin (self : TwitterPlugin) : Connected (TwitterPlugin.connectPlugin self).1
  | afterRegisterOffer {self : TwitterPlugin} (screenName : QString) (peerData : PeerData) :
      Connected self → Connected (TwitterPlugin.registerOffer self screenName peerData)
  | afterFriendsTimelineStatuses {self : TwitterPlugin} (statuses : List QTweetStatus) :
      Connected self → Connected (TwitterPlugin.friendsTimelineStatuses self statuses)
  | afterMentionsStatuses {self : TwitterPlugin} (statuses : List QTweetStatus) :
      Connected self → Connected (TwitterPlugin.mentionsStatuses self statuses)
  | afterDirectMessages {self : TwitterPlugin} (messages : List QTweetDMStatus) :
      Connected self → Connected (TwitterPlugin.directMessages self messages)
  | afterConnectTimerFired {self : TwitterPlugin} :
      Connected self → Connected (TwitterPlugin.connectTimerFired self)
  | afterCheckTimerFired {self : TwitterPlugin} :
      Connected self → Connected (TwitterPlugin.checkTimerFired self)
  | afterPollDirectMessages {self : TwitterPlugin} :
      Connected self → Connected (TwitterPlugin.pollDirectMessages self)
  | afterConnectAuthVerifyReply {self : TwitterPlugin} (id : Int) (screenName : QString) :
      Connected self → Connected (TwitterPlugin.connectAuthVerifyReply self id screenName)
  | afterDisconnectPlugin {self : TwitterPlugin} :
      Connected self → Connected (TwitterPlugin.disconnectPlugin self)

/-- The call `Servent::connectToPeer` that `makeConnection` issues for
`screenName` from the record `peerData`. -/
def connectAttempt (screenName : QString) (peerData : PeerData) : Effect :=
  Effect.connectToPeer (peerData.get (qs "host")).toString
    (toInt (peerData.get (qs "port")).toString) (peerData.get (qs "pkey")).toString
    ('@' :: screenName) ('@' :: screenName)

/-- A peer record that holds nothing but the remote address `host`, `port` and
the remote handshake key `pkey`. -/
def remoteRecord (h : QString) (p : Int) (k : QString) : PeerData :=
  ((QHash.empty.insert (qs "host") (QVariant.string h)).insert
    (qs "port") (QVariant.int p)).insert (qs "pkey") (QVariant.string k)

/-- The authed plugin of `me` with one cached peer, `peer`, whose record is
`peerData`. -/
def authedPluginWithPeer (servent : Servent) (peerData : PeerData) : TwitterPlugin :=
  { authedPlugin servent with m_cachedPeers := QHash.empty.insert (qs "peer") peerData }

open TwitterPlugin

/-! ## Lemmas on the string primitives -/

theorem split_of_not_mem (sep : Char) (a : QString) (h : sep ∉ a) : split sep a = [a] := by
  induction a with
  | nil => rfl
  | cons c cs ih =>
    have hc : c ≠ sep := fun e => h (by simp [e])
    have hcs : sep ∉ cs := fun e => h (by simp [e])
    simp [split, hc, ih hcs]

theorem split_append_sep (sep : Char) (a b : QString) (h : sep ∉ a) :
    split sep (a ++ sep :: b) = a :: split sep b := by
  induction a with
  | nil => simp [split]
  | cons c cs ih =>
    have hc : c ≠ sep := fun e => h (by simp [e])
    have hcs : sep ∉ cs := fun e => h (by simp [e])
    simp [split, hc, ih hcs]

theorem findArgEscapes_append (pre rest : QString) (h : '%' ∉ pre) :
    findArgEscapes (pre ++ rest) = findArgEscapes rest := by
  induction pre with
  | nil => rfl
  | cons c cs ih =>
    have hc : c ≠ '%' := fun e => h (by simp [e])
    have hcs : '%' ∉ cs := fun e => h (by simp [e])
    simp [findArgEscapes, hc, ih hcs]

theorem replaceArgEscapes_append (m : Nat) (a pre rest : QString) (h : '%' ∉ pre) :
    replaceArgEscapes m a 0 (pre ++ rest) = pre ++ replaceArgEscapes m a 0 rest := by
  induction pre with
  | nil => rfl
  | cons c cs ih =>
    have hc : c ≠ '%' := fun e => h (by simp [e])
    have hcs : '%' ∉ cs := fun e => h (by simp [e])
    simp [replaceArgEscapes, hc, ih hcs]

theorem toNat_digit (k : Nat) (hk : k < 10) : (Char.ofNat (48 + k)).toNat = 48 + k := by
  interval_cases k <;> rfl

theorem digitValue_digit (k : Nat) (hk : k < 10) : digitValue (Char.ofNat (48 + k)) = some k := by
  interval_cases k <;> rfl

theorem numberDigits_acc (fuel n : Nat) (acc : QString) :
    numberDigits fuel n acc = numberDigits fuel n [] ++ acc := by
  induction fuel generalizing n acc with
  | zero => rfl
  | succ f ih =>
    simp only [numberDigits]
    split
    · rfl
    · rw [ih, ih (n / 10) [_]]; simp

theorem digitsValue_append (acc : Nat) (xs ys : QString) :
    digitsValue acc (xs ++ ys) = (digitsValue acc xs).bind (fun v => digitsValue v ys) := by
  induction xs generalizing acc with
  | nil => rfl
  | cons c cs ih =>
    simp only [List.cons_append, digitsValue]
    cases digitValue c with
    | none => rfl
    | some d => exact ih _

theorem digitsValue_numberDigits (fuel n : Nat) (h : n < fuel) :
    digitsValue 0 (numberDigits fuel n []) = some n := by
  induction fuel generalizing n with
  | zero => omega
  | succ f ih =>
    simp only [numberDigits]
    split
    · rename_i h0
      simp only [digitsValue, digitValue_digit (n % 10) (Nat.mod_lt _ (by decide))]
      congr 1; omega
    · rename_i h0
      rw [numberDigits_acc, digitsValue_append, ih (n / 10) (by omega)]
      simp only [Option.bind, digitsValue, digitValue_digit (n % 10) (Nat.mod_lt _ (by decide))]
      congr 1; omega

theorem numberDigits_chars (fuel n : Nat) (acc : QString) (c : Char)
    (h : c ∈ numberDigits fuel n acc) : c ∈ acc ∨ isDigitChar c := by
  induction fuel generalizing n acc with
  | zero => exact Or.inl h
  | succ f ih =>
    have hd : isDigitChar (Char.ofNat (48 + n % 10)) := by
      unfold isDigitChar
      rw [toNat_digit _ (Nat.mod_lt _ (by decide))]
      omega
    simp only [numberDigits] at h
    split at h
    · rcases List.mem_cons.1 h with e | e
      · exact Or.inr (e ▸ hd)
      · exact Or.inl e
    · rcases ih _ _ h with e | e
      · rcases List.mem_cons.1 e with e | e
        · exact Or.inr (e ▸ hd)
        · exact Or.inl e
      · exact Or.inr e

theorem numberDigits_ne_nil (n : Nat) : numberDigits (n + 1) n [] ≠ [] := by
  simp only [numberDigits]
  split
  · simp
  · rw [numberDigits_acc]; simp

/-- Every character of `number n` is a digit or the minus sign. -/
theorem number_chars (n : Int) (c : Char) (h : c ∈ number n) : c = '-' ∨ isDigitChar c := by
  cases n with
  | ofNat m =>
    rcases numberDigits_chars _ _ _ _ h with e | e
    · simp at e
    · exact Or.inr e
  | negSucc m =>
    rcases List.mem_cons.1 h with e | e
    · exact Or.inl e
    · rcases numberDigits_chars _ _ _ _ e with e | e
      · simp at e
      · exact Or.inr e

theorem colon_not_mem_number (n : Int) : ':' ∉ number n := by
  intro h
  rcases number_chars n _ h with e | e
  · exact absurd e (by decide)
  · exact absurd e (by unfold isDigitChar; decide)

theorem percent_not_mem_number (n : Int) : '%' ∉ number n := by
  intro h
  rcases number_chars n _ h with e | e
  · exact absurd e (by decide)
  · exact absurd e (by unfold isDigitChar; decide)

theorem dropWhile_isSpace_of_none (s : QString) (h : ∀ c ∈ s, isSpace c = false) :
    s.dropWhile isSpace = s := by
  cases s with
  | nil => rfl
  | cons c cs => simp [List.dropWhile, h c (by simp)]

theorem trimmed_of_none (s : QString) (h : ∀ c ∈ s, isSpace c = false) : trimmed s = s := by
  unfold trimmed
  rw [dropWhile_isSpace_of_none s h,
    dropWhile_isSpace_of_none s.reverse (fun c hc => h c (List.mem_reverse.1 hc))]
  simp

theorem isSpace_of_digit (c : Char) (h : isDigitChar c) : isSpace c = false := by
  unfold isDigitChar at h
  unfold isSpace
  simp only [Bool.or_eq_false_iff, Bool.and_eq_false_iff, decide_eq_false_iff_not]
  omega

theorem number_no_space (n : Int) : ∀ c ∈ number n, isSpace c = false := by
  intro c h
  rcases number_chars n c h with e | e
  · subst e; decide
  · exact isSpace_of_digit c e

theorem signedValue_digits (ds : QString) (hne : ds ≠ [])
    (hd : ∀ c ∈ ds, isDigitChar c) :
    signedValue ds = (digitsValue 0 ds).map (fun n => (n : Int)) := by
  cases ds with
  | nil => exact absurd rfl hne
  | cons c cs =>
    have hc : isDigitChar c := hd c (by simp)
    have h1 : c ≠ '-' := fun e => absurd (e ▸ hc) (by unfold isDigitChar; decide)
    have h2 : c ≠ '+' := fun e => absurd (e ▸ hc) (by unfold isDigitChar; decide)
    simp [signedValue, h1, h2]

theorem numberDigits_all_digits (n : Nat) : ∀ c ∈ numberDigits (n + 1) n [], isDigitChar c := by
  intro c h
  rcases numberDigits_chars _ _ _ _ h with e | e
  · simp at e
  · exact e

theorem signedValue_number (n : Int) : signedValue (number n) = some n := by
  cases n with
  | ofNat m =>
    show signedValue (numberDigits (m + 1) m []) = some (Int.ofNat m)
    rw [signedValue_digits _ (numberDigits_ne_nil m) (numberDigits_all_digits m),
      digitsValue_numberDigits _ _ (Nat.lt_succ_self m)]
    rfl
  | negSucc m =>
    show signedValue ('-' :: numberDigits (m + 2) (m + 1) []) = some (Int.negSucc m)
    have hne := numberDigits_ne_nil (m + 1)
    simp only [signedValue, if_true]
    cases hds : numberDigits (m + 2) (m + 1) [] with
    | nil => exact absurd hds hne
    | cons c cs =>
      rw [← hds, digitsValue_numberDigits _ _ (Nat.lt_succ_self (m + 1))]
      simp [Int.negSucc_eq, hds]

/-- `QString::number` followed by `QString::toInt` gives back every `int`. -/
theorem toInt_number (n : Int) (h : INT_MIN ≤ n ∧ n ≤ INT_MAX) : toInt (number n) = n := by
  unfold toInt toIntOk
  rw [trimmed_of_none _ (number_no_space n), signedValue_number]
  simp [h]

/-! ## The offer text and its parse -/

theorem arg_host (h : QString) :
    arg (qs "TOMAHAWKPEER:Host=%1:Port=%2:PKey=%3") h
      = qs "TOMAHAWKPEER:Host=" ++ (h ++ qs ":Port=%2:PKey=%3") := by
  have hf : findArgEscapes (qs "TOMAHAWKPEER:Host=%1:Port=%2:PKey=%3") = some 1 := by decide
  unfold arg
  rw [hf]
  rfl

theorem arg_port (h a : QString) (hh : '%' ∉ h) :
    arg (qs "TOMAHAWKPEER:Host=" ++ (h ++ qs ":Port=%2:PKey=%3")) a
      = qs "TOMAHAWKPEER:Host=" ++ (h ++ (qs ":Port=" ++ (a ++ qs ":PKey=%3"))) := by
  have h0 : '%' ∉ qs "TOMAHAWKPEER:Host=" := by decide
  have hf : findArgEscapes (qs ":Port=%2:PKey=%3") = some 2 := by decide
  unfold arg
  rw [findArgEscapes_append _ _ h0, findArgEscapes_append _ _ hh, hf]
  show replaceArgEscapes 2 a 0 _ = _
  rw [replaceArgEscapes_append _ _ _ _ h0, replaceArgEscapes_append _ _ _ _ hh]
  rfl

theorem arg_pkey (h a k : QString) (hh : '%' ∉ h) (ha : '%' ∉ a) :
    arg (qs "TOMAHAWKPEER:Host=" ++ (h ++ (qs ":Port=" ++ (a ++ qs ":PKey=%3")))) k
      = qs "TOMAHAWKPEER:Host=" ++ (h ++ (qs ":Port=" ++ (a ++ (qs ":PKey=" ++ k)))) := by
  have h0 : '%' ∉ qs "TOMAHAWKPEER:Host=" := by decide
  have h1 : '%' ∉ qs ":Port=" := by decide
  have hf : findArgEscapes (qs ":PKey=%3") = some 3 := by decide
  unfold arg
  rw [findArgEscapes_append _ _ h0, findArgEscapes_append _ _ hh, findArgEscapes_append _ _ h1,
    findArgEscapes_append _ _ ha, hf]
  show replaceArgEscapes 3 k 0 _ = _
  rw [replaceArgEscapes_append _ _ _ _ h0, replaceArgEscapes_append _ _ _ _ hh,
    replaceArgEscapes_append _ _ _ _ h1, replaceArgEscapes_append _ _ _ _ ha]
  have hr : replaceArgEscapes 3 k 0 (qs ":PKey=%3") = qs ":PKey=" ++ (k ++ []) := rfl
  rw [hr, List.append_nil]

/-- The text `sendOffer` builds from a record whose advertised host has no
`%`: the three values in the marker format. -/
theorem offerString_eq (peerData : PeerData) (h k : QString) (p : Int)
    (hh : '%' ∉ h)
    (h1 : peerData.get (qs "ohst") = QVariant.string h)
    (h2 : peerData.get (qs "oprt") = QVariant.int p)
    (h3 : peerData.get (qs "okey") = QVariant.string k) :
    offerString peerData
      = qs "TOMAHAWKPEER:Host=" ++ (h ++ (qs ":Port=" ++ (number p ++ (qs ":PKey=" ++ k)))) := by
  unfold offerString
  rw [h1, h2, h3]
  simp only [QVariant.toString]
  rw [arg_host, arg_port _ _ hh, arg_pkey _ _ _ hh (percent_not_mem_number p)]

theorem parseOffer_marker (h a k : QString) (hh : ':' ∉ h) (ha : ':' ∉ a) (hk : ':' ∉ k) :
    parseOffer (qs "TOMAHAWKPEER:Host=" ++ (h ++ (qs ":Port=" ++ (a ++ (qs ":PKey=" ++ k)))))
      = if toInt a = 0 then none else some ⟨h, toInt a, k⟩ := by
  have hs : split ':' (qs "TOMAHAWKPEER:Host=" ++ (h ++ (qs ":Port=" ++ (a ++ (qs ":PKey=" ++ k)))))
      = [qs "TOMAHAWKPEER", qs "Host=" ++ h, qs "Port=" ++ a, qs "PKey=" ++ k] := by
    have e1 : qs "TOMAHAWKPEER:Host=" ++ (h ++ (qs ":Port=" ++ (a ++ (qs ":PKey=" ++ k))))
        = qs "TOMAHAWKPEER" ++ ':' :: ((qs "Host=" ++ h) ++ ':' :: ((qs "Port=" ++ a)
            ++ ':' :: (qs "PKey=" ++ k))) := by
      simp [qs]
    have c0 : ':' ∉ qs "TOMAHAWKPEER" := by decide
    have c1 : ':' ∉ qs "Host=" ++ h := by
      intro hm
      rcases List.mem_append.1 hm with e | e
      · exact absurd e (by decide)
      · exact hh e
    have c2 : ':' ∉ qs "Port=" ++ a := by
      intro hm
      rcases List.mem_append.1 hm with e | e
      · exact absurd e (by decide)
      · exact ha e
    have c3 : ':' ∉ qs "PKey=" ++ k := by
      intro hm
      rcases List.mem_append.1 hm with e | e
      · exact absurd e (by decide)
      · exact hk e
    rw [e1, split_append_sep _ _ _ c0, split_append_sep _ _ _ c1, split_append_sep _ _ _ c2,
      split_of_not_mem _ _ c3]
  unfold parseOffer
  simp only [hs]
  simp [startsWith, mid, qs]

/-! ## Frame lemmas: what `registerOffer` and its callees leave alone -/

theorem sendOffer_outsidePeers (self : TwitterPlugin) (screenName : QString)
    (peerData : PeerData) :
    outsidePeers (sendOffer self screenName peerData) = outsidePeers self := by
  unfold sendOffer emit outsidePeers
  split <;> rfl

theorem makeConnection_outsidePeers (self : TwitterPlugin) (screenName : QString)
    (peerData : PeerData) :
    outsidePeers (makeConnection self screenName peerData) = outsidePeers self := by
  unfold makeConnection emit outsidePeers
  split
  · rfl
  · dsimp only
    split <;> rfl

theorem generateKey_outsidePeers (f : RegisterOffer) :
    outsidePeers f.generateKey.plugin = outsidePeers f.plugin := by
  unfold RegisterOffer.generateKey
  split <;> rfl

theorem checkKeyCache_plugin (f : RegisterOffer) : f.checkKeyCache.plugin = f.plugin := by
  unfold RegisterOffer.checkKeyCache
  split <;> rfl

theorem checkAdvertised_plugin (f : RegisterOffer) : f.checkAdvertised.plugin = f.plugin := by
  unfold RegisterOffer.checkAdvertised
  split <;> rfl

theorem addToCache_outsidePeers (node : QString) (f : RegisterOffer) :
    outsidePeers (f.addToCache node).plugin = outsidePeers f.plugin := by
  unfold RegisterOffer.addToCache
  split <;> rfl

theorem send_outsidePeers (screenName : QString) (f : RegisterOffer) :
    outsidePeers (f.send screenName).plugin = outsidePeers f.plugin := by
  unfold RegisterOffer.send
  split
  · dsimp only
    rw [sendOffer_outsidePeers]
    rfl
  · rfl

theorem connect_outsidePeers (screenName : QString) (f : RegisterOffer) :
    outsidePeers (f.connect screenName).plugin = outsidePeers f.plugin := by
  unfold RegisterOffer.connect
  split
  · exact makeConnection_outsidePeers _ _ _
  · rfl

theorem persist_outsidePeers (f : RegisterOffer) :
    outsidePeers f.persist = outsidePeers f.plugin := by
  unfold RegisterOffer.persist
  split <;> rfl

/-- `registerOffer` changes nothing but the peer cache, the key cache, the
number of consumed uuids, the effect log and the persisted peer cache. -/
theorem registerOffer_outsidePeers (self : TwitterPlugin) (screenName : QString)
    (peerData : PeerData) :
    outsidePeers (registerOffer self screenName peerData) = outsidePeers self := by
  unfold registerOffer
  rw [persist_outsidePeers, connect_outsidePeers, send_outsidePeers, addToCache_outsidePeers,
    checkAdvertised_plugin, checkKeyCache_plugin, generateKey_outsidePeers]

/-! ## Lemmas on `QHash` -/

namespace QHash

variable {α : Type}

theorem find_set_same (es : List (QString × α)) (key : QString) (v : α) :
    find (set es key v) key = some v := by
  induction es with
  | nil => simp [set, find]
  | cons e es ih =>
    unfold set
    split
    · simp [find]
    · rename_i hne
      simp [find, hne, ih]

theorem find_set_ne (es : List (QString × α)) (key key1 : QString) (v : α) (h : key1 ≠ key) :
    find (set es key v) key1 = find es key1 := by
  induction es with
  | nil => simp [set, find, Ne.symm h]
  | cons e es ih =>
    unfold set
    split
    · rename_i he
      have : e.1 ≠ key1 := fun e1 => h (e1 ▸ he)
      simp [find, Ne.symm h, this]
    · simp [find, ih]

theorem contains_eq_isSome (h : QHash α) (key : QString) :
    h.contains key = (find h.entries key).isSome := by
  unfold contains
  induction h.entries with
  | nil => rfl
  | cons e es ih =>
    simp only [List.any_cons, find]
    split
    · rename_i he
      simp [he]
    · rename_i he
      simp [he, ih]

theorem value_insert_same (h : QHash α) (key : QString) (v dflt : α) :
    (h.insert key v).value key dflt = v := by
  simp [value, insert, find_set_same]

theorem value_insert_ne (h : QHash α) (key key1 : QString) (v dflt : α) (hne : key1 ≠ key) :
    (h.insert key v).value key1 dflt = h.value key1 dflt := by
  simp [value, insert, find_set_ne _ _ _ _ hne]

theorem contains_insert_same (h : QHash α) (key : QString) (v : α) :
    (h.insert key v).contains key = true := by
  simp [contains_eq_isSome, insert, find_set_same]

theorem contains_insert_ne (h : QHash α) (key key1 : QString) (v : α) (hne : key1 ≠ key) :
    (h.insert key v).contains key1 = h.contains key1 := by
  simp [contains_eq_isSome, insert, find_set_ne _ _ _ _ hne]

theorem isEmpty_insert (h : QHash α) (key : QString) (v : α) :
    (h.insert key v).isEmpty = false := by
  unfold isEmpty insert
  cases h.entries with
  | nil => rfl
  | cons e es =>
    simp only [set]
    split <;> rfl

end QHash

theorem peerData_get_insert_same (peerData : PeerData) (key : QString) (v : QVariant) :
    PeerData.get (peerData.insert key v) key = v :=
  QHash.value_insert_same _ _ _ _

theorem peerData_get_insert_ne (peerData : PeerData) (key key1 : QString) (v : QVariant)
    (hne : key1 ≠ key) : PeerData.get (peerData.insert key v) key1 = PeerData.get peerData key1 :=
  QHash.value_insert_ne _ _ _ _ _ hne

/-! ## What `registerOffer` does to the peer cache -/

theorem sameRemote_refl (a : PeerData) : SameRemote a a := fun _ _ _ _ => ⟨rfl, rfl⟩

theorem sameRemote_trans {a b c : PeerData} (h1 : SameRemote a b) (h2 : SameRemote b c) :
    SameRemote a c := fun key k1 k2 k3 =>
  ⟨(h1 key k1 k2 k3).1.trans (h2 key k1 k2 k3).1, (h1 key k1 k2 k3).2.trans (h2 key k1 k2 k3).2⟩

theorem sameRemote_insert_okey (a : PeerData) (v : QVariant) :
    SameRemote (a.insert (qs "okey") v) a := fun _ k1 _ _ =>
  ⟨peerData_get_insert_ne _ _ _ _ k1, QHash.contains_insert_ne _ _ _ _ k1⟩

theorem sameRemote_insert_ohst (a : PeerData) (v : QVariant) :
    SameRemote (a.insert (qs "ohst") v) a := fun _ _ k2 _ =>
  ⟨peerData_get_insert_ne _ _ _ _ k2, QHash.contains_insert_ne _ _ _ _ k2⟩

theorem sameRemote_insert_oprt (a : PeerData) (v : QVariant) :
    SameRemote (a.insert (qs "oprt") v) a := fun _ _ _ k3 =>
  ⟨peerData_get_insert_ne _ _ _ _ k3, QHash.contains_insert_ne _ _ _ _ k3⟩

theorem generateKey_spec (f : RegisterOffer) :
    f.generateKey.plugin.m_cachedPeers = f.plugin.m_cachedPeers
      ∧ SameRemote f.generateKey.peerData f.peerData := by
  unfold RegisterOffer.generateKey
  split
  · exact ⟨rfl, sameRemote_insert_okey _ _⟩
  · exact ⟨rfl, sameRemote_refl _⟩

theorem checkKeyCache_peerData (f : RegisterOffer) : f.checkKeyCache.peerData = f.peerData := by
  unfold RegisterOffer.checkKeyCache
  split <;> rfl

theorem checkAdvertised_peerData (f : RegisterOffer) :
    f.checkAdvertised.peerData = f.peerData := by
  unfold RegisterOffer.checkAdvertised
  split <;> rfl

theorem addToCache_spec (node : QString) (f : RegisterOffer) :
    (f.addToCache node).plugin.m_cachedPeers = f.plugin.m_cachedPeers
      ∧ (f.addToCache node).peerData = f.peerData := by
  unfold RegisterOffer.addToCache
  split <;> exact ⟨rfl, rfl⟩

theorem sendOffer_cachedPeers (self : TwitterPlugin) (screenName : QString)
    (peerData : PeerData) :
    (sendOffer self screenName peerData).m_cachedPeers = self.m_cachedPeers := by
  unfold sendOffer emit
  split <;> rfl

theorem makeConnection_cachedPeers (self : TwitterPlugin) (screenName : QString)
    (peerData : PeerData) :
    (makeConnection self screenName peerData).m_cachedPeers = self.m_cachedPeers := by
  unfold makeConnection emit
  split
  · rfl
  · dsimp only
    split <;> rfl

theorem advertise_sameRemote (f : RegisterOffer) : SameRemote f.advertise f.peerData :=
  sameRemote_trans (sameRemote_insert_oprt _ _) (sameRemote_insert_ohst _ _)

theorem send_spec (screenName : QString) (f : RegisterOffer) :
    ((f.send screenName).plugin.m_cachedPeers = f.plugin.m_cachedPeers
        ∧ (f.send screenName).peerData = f.peerData)
      ∨ ((f.send screenName).plugin.m_cachedPeers
            = f.plugin.m_cachedPeers.insert screenName (f.send screenName).peerData
          ∧ SameRemote (f.send screenName).peerData f.peerData) := by
  unfold RegisterOffer.send
  split
  · right
    dsimp only
    rw [sendOffer_cachedPeers]
    exact ⟨rfl, advertise_sameRemote f⟩
  · left
    exact ⟨rfl, rfl⟩

theorem connect_spec (screenName : QString) (f : RegisterOffer) :
    (f.connect screenName).plugin.m_cachedPeers = f.plugin.m_cachedPeers
      ∧ (f.connect screenName).peerData = f.peerData := by
  unfold RegisterOffer.connect
  split
  · exact ⟨makeConnection_cachedPeers _ _ _, rfl⟩
  · exact ⟨rfl, rfl⟩

theorem persist_cachedPeers (f : RegisterOffer) :
    f.persist.m_cachedPeers = f.plugin.m_cachedPeers := by
  unfold RegisterOffer.persist
  split <;> rfl

/-- After `registerOffer` the peer cache is the one before the call, or the one
before the call with a record stored under `screenName` that agrees with
`peerData` on every key but `okey`, `ohst` and `oprt`. -/
theorem registerOffer_cachedPeers (self : TwitterPlugin) (screenName : QString)
    (peerData : PeerData) :
    (registerOffer self screenName peerData).m_cachedPeers = self.m_cachedPeers
      ∨ ∃ stored : PeerData, SameRemote stored peerData
          ∧ (registerOffer self screenName peerData).m_cachedPeers
              = self.m_cachedPeers.insert screenName stored := by
  unfold registerOffer
  rw [persist_cachedPeers, (connect_spec _ _).1]
  generalize hf0 : (⟨self, peerData, false, false, false⟩ : RegisterOffer) = f0
  have hp0 : f0.plugin.m_cachedPeers = self.m_cachedPeers := by rw [← hf0]
  have hd0 : f0.peerData = peerData := by rw [← hf0]
  have g := generateKey_spec f0
  generalize hf3 : f0.generateKey.checkKeyCache.checkAdvertised = f3
  have hp3 : f3.plugin.m_cachedPeers = self.m_cachedPeers := by
    rw [← hf3, checkAdvertised_plugin, checkKeyCache_plugin, g.1, hp0]
  have hd3 : SameRemote f3.peerData peerData := by
    rw [← hf3, checkAdvertised_peerData, checkKeyCache_peerData, ← hd0]
    exact g.2
  have a := addToCache_spec ('@' :: screenName) f3
  rcases send_spec screenName (f3.addToCache ('@' :: screenName)) with h | h
  · left
    rw [h.1, a.1, hp3]
  · right
    refine ⟨(RegisterOffer.send screenName (f3.addToCache ('@' :: screenName))).peerData, ?_, ?_⟩
    · exact sameRemote_trans h.2 (a.2 ▸ hd3)
    · rw [h.1, a.1, hp3]

/-! ## One direct message -/

theorem directMessage_discard (acc : TwitterPlugin × Bool) (status : QTweetDMStatus)
    (h : parseOffer status.text = none) :
    directMessage acc status
      = ({ acc.1 with
            m_cachedDirectMessagesSinceId := max acc.1.m_cachedDirectMessagesSinceId status.id },
          acc.2) := by
  unfold directMessage
  simp only [h]
  split
  · rename_i hlt
    rw [max_eq_right (le_of_lt hlt)]
  · rename_i hlt
    rw [max_eq_left (not_lt.1 hlt)]

/-- The peer record of the sender after `directMessages` has handled one
message whose text is accepted. -/
theorem directMessage_accept (acc : TwitterPlugin × Bool) (status : QTweetDMStatus)
    (offer : InboundOffer) (h : parseOffer status.text = some offer) :
    (directMessage acc status).2 = true
      ∧ PeerData.get ((directMessage acc status).1.m_cachedPeers.value
            status.senderScreenName QHash.empty) (qs "host") = QVariant.string offer.host
      ∧ PeerData.get ((directMessage acc status).1.m_cachedPeers.value
            status.senderScreenName QHash.empty) (qs "port") = QVariant.int offer.port
      ∧ PeerData.get ((directMessage acc status).1.m_cachedPeers.value
            status.senderScreenName QHash.empty) (qs "pkey") = QVariant.string offer.pkey := by
  unfold directMessage
  simp only [h]
  refine ⟨trivial, ?_⟩
  generalize hs1 : (if status.id > acc.1.m_cachedDirectMessagesSinceId then
      ({ acc.1 with m_cachedDirectMessagesSinceId := status.id } : TwitterPlugin)
    else acc.1) = self1
  generalize hp0 : (if self1.m_cachedPeers.contains status.senderScreenName = true then
      self1.m_cachedPeers.value status.senderScreenName QHash.empty
    else QHash.empty) = peerData0
  generalize hpd : ((peerData0.insert (qs "host") (QVariant.string offer.host)).insert
        (qs "port") (QVariant.int offer.port)).insert (qs "pkey") (QVariant.string offer.pkey)
      = peerData
  have g1 : PeerData.get peerData (qs "host") = QVariant.string offer.host := by
    rw [← hpd, peerData_get_insert_ne _ _ _ _ (by decide),
      peerData_get_insert_ne _ _ _ _ (by decide), peerData_get_insert_same]
  have g2 : PeerData.get peerData (qs "port") = QVariant.int offer.port := by
    rw [← hpd, peerData_get_insert_ne _ _ _ _ (by decide), peerData_get_insert_same]
  have g3 : PeerData.get peerData (qs "pkey") = QVariant.string offer.pkey := by
    rw [← hpd, peerData_get_insert_same]
  have hc : ∀ s3 : TwitterPlugin,
      (if s3.m_directMessageDestroy = true then s3.emit (Effect.destroyMessage status.id)
        else s3).m_cachedPeers = s3.m_cachedPeers := by
    intro s3
    split <;> rfl
  rw [hc]
  rcases registerOffer_cachedPeers
      { self1 with m_cachedPeers := self1.m_cachedPeers.insert status.senderScreenName peerData }
      status.senderScreenName peerData with e | ⟨stored, hsame, e⟩
  · rw [e]
    simp only [QHash.value_insert_same]
    exact ⟨g1, g2, g3⟩
  · rw [e]
    simp only [QHash.value_insert_same]
    exact ⟨(hsame _ (by decide) (by decide) (by decide)).1.trans g1,
      (hsame _ (by decide) (by decide) (by decide)).1.trans g2,
      (hsame _ (by decide) (by decide) (by decide)).1.trans g3⟩

theorem directMessages_cachedPeers (self : TwitterPlugin) (messages : List QTweetDMStatus) :
    (directMessages self messages).m_cachedPeers
      = (messages.foldl directMessage (self, false)).1.m_cachedPeers := by
  unfold directMessages setTwitterCachedPeers
  dsimp only
  split <;> rfl

/-! ## C1: round trip of an offer -/

/-- C1 (as amended): for every local address `(h, p)` and handshake key `k` such
that `h` holds neither `:` nor `%`, `k` holds no `:` and `p` is a non-zero
`int`, the text `sendOffer` builds from a record with `ohst = h`, `oprt = p`,
`okey = k` is the text it posts when the message client is bound, and the
checks of `directMessages` accept it and read back exactly host `h`, port `p`
and key `k`. -/
theorem sendOffer_directMessages_roundtrip (self : TwitterPlugin) (screenName : QString)
    (peerData : PeerData) (h k : QString) (p : Int)
    (hcolon : ':' ∉ h) (hpercent : '%' ∉ h) (hk : ':' ∉ k)
    (hp : p ≠ 0) (hrange : INT_MIN ≤ p ∧ p ≤ INT_MAX)
    (h1 : peerData.get (qs "ohst") = QVariant.string h)
    (h2 : peerData.get (qs "oprt") = QVariant.int p)
    (h3 : peerData.get (qs "okey") = QVariant.string k) :
    parseOffer (offerString peerData) = some ⟨h, p, k⟩
      ∧ (self.m_directMessageNew = true →
          (sendOffer self screenName peerData).log
            = self.log ++ [Effect.post screenName (offerString peerData)]) := by
  constructor
  · rw [offerString_eq peerData h k p hpercent h1 h2 h3,
      parseOffer_marker h (number p) k hcolon (colon_not_mem_number p) hk,
      toInt_number p hrange, if_neg hp]
  · intro hb
    unfold sendOffer emit
    rw [if_pos hb]

/-- C1, witness: the record advertised at `1.2.3.4`, port `4111`, with key
`abc`. -/
theorem sendOffer_directMessages_roundtrip_witness :
    parseOffer (offerString (advertisedRecord (qs "1.2.3.4") 4111 (qs "abc")))
      = some ⟨qs "1.2.3.4", 4111, qs "abc"⟩ :=
  (sendOffer_directMessages_roundtrip
    (TwitterPlugin.init emptySettings (serventAt (qs "1.2.3.4") 4111) sampleUuids)
    (qs "peer") (advertisedRecord (qs "1.2.3.4") 4111 (qs "abc")) (qs "1.2.3.4") (qs "abc") 4111
    (by decide) (by decide) (by decide) (by decide) (by decide) (by decide) (by decide)
    (by decide)).1

/-- C1, counterexample: the claim as stated fails on an IPv6 address (the host
holds `:`, the text has more than four fields and is discarded), on port `0`
(discarded), on a key that holds `:` (discarded) and on a host that holds a
place marker (`%2` is replaced by the port, so another host is read back). -/
theorem sendOffer_directMessages_roundtrip_fails :
    parseOffer (offerString (advertisedRecord (qs "::1") 4111 (qs "abc"))) = none
      ∧ parseOffer (offerString (advertisedRecord (qs "1.2.3.4") 0 (qs "abc"))) = none
      ∧ parseOffer (offerString (advertisedRecord (qs "1.2.3.4") 4111 (qs "a:b"))) = none
      ∧ parseOffer (offerString (advertisedRecord (qs "host%2") 4111 (qs "abc")))
          = some ⟨qs "host4111", 4111, qs "abc"⟩ := by
  refine ⟨?_, ?_, ?_, ?_⟩ <;> decide

/-! ## C2: the three example texts -/

/-- C2: handling the direct message `TOMAHAWKPEER:Host=1.2.3.4:Port=4111:PKey=abc`
yields the offer with host `1.2.3.4`, port `4111` and key `abc`, and after
`directMessages` the peer record of the sender holds these three values, in
memory and in the settings store; the texts `TOMAHAWKPEER:Host=x:Port=0:PKey=y`
and `hello world` yield no offer and leave the peer cache as it was. -/
theorem directMessages_examples (self : TwitterPlugin) (id : Int) (sender : QString) :
    parseOffer (qs "TOMAHAWKPEER:Host=1.2.3.4:Port=4111:PKey=abc")
        = some ⟨qs "1.2.3.4", 4111, qs "abc"⟩
      ∧ PeerData.get ((directMessages self
            [⟨id, sender, qs "TOMAHAWKPEER:Host=1.2.3.4:Port=4111:PKey=abc"⟩]).m_cachedPeers.value
              sender QHash.empty) (qs "host") = QVariant.string (qs "1.2.3.4")
      ∧ PeerData.get ((directMessages self
            [⟨id, sender, qs "TOMAHAWKPEER:Host=1.2.3.4:Port=4111:PKey=abc"⟩]).m_cachedPeers.value
              sender QHash.empty) (qs "port") = QVariant.int 4111
      ∧ PeerData.get ((directMessages self
            [⟨id, sender, qs "TOMAHAWKPEER:Host=1.2.3.4:Port=4111:PKey=abc"⟩]).m_cachedPeers.value
              sender QHash.empty) (qs "pkey") = QVariant.string (qs "abc")
      ∧ (directMessages self
            [⟨id, sender, qs "TOMAHAWKPEER:Host=1.2.3.4:Port=4111:PKey=abc"⟩]).settings.twitterCachedPeers
          = (directMessages self
            [⟨id, sender, qs "TOMAHAWKPEER:Host=1.2.3.4:Port=4111:PKey=abc"⟩]).m_cachedPeers
      ∧ parseOffer (qs "TOMAHAWKPEER:Host=x:Port=0:PKey=y") = none
      ∧ (directMessages self [⟨id, sender, qs "TOMAHAWKPEER:Host=x:Port=0:PKey=y"⟩]).m_cachedPeers
          = self.m_cachedPeers
      ∧ parseOffer (qs "hello world") = none
      ∧ (directMessages self [⟨id, sender, qs "hello world"⟩]).m_cachedPeers
          = self.m_cachedPeers := by
  have hok : parseOffer (qs "TOMAHAWKPEER:Host=1.2.3.4:Port=4111:PKey=abc")
      = some ⟨qs "1.2.3.4", 4111, qs "abc"⟩ := by decide
  have hzero : parseOffer (qs "TOMAHAWKPEER:Host=x:Port=0:PKey=y") = none := by decide
  have hhello : parseOffer (qs "hello world") = none := by decide
  have acc := directMessage_accept (self, false)
    ⟨id, sender, qs "TOMAHAWKPEER:Host=1.2.3.4:Port=4111:PKey=abc"⟩ _ hok
  refine ⟨hok, ?_, ?_, ?_, ?_, hzero, ?_, hhello, ?_⟩
  · rw [directMessages_cachedPeers]; exact acc.2.1
  · rw [directMessages_cachedPeers]; exact acc.2.2.1
  · rw [directMessages_cachedPeers]; exact acc.2.2.2
  · unfold directMessages
    simp only [List.foldl_cons, List.foldl_nil, acc.1, if_true]
    rfl
  · rw [directMessages_cachedPeers]
    simp only [List.foldl_cons, List.foldl_nil]
    rw [directMessage_discard _ _ hzero]
  · rw [directMessages_cachedPeers]
    simp only [List.foldl_cons, List.foldl_nil]
    rw [directMessage_discard _ _ hhello]

/-! ## C3: texts that deviate from the marker format -/

theorem parseOffer_of_deviates (text : QString) (h : Deviates text) : parseOffer text = none := by
  unfold parseOffer toInt
  unfold Deviates at h
  dsimp only
  generalize toIntOk (mid ((split ':' text).getD 2 []) 5) = t at h ⊢
  generalize startsWith ((split ':' text).getD 1 []) (qs "Host=") = b1 at h ⊢
  generalize startsWith ((split ':' text).getD 2 []) (qs "Port=") = b2 at h ⊢
  generalize startsWith ((split ':' text).getD 3 []) (qs "PKey=") = b3 at h ⊢
  generalize (split ':' text).getD 0 [] = first at h ⊢
  generalize (split ':' text).length = n at h ⊢
  split_ifs with h1 h2 h3 h4
  · rfl
  · rfl
  · rfl
  · rfl
  · exfalso
    rcases h with h | h | h | h | h | h | h
    · exact h1 h
    · exact h2 h
    · simp [h] at h3
    · simp [h] at h3
    · simp [h] at h3
    · simp [h] at h4
    · simp [h] at h4

/-- The texts `directMessages` discards are exactly the deviating ones. -/
theorem deviates_of_parseOffer_none (text : QString) (h : parseOffer text = none) :
    Deviates text := by
  unfold parseOffer toInt at h
  unfold Deviates
  dsimp only at h
  generalize toIntOk (mid ((split ':' text).getD 2 []) 5) = t at h ⊢
  generalize startsWith ((split ':' text).getD 1 []) (qs "Host=") = b1 at h ⊢
  generalize startsWith ((split ':' text).getD 2 []) (qs "Port=") = b2 at h ⊢
  generalize startsWith ((split ':' text).getD 3 []) (qs "PKey=") = b3 at h ⊢
  generalize (split ':' text).getD 0 [] = first at h ⊢
  generalize (split ':' text).length = n at h ⊢
  split_ifs at h with h1 h2 h3 h4
  · exact Or.inl h1
  · exact Or.inr (Or.inl h2)
  · cases b1 <;> cases b2 <;> cases b3 <;> simp at h3 ⊢
  · cases t with
    | none => simp
    | some v =>
      have : v = 0 := by simpa using h4
      simp [this]

theorem foldl_directMessage_discard (messages : List QTweetDMStatus)
    (h : ∀ m ∈ messages, parseOffer m.text = none) (self : TwitterPlugin) (changed : Bool) :
    messages.foldl directMessage (self, changed)
      = ({ self with
            m_cachedDirectMessagesSinceId :=
              (messages.map (fun m => m.id)).foldl max self.m_cachedDirectMessagesSinceId },
          changed) := by
  induction messages generalizing self with
  | nil => rfl
  | cons m ms ih =>
    simp only [List.foldl_cons, List.map_cons]
    rw [directMessage_discard _ _ (h m (by simp)), ih (fun x hx => h x (by simp [hx]))]

/-- C3: when every text of the batch deviates from the marker format,
`directMessages` does nothing but advance the direct-message cursor and write
it to the settings store: the peer cache in memory and in the settings store,
the key cache and the number of generated keys are as before, and the only
effect logged is the write of the cursor (no registration, no post, no
connection attempt). -/
theorem directMessages_deviating_no_side_effect (self : TwitterPlugin)
    (messages : List QTweetDMStatus) (h : ∀ m ∈ messages, Deviates m.text) :
    directMessages self messages
      = { self with
          m_cachedDirectMessagesSinceId :=
            (messages.map (fun m => m.id)).foldl max self.m_cachedDirectMessagesSinceId
          settings :=
            { self.settings with
              twitterCachedDirectMessagesSinceId :=
                (messages.map (fun m => m.id)).foldl max self.m_cachedDirectMessagesSinceId }
          log := self.log ++
            [Effect.setTwitterCachedDirectMessagesSinceId
              ((messages.map (fun m => m.id)).foldl max self.m_cachedDirectMessagesSinceId)] } := by
  unfold directMessages
  rw [foldl_directMessage_discard messages (fun m hm => parseOffer_of_deviates _ (h m hm))]
  rfl

/-- C3, witness: a batch of five deviating texts (three fields, wrong marker,
missing prefix, non-numeric port, port zero). -/
theorem directMessages_deviating_no_side_effect_witness :
    (directMessages (TwitterPlugin.init emptySettings (serventAt (qs "1.2.3.4") 4111) sampleUuids)
      [⟨1, qs "a", qs "TOMAHAWKPEER:Host=x:Port=1"⟩,
       ⟨2, qs "a", qs "tomahawkpeer:Host=x:Port=1:PKey=y"⟩,
       ⟨3, qs "a", qs "TOMAHAWKPEER:x:Port=1:PKey=y"⟩,
       ⟨4, qs "a", qs "TOMAHAWKPEER:Host=x:Port=one:PKey=y"⟩,
       ⟨5, qs "a", qs "TOMAHAWKPEER:Host=x:Port=0:PKey=y"⟩]).m_cachedPeers = QHash.empty :=
  congrArg TwitterPlugin.m_cachedPeers
    (directMessages_deviating_no_side_effect
      (TwitterPlugin.init emptySettings (serventAt (qs "1.2.3.4") 4111) sampleUuids) _
      (by
        intro m hm
        simp only [List.mem_cons, List.mem_singleton, List.not_mem_nil, or_false] at hm
        rcases hm with e | e | e | e | e <;> subst e
        · exact Or.inl (by decide)
        · exact Or.inr (Or.inl (by decide))
        · exact Or.inr (Or.inr (Or.inl (by decide)))
        · exact Or.inr (Or.inr (Or.inr (Or.inr (Or.inr (Or.inl (by decide))))))
        · exact Or.inr (Or.inr (Or.inr (Or.inr (Or.inr (Or.inr (by decide))))))))

/-! ## C4: the port of an accepted offer -/

theorem toInt_range (str : QString) : INT_MIN ≤ toInt str ∧ toInt str ≤ INT_MAX := by
  unfold toInt toIntOk
  cases signedValue (trimmed str) with
  | none => exact ⟨by decide, by decide⟩
  | some v =>
    dsimp only
    split
    · rename_i hv
      exact hv
    · exact ⟨by decide, by decide⟩

theorem parseOffer_port (text : QString) (offer : InboundOffer)
    (h : parseOffer text = some offer) :
    offer.port ≠ 0 ∧ offer.port = toInt (mid ((split ':' text).getD 2 []) 5) := by
  unfold parseOffer at h
  dsimp only at h
  split_ifs at h with h1 h2 h3 h4
  have e := Option.some.inj h
  subst e
  exact ⟨h4, rfl⟩

/-- C4 (as amended): every offer that the checks of `directMessages` accept has
a port that is a non-zero `int` (it may be negative): for every message whose
text is accepted, the port read is not `0`, lies between `INT_MIN` and
`INT_MAX`, and is the port stored in the sender's peer record. -/
theorem directMessages_accepted_port_nonzero (self : TwitterPlugin) (status : QTweetDMStatus)
    (offer : InboundOffer) (h : parseOffer status.text = some offer) :
    offer.port ≠ 0 ∧ INT_MIN ≤ offer.port ∧ offer.port ≤ INT_MAX
      ∧ PeerData.get ((directMessages self [status]).m_cachedPeers.value
            status.senderScreenName QHash.empty) (qs "port") = QVariant.int offer.port := by
  have hp := parseOffer_port _ _ h
  refine ⟨hp.1, ?_, ?_, ?_⟩
  · rw [hp.2]; exact (toInt_range _).1
  · rw [hp.2]; exact (toInt_range _).2
  · rw [directMessages_cachedPeers]
    exact (directMessage_accept (self, false) status offer h).2.2.1

/-- C4, witness: the text `TOMAHAWKPEER:Host=1.2.3.4:Port=4111:PKey=abc`. -/
theorem directMessages_accepted_port_nonzero_witness :
    (4111 : Int) ≠ 0
      ∧ PeerData.get ((directMessages
          (TwitterPlugin.init emptySettings (serventAt (qs "10.0.0.1") 50210) sampleUuids)
          [⟨7, qs "peer", qs "TOMAHAWKPEER:Host=1.2.3.4:Port=4111:PKey=abc"⟩]).m_cachedPeers.value
            (qs "peer") QHash.empty) (qs "port") = QVariant.int 4111 :=
  have w := directMessages_accepted_port_nonzero
    (TwitterPlugin.init emptySettings (serventAt (qs "10.0.0.1") 50210) sampleUuids)
    ⟨7, qs "peer", qs "TOMAHAWKPEER:Host=1.2.3.4:Port=4111:PKey=abc"⟩
    ⟨qs "1.2.3.4", 4111, qs "abc"⟩ (by decide)
  ⟨w.1, w.2.2.2⟩

/-- C4, counterexample: the text `TOMAHAWKPEER:Host=x:Port=-5:PKey=y` is not
discarded; `directMessages` stores the port `-5`, which is not positive, in the
sender's peer record. -/
theorem directMessages_accepts_negative_port :
    parseOffer (qs "TOMAHAWKPEER:Host=x:Port=-5:PKey=y") = some ⟨qs "x", -5, qs "y"⟩
      ∧ PeerData.get ((directMessages
          (TwitterPlugin.init emptySettings (serventAt (qs "10.0.0.1") 50210) sampleUuids)
          [⟨7, qs "peer", qs "TOMAHAWKPEER:Host=x:Port=-5:PKey=y"⟩]).m_cachedPeers.value
            (qs "peer") QHash.empty) (qs "port") = QVariant.int (-5)
      ∧ ¬ (0 < (-5 : Int)) := by
  refine ⟨by decide, by decide, by decide⟩

/-! ## C5: the cursor after a batch -/

theorem maxCursor_cons (c id : Int) (ids : List Int) :
    maxCursor c (id :: ids) = maxCursor (max c id) ids := rfl

theorem le_maxCursor (c : Int) (ids : List Int) : c ≤ maxCursor c ids := by
  induction ids generalizing c with
  | nil => exact le_refl c
  | cons id ids ih =>
    rw [maxCursor_cons]
    exact le_trans (le_max_left c id) (ih _)

/-- `maxCursor c ids` is the greatest of `c` and the members of `ids`. -/
theorem maxCursor_spec (c : Int) (ids : List Int) :
    c ≤ maxCursor c ids ∧ (∀ id ∈ ids, id ≤ maxCursor c ids)
      ∧ (maxCursor c ids = c ∨ maxCursor c ids ∈ ids) := by
  induction ids generalizing c with
  | nil => exact ⟨le_refl c, fun _ h => absurd h (List.not_mem_nil _), Or.inl rfl⟩
  | cons id ids ih =>
    rw [maxCursor_cons]
    obtain ⟨h1, h2, h3⟩ := ih (max c id)
    refine ⟨le_trans (le_max_left c id) h1, ?_, ?_⟩
    · intro x hx
      rcases List.mem_cons.1 hx with e | e
      · subst e
        exact le_trans (le_max_right c x) h1
      · exact h2 x e
    · rcases h3 with e | e
      · rcases max_choice c id with m | m
        · exact Or.inl (e.trans m)
        · exact Or.inr (by rw [e, m]; exact List.mem_cons_self _ _)
      · exact Or.inr (List.mem_cons_of_mem _ e)

theorem outsidePeers_ite_emit (self : TwitterPlugin) (b : Bool) (e : Effect) :
    outsidePeers (if b = true then self.emit e else self) = outsidePeers self := by
  split <;> rfl

theorem friendsTimelineStatus_outsidePeers (myScreenName : QString) (self : TwitterPlugin)
    (status : QTweetStatus) :
    outsidePeers (friendsTimelineStatus myScreenName self status)
      = { outsidePeers self with
          m_cachedFriendsSinceId := max self.m_cachedFriendsSinceId status.id } := by
  have h1 : (if status.id > self.m_cachedFriendsSinceId then
        ({ self with m_cachedFriendsSinceId := status.id } : TwitterPlugin) else self)
      = { self with m_cachedFriendsSinceId := max self.m_cachedFriendsSinceId status.id } := by
    split
    · rename_i hlt
      rw [max_eq_right (le_of_lt hlt)]
    · rename_i hlt
      rw [max_eq_left (not_lt.1 hlt)]
  unfold friendsTimelineStatus
  simp only [h1]
  split_ifs
  · rfl
  · rw [registerOffer_outsidePeers]; rfl
  · rfl
  · rfl

theorem mentionsStatus_outsidePeers (myScreenName : QString) (self : TwitterPlugin)
    (status : QTweetStatus) :
    outsidePeers (mentionsStatus myScreenName self status)
      = { outsidePeers self with
          m_cachedMentionsSinceId := max self.m_cachedMentionsSinceId status.id } := by
  have h1 : (if status.id > self.m_cachedMentionsSinceId then
        ({ self with m_cachedMentionsSinceId := status.id } : TwitterPlugin) else self)
      = { self with m_cachedMentionsSinceId := max self.m_cachedMentionsSinceId status.id } := by
    split
    · rename_i hlt
      rw [max_eq_right (le_of_lt hlt)]
    · rename_i hlt
      rw [max_eq_left (not_lt.1 hlt)]
  unfold mentionsStatus
  simp only [h1]
  split_ifs
  · rfl
  · rw [registerOffer_outsidePeers]; rfl
  · rfl
  · rfl

theorem directMessage_outsidePeers (acc : TwitterPlugin × Bool) (status : QTweetDMStatus) :
    outsidePeers (directMessage acc status).1
      = { outsidePeers acc.1 with
          m_cachedDirectMessagesSinceId :=
            max acc.1.m_cachedDirectMessagesSinceId status.id } := by
  cases hp : parseOffer status.text with
  | none => rw [directMessage_discard _ _ hp]; rfl
  | some offer =>
    have h1 : (if status.id > acc.1.m_cachedDirectMessagesSinceId then
          ({ acc.1 with m_cachedDirectMessagesSinceId := status.id } : TwitterPlugin) else acc.1)
        = { acc.1 with
            m_cachedDirectMessagesSinceId :=
              max acc.1.m_cachedDirectMessagesSinceId status.id } := by
      split
      · rename_i hlt
        rw [max_eq_right (le_of_lt hlt)]
      · rename_i hlt
        rw [max_eq_left (not_lt.1 hlt)]
    unfold directMessage
    simp only [hp, h1]
    rw [outsidePeers_ite_emit, registerOffer_outsidePeers]
    rfl

theorem foldl_friendsTimelineStatus_outsidePeers (myScreenName : QString)
    (statuses : List QTweetStatus) (self : TwitterPlugin) :
    outsidePeers (statuses.foldl (friendsTimelineStatus myScreenName) self)
      = { outsidePeers self with
          m_cachedFriendsSinceId :=
            maxCursor self.m_cachedFriendsSinceId (statuses.map (fun st => st.id)) } := by
  induction statuses generalizing self with
  | nil => rfl
  | cons st sts ih =>
    simp only [List.foldl_cons, List.map_cons, maxCursor_cons]
    rw [ih, friendsTimelineStatus_outsidePeers]
    have hc := congrArg TwitterPlugin.m_cachedFriendsSinceId
      (friendsTimelineStatus_outsidePeers myScreenName self st)
    change (friendsTimelineStatus myScreenName self st).m_cachedFriendsSinceId = _ at hc
    rw [hc]

theorem foldl_mentionsStatus_outsidePeers (myScreenName : QString)
    (statuses : List QTweetStatus) (self : TwitterPlugin) :
    outsidePeers (statuses.foldl (mentionsStatus myScreenName) self)
      = { outsidePeers self with
          m_cachedMentionsSinceId :=
            maxCursor self.m_cachedMentionsSinceId (statuses.map (fun st => st.id)) } := by
  induction statuses generalizing self with
  | nil => rfl
  | cons st sts ih =>
    simp only [List.foldl_cons, List.map_cons, maxCursor_cons]
    rw [ih, mentionsStatus_outsidePeers]
    have hc := congrArg TwitterPlugin.m_cachedMentionsSinceId
      (mentionsStatus_outsidePeers myScreenName self st)
    change (mentionsStatus myScreenName self st).m_cachedMentionsSinceId = _ at hc
    rw [hc]

theorem foldl_directMessage_outsidePeers (messages : List QTweetDMStatus)
    (acc : TwitterPlugin × Bool) :
    outsidePeers (messages.foldl directMessage acc).1
      = { outsidePeers acc.1 with
          m_cachedDirectMessagesSinceId :=
            maxCursor acc.1.m_cachedDirectMessagesSinceId (messages.map (fun m => m.id)) } := by
  induction messages generalizing acc with
  | nil => rfl
  | cons m ms ih =>
    simp only [List.foldl_cons, List.map_cons, maxCursor_cons]
    rw [ih, directMessage_outsidePeers]
    have hc := congrArg TwitterPlugin.m_cachedDirectMessagesSinceId
      (directMessage_outsidePeers acc m)
    change (directMessage acc m).1.m_cachedDirectMessagesSinceId = _ at hc
    rw [hc]

/-- `pollDirectMessages` changes nothing but the barrier, the direct-message
cursor and the effect log. -/
theorem pollDirectMessages_outsideBarrier (self : TwitterPlugin) :
    outsideBarrier (pollDirectMessages self) = outsideBarrier self := by
  unfold pollDirectMessages emit
  dsimp only
  split_ifs <;> rfl

theorem pollDirectMessages_friendsCursor (self : TwitterPlugin) :
    (pollDirectMessages self).m_cachedFriendsSinceId = self.m_cachedFriendsSinceId := by
  have h := congrArg TwitterPlugin.m_cachedFriendsSinceId (pollDirectMessages_outsideBarrier self)
  exact h

theorem pollDirectMessages_mentionsCursor (self : TwitterPlugin) :
    (pollDirectMessages self).m_cachedMentionsSinceId = self.m_cachedMentionsSinceId := by
  have h := congrArg TwitterPlugin.m_cachedMentionsSinceId (pollDirectMessages_outsideBarrier self)
  exact h

theorem pollDirectMessages_settings (self : TwitterPlugin) :
    (pollDirectMessages self).settings = self.settings := by
  have h := congrArg TwitterPlugin.settings (pollDirectMessages_outsideBarrier self)
  exact h

theorem pollDirectMessages_cachedPeers (self : TwitterPlugin) :
    (pollDirectMessages self).m_cachedPeers = self.m_cachedPeers := by
  have h := congrArg TwitterPlugin.m_cachedPeers (pollDirectMessages_outsideBarrier self)
  exact h

theorem friendsTimelineStatuses_cursor (self : TwitterPlugin) (statuses : List QTweetStatus) :
    (friendsTimelineStatuses self statuses).m_cachedFriendsSinceId
        = maxCursor self.m_cachedFriendsSinceId (statuses.map (fun st => st.id))
      ∧ (friendsTimelineStatuses self statuses).settings.twitterCachedFriendsSinceId
        = maxCursor self.m_cachedFriendsSinceId (statuses.map (fun st => st.id)) := by
  have hf := congrArg TwitterPlugin.m_cachedFriendsSinceId
    (foldl_friendsTimelineStatus_outsidePeers self.settings.twitterScreenName statuses self)
  change (statuses.foldl (friendsTimelineStatus self.settings.twitterScreenName)
    self).m_cachedFriendsSinceId = _ at hf
  unfold friendsTimelineStatuses
  dsimp only
  rw [pollDirectMessages_friendsCursor, pollDirectMessages_settings]
  exact ⟨hf, hf⟩

theorem mentionsStatuses_cursor (self : TwitterPlugin) (statuses : List QTweetStatus) :
    (mentionsStatuses self statuses).m_cachedMentionsSinceId
        = maxCursor self.m_cachedMentionsSinceId (statuses.map (fun st => st.id))
      ∧ (mentionsStatuses self statuses).settings.twitterCachedMentionsSinceId
        = maxCursor self.m_cachedMentionsSinceId (statuses.map (fun st => st.id)) := by
  have hf := congrArg TwitterPlugin.m_cachedMentionsSinceId
    (foldl_mentionsStatus_outsidePeers self.settings.twitterScreenName statuses self)
  change (statuses.foldl (mentionsStatus self.settings.twitterScreenName)
    self).m_cachedMentionsSinceId = _ at hf
  unfold mentionsStatuses
  dsimp only
  rw [pollDirectMessages_mentionsCursor, pollDirectMessages_settings]
  exact ⟨hf, hf⟩

theorem directMessages_cursor (self : TwitterPlugin) (messages : List QTweetDMStatus) :
    (directMessages self messages).m_cachedDirectMessagesSinceId
        = maxCursor self.m_cachedDirectMessagesSinceId (messages.map (fun m => m.id))
      ∧ (directMessages self messages).settings.twitterCachedDirectMessagesSinceId
        = maxCursor self.m_cachedDirectMessagesSinceId (messages.map (fun m => m.id)) := by
  have hf := congrArg TwitterPlugin.m_cachedDirectMessagesSinceId
    (foldl_directMessage_outsidePeers messages (self, false))
  change (messages.foldl directMessage (self, false)).1.m_cachedDirectMessagesSinceId = _ at hf
  unfold directMessages setTwitterCachedPeers
  dsimp only
  split <;> exact ⟨hf, hf⟩

/-- C5: for each of the three feed handlers, for every previous cursor and
every batch, after the handler both the cursor in memory and the cursor in the
settings store are `max( previous cursor, maximum id in the batch )`, which is
the previous cursor when the batch is empty. -/
theorem feed_handlers_cursor_is_max (self : TwitterPlugin) (statuses : List QTweetStatus)
    (messages : List QTweetDMStatus) :
    ((friendsTimelineStatuses self statuses).m_cachedFriendsSinceId
        = maxCursor self.m_cachedFriendsSinceId (statuses.map (fun st => st.id))
      ∧ (friendsTimelineStatuses self statuses).settings.twitterCachedFriendsSinceId
        = maxCursor self.m_cachedFriendsSinceId (statuses.map (fun st => st.id)))
    ∧ ((mentionsStatuses self statuses).m_cachedMentionsSinceId
        = maxCursor self.m_cachedMentionsSinceId (statuses.map (fun st => st.id))
      ∧ (mentionsStatuses self statuses).settings.twitterCachedMentionsSinceId
        = maxCursor self.m_cachedMentionsSinceId (statuses.map (fun st => st.id)))
    ∧ ((directMessages self messages).m_cachedDirectMessagesSinceId
        = maxCursor self.m_cachedDirectMessagesSinceId (messages.map (fun m => m.id))
      ∧ (directMessages self messages).settings.twitterCachedDirectMessagesSinceId
        = maxCursor self.m_cachedDirectMessagesSinceId (messages.map (fun m => m.id)))
    ∧ ((friendsTimelineStatuses self []).m_cachedFriendsSinceId = self.m_cachedFriendsSinceId
      ∧ (friendsTimelineStatuses self []).settings.twitterCachedFriendsSinceId
        = self.m_cachedFriendsSinceId)
    ∧ ((mentionsStatuses self []).m_cachedMentionsSinceId = self.m_cachedMentionsSinceId
      ∧ (mentionsStatuses self []).settings.twitterCachedMentionsSinceId
        = self.m_cachedMentionsSinceId)
    ∧ ((directMessages self []).m_cachedDirectMessagesSinceId
        = self.m_cachedDirectMessagesSinceId
      ∧ (directMessages self []).settings.twitterCachedDirectMessagesSinceId
        = self.m_cachedDirectMessagesSinceId) :=
  ⟨friendsTimelineStatuses_cursor self statuses, mentionsStatuses_cursor self statuses,
    directMessages_cursor self messages, friendsTimelineStatuses_cursor self [],
    mentionsStatuses_cursor self [], directMessages_cursor self []⟩

/-! ## C6: cursors never decrease -/

theorem checkTimerFired_cursorsLe (self : TwitterPlugin)
    (hf : 0 ≤ self.settings.twitterCachedFriendsSinceId)
    (hm : 0 ≤ self.settings.twitterCachedMentionsSinceId) :
    CursorsLe self (checkTimerFired self) := by
  unfold CursorsLe checkTimerFired emit
  dsimp only
  split_ifs with h1 h2 h3 h4 h5 <;>
    (refine ⟨?_, ?_, ?_⟩ <;> first | exact le_refl _ | (dsimp only; omega) | skip)
  all_goals (dsimp only at *; omega)

theorem pollDirectMessages_cursorsLe (self : TwitterPlugin)
    (hd : 0 ≤ self.settings.twitterCachedDirectMessagesSinceId) :
    CursorsLe self (pollDirectMessages self) := by
  refine ⟨le_of_eq (pollDirectMessages_friendsCursor self).symm,
    le_of_eq (pollDirectMessages_mentionsCursor self).symm, ?_⟩
  unfold pollDirectMessages emit
  dsimp only
  split_ifs with h1 h2 h3 h4 <;> first | exact le_refl _ | (dsimp only at *; omega)

theorem cursorsLe_trans {a b c : TwitterPlugin} (h1 : CursorsLe a b) (h2 : CursorsLe b c) :
    CursorsLe a c :=
  ⟨le_trans h1.1 h2.1, le_trans h1.2.1 h2.2.1, le_trans h1.2.2 h2.2.2⟩

theorem foldl_friendsTimelineStatus_cursorsLe (myScreenName : QString)
    (statuses : List QTweetStatus) (self : TwitterPlugin) :
    CursorsLe self (statuses.foldl (friendsTimelineStatus myScreenName) self)
      ∧ (statuses.foldl (friendsTimelineStatus myScreenName)
            self).settings.twitterCachedDirectMessagesSinceId
          = self.settings.twitterCachedDirectMessagesSinceId := by
  have h := foldl_friendsTimelineStatus_outsidePeers myScreenName statuses self
  have h1 := congrArg TwitterPlugin.m_cachedFriendsSinceId h
  have h2 := congrArg TwitterPlugin.m_cachedMentionsSinceId h
  have h3 := congrArg TwitterPlugin.m_cachedDirectMessagesSinceId h
  have h4 := congrArg (fun s => s.settings.twitterCachedDirectMessagesSinceId) h
  change (statuses.foldl (friendsTimelineStatus myScreenName) self).m_cachedFriendsSinceId
    = _ at h1
  change (statuses.foldl (friendsTimelineStatus myScreenName) self).m_cachedMentionsSinceId
    = self.m_cachedMentionsSinceId at h2
  change (statuses.foldl (friendsTimelineStatus myScreenName)
    self).m_cachedDirectMessagesSinceId = self.m_cachedDirectMessagesSinceId at h3
  change (statuses.foldl (friendsTimelineStatus myScreenName)
      self).settings.twitterCachedDirectMessagesSinceId
    = self.settings.twitterCachedDirectMessagesSinceId at h4
  exact ⟨⟨h1 ▸ le_maxCursor _ _, le_of_eq h2.symm, le_of_eq h3.symm⟩, h4⟩

theorem foldl_mentionsStatus_cursorsLe (myScreenName : QString)
    (statuses : List QTweetStatus) (self : TwitterPlugin) :
    CursorsLe self (statuses.foldl (mentionsStatus myScreenName) self)
      ∧ (statuses.foldl (mentionsStatus myScreenName)
            self).settings.twitterCachedDirectMessagesSinceId
          = self.settings.twitterCachedDirectMessagesSinceId := by
  have h := foldl_mentionsStatus_outsidePeers myScreenName statuses self
  have h1 := congrArg TwitterPlugin.m_cachedFriendsSinceId h
  have h2 := congrArg TwitterPlugin.m_cachedMentionsSinceId h
  have h3 := congrArg TwitterPlugin.m_cachedDirectMessagesSinceId h
  have h4 := congrArg (fun s => s.settings.twitterCachedDirectMessagesSinceId) h
  change (statuses.foldl (mentionsStatus myScreenName) self).m_cachedFriendsSinceId
    = self.m_cachedFriendsSinceId at h1
  change (statuses.foldl (mentionsStatus myScreenName) self).m_cachedMentionsSinceId
    = _ at h2
  change (statuses.foldl (mentionsStatus myScreenName)
    self).m_cachedDirectMessagesSinceId = self.m_cachedDirectMessagesSinceId at h3
  change (statuses.foldl (mentionsStatus myScreenName)
      self).settings.twitterCachedDirectMessagesSinceId
    = self.settings.twitterCachedDirectMessagesSinceId at h4
  exact ⟨⟨le_of_eq h1.symm, h2 ▸ le_maxCursor _ _, le_of_eq h3.symm⟩, h4⟩

theorem friendsTimelineStatuses_cursorsLe (self : TwitterPlugin)
    (statuses : List QTweetStatus)
    (hd : 0 ≤ self.settings.twitterCachedDirectMessagesSinceId) :
    CursorsLe self (friendsTimelineStatuses self statuses) := by
  have hF := foldl_friendsTimelineStatus_cursorsLe self.settings.twitterScreenName statuses self
  unfold friendsTimelineStatuses
  dsimp only
  exact cursorsLe_trans hF.1 (pollDirectMessages_cursorsLe _ (by rw [← hF.2] at hd; exact hd))

theorem mentionsStatuses_cursorsLe (self : TwitterPlugin)
    (statuses : List QTweetStatus)
    (hd : 0 ≤ self.settings.twitterCachedDirectMessagesSinceId) :
    CursorsLe self (mentionsStatuses self statuses) := by
  have hF := foldl_mentionsStatus_cursorsLe self.settings.twitterScreenName statuses self
  unfold mentionsStatuses
  dsimp only
  exact cursorsLe_trans hF.1 (pollDirectMessages_cursorsLe _ (by rw [← hF.2] at hd; exact hd))

theorem directMessages_cursorsLe (self : TwitterPlugin) (messages : List QTweetDMStatus) :
    CursorsLe self (directMessages self messages) := by
  have h := foldl_directMessage_outsidePeers messages (self, false)
  have h1 := congrArg TwitterPlugin.m_cachedFriendsSinceId h
  have h2 := congrArg TwitterPlugin.m_cachedMentionsSinceId h
  change (messages.foldl directMessage (self, false)).1.m_cachedFriendsSinceId
    = self.m_cachedFriendsSinceId at h1
  change (messages.foldl directMessage (self, false)).1.m_cachedMentionsSinceId
    = self.m_cachedMentionsSinceId at h2
  refine ⟨?_, ?_, ?_⟩
  · unfold directMessages setTwitterCachedPeers
    dsimp only
    split <;> exact le_of_eq h1.symm
  · unfold directMessages setTwitterCachedPeers
    dsimp only
    split <;> exact le_of_eq h2.symm
  · rw [(directMessages_cursor self messages).1]
    exact le_maxCursor _ _

/-- C6 (as amended): when the three cursor values held in the settings store
are not negative, none of `checkTimerFired`, `pollDirectMessages`,
`friendsTimelineStatuses`, `mentionsStatuses` and `directMessages`, for any
batch, leaves any of the three cursors in memory smaller than it was before the
operation. -/
theorem cursors_never_decrease (self : TwitterPlugin) (statuses : List QTweetStatus)
    (messages : List QTweetDMStatus)
    (hf : 0 ≤ self.settings.twitterCachedFriendsSinceId)
    (hm : 0 ≤ self.settings.twitterCachedMentionsSinceId)
    (hd : 0 ≤ self.settings.twitterCachedDirectMessagesSinceId) :
    CursorsLe self (checkTimerFired self)
      ∧ CursorsLe self (pollDirectMessages self)
      ∧ CursorsLe self (friendsTimelineStatuses self statuses)
      ∧ CursorsLe self (mentionsStatuses self statuses)
      ∧ CursorsLe self (directMessages self messages) :=
  ⟨checkTimerFired_cursorsLe self hf hm, pollDirectMessages_cursorsLe self hd,
    friendsTimelineStatuses_cursorsLe self statuses hd,
    mentionsStatuses_cursorsLe self statuses hd, directMessages_cursorsLe self messages⟩

/-- C6, witness: the plugin after `connectPlugin` found one cached peer and the
cursor value `5` in the settings store. -/
theorem cursors_never_decrease_witness :
    CursorsLe
      (connectPlugin (TwitterPlugin.init
        (settingsWithPeer (advertisedRecord (qs "1.2.3.4") 4111 (qs "abc")) 5)
        (serventAt (qs "1.2.3.4") 4111) sampleUuids)).1
      (checkTimerFired (connectPlugin (TwitterPlugin.init
        (settingsWithPeer (advertisedRecord (qs "1.2.3.4") 4111 (qs "abc")) 5)
        (serventAt (qs "1.2.3.4") 4111) sampleUuids)).1) :=
  (cursors_never_decrease
    (connectPlugin (TwitterPlugin.init
      (settingsWithPeer (advertisedRecord (qs "1.2.3.4") 4111 (qs "abc")) 5)
      (serventAt (qs "1.2.3.4") 4111) sampleUuids)).1
    [⟨9, qs "someone", qs "Got Tomahawk?"⟩] [⟨3, qs "peer", qs "hello world"⟩]
    (by decide) (by decide) (by decide)).1

/-- C6, counterexample: the settings store holds the cursor value `-1`; after
`connectPlugin` found one cached peer the plugin is valid with the timeline
cursor `0` in memory, and `checkTimerFired` leaves it at `-1`, smaller than
before. -/
theorem checkTimerFired_decreases_cursor :
    (connectPlugin (TwitterPlugin.init
        (settingsWithPeer (advertisedRecord (qs "1.2.3.4") 4111 (qs "abc")) (-1))
        (serventAt (qs "1.2.3.4") 4111) sampleUuids)).1.m_cachedFriendsSinceId = 0
      ∧ (checkTimerFired (connectPlugin (TwitterPlugin.init
          (settingsWithPeer (advertisedRecord (qs "1.2.3.4") 4111 (qs "abc")) (-1))
          (serventAt (qs "1.2.3.4") 4111) sampleUuids)).1).m_cachedFriendsSinceId = -1
      ∧ ¬ CursorsLe
          (connectPlugin (TwitterPlugin.init
            (settingsWithPeer (advertisedRecord (qs "1.2.3.4") 4111 (qs "abc")) (-1))
            (serventAt (qs "1.2.3.4") 4111) sampleUuids)).1
          (checkTimerFired (connectPlugin (TwitterPlugin.init
            (settingsWithPeer (advertisedRecord (qs "1.2.3.4") 4111 (qs "abc")) (-1))
            (serventAt (qs "1.2.3.4") 4111) sampleUuids)).1) := by
  have h0 : (connectPlugin (TwitterPlugin.init
        (settingsWithPeer (advertisedRecord (qs "1.2.3.4") 4111 (qs "abc")) (-1))
        (serventAt (qs "1.2.3.4") 4111) sampleUuids)).1.m_cachedFriendsSinceId = 0 := by decide
  have h1 : (checkTimerFired (connectPlugin (TwitterPlugin.init
          (settingsWithPeer (advertisedRecord (qs "1.2.3.4") 4111 (qs "abc")) (-1))
          (serventAt (qs "1.2.3.4") 4111) sampleUuids)).1).m_cachedFriendsSinceId = -1 := by
    decide
  refine ⟨h0, h1, ?_⟩
  intro h
  have := h.1
  rw [h0, h1] at this
  exact absurd this (by decide)

/-! ## The effects `registerOffer` logs -/

theorem logExtends_refl (ok : Effect → Bool) (a : TwitterPlugin) : LogExtends ok a a :=
  ⟨[], (List.append_nil _).symm, fun _ h => absurd h (List.not_mem_nil _)⟩

theorem logExtends_trans {ok : Effect → Bool} {a b c : TwitterPlugin}
    (h1 : LogExtends ok a b) (h2 : LogExtends ok b c) : LogExtends ok a c := by
  obtain ⟨e1, l1, o1⟩ := h1
  obtain ⟨e2, l2, o2⟩ := h2
  refine ⟨e1 ++ e2, by rw [l2, l1, List.append_assoc], ?_⟩
  intro e he
  rcases List.mem_append.1 he with h | h
  · exact o1 e h
  · exact o2 e h

theorem logExtends_of_log_eq {ok : Effect → Bool} {a b : TwitterPlugin} (h : b.log = a.log) :
    LogExtends ok a b :=
  ⟨[], by rw [h, List.append_nil], fun _ h => absurd h (List.not_mem_nil _)⟩

theorem logExtends_emit (ok : Effect → Bool) (a : TwitterPlugin) (e : Effect)
    (h : ok e = true) : LogExtends ok a (a.emit e) :=
  ⟨[e], rfl, fun x hx => by rw [List.mem_singleton.1 hx]; exact h⟩

theorem sendOffer_log (self : TwitterPlugin) (screenName : QString) (peerData : PeerData) :
    LogExtends Effect.isRegisterOfferEffect self (sendOffer self screenName peerData) := by
  unfold sendOffer
  split
  · exact logExtends_emit _ _ _ rfl
  · exact logExtends_refl _ _

theorem makeConnection_log (self : TwitterPlugin) (screenName : QString)
    (peerData : PeerData) :
    LogExtends Effect.isRegisterOfferEffect self (makeConnection self screenName peerData) := by
  unfold makeConnection
  split
  · exact logExtends_refl _ _
  · dsimp only
    split
    · exact logExtends_emit _ _ _ rfl
    · exact logExtends_refl _ _

theorem registerOffer_log (self : TwitterPlugin) (screenName : QString)
    (peerData : PeerData) :
    LogExtends Effect.isRegisterOfferEffect self (registerOffer self screenName peerData) := by
  have g : ∀ f : RegisterOffer,
      LogExtends Effect.isRegisterOfferEffect f.plugin f.generateKey.plugin := by
    intro f
    unfold RegisterOffer.generateKey
    split
    · exact logExtends_of_log_eq rfl
    · exact logExtends_refl _ _
  have a : ∀ (node : QString) (f : RegisterOffer),
      LogExtends Effect.isRegisterOfferEffect f.plugin (f.addToCache node).plugin := by
    intro node f
    unfold RegisterOffer.addToCache
    split
    · exact ⟨[_], rfl, fun x hx => by rw [List.mem_singleton.1 hx]; rfl⟩
    · exact logExtends_refl _ _
  have sd : ∀ f : RegisterOffer,
      LogExtends Effect.isRegisterOfferEffect f.plugin (f.send screenName).plugin := by
    intro f
    unfold RegisterOffer.send
    split
    · exact logExtends_trans (logExtends_of_log_eq rfl) (sendOffer_log _ _ _)
    · exact logExtends_refl _ _
  have c : ∀ f : RegisterOffer,
      LogExtends Effect.isRegisterOfferEffect f.plugin (f.connect screenName).plugin := by
    intro f
    unfold RegisterOffer.connect
    split
    · exact makeConnection_log _ _ _
    · exact logExtends_refl _ _
  have p : ∀ f : RegisterOffer, LogExtends Effect.isRegisterOfferEffect f.plugin f.persist := by
    intro f
    unfold RegisterOffer.persist
    split
    · exact ⟨[_], rfl, fun x hx => by rw [List.mem_singleton.1 hx]; rfl⟩
    · exact logExtends_refl _ _
  unfold registerOffer
  refine logExtends_trans ?_ (p _)
  refine logExtends_trans ?_ (c _)
  refine logExtends_trans ?_ (sd _)
  refine logExtends_trans ?_ (a _ _)
  rw [checkAdvertised_plugin, checkKeyCache_plugin]
  exact g _

/-! ## C7: the join barrier -/

theorem directMessageFetches_of_logExtends {a b : TwitterPlugin}
    (h : LogExtends Effect.isRegisterOfferEffect a b) :
    directMessageFetches b = directMessageFetches a := by
  obtain ⟨extra, hl, hok⟩ := h
  unfold directMessageFetches
  rw [hl, List.countP_append]
  have : extra.countP Effect.isFetchDirectMessages = 0 := by
    rw [List.countP_eq_zero]
    intro e he
    have := hok e he
    cases e <;> simp_all [Effect.isRegisterOfferEffect, Effect.isFetchDirectMessages]
  rw [this, Nat.add_zero]

theorem registerOffer_isValid (self : TwitterPlugin) (screenName : QString)
    (peerData : PeerData) (h : self.isValid = true) :
    (registerOffer self screenName peerData).isValid = true := by
  have ha := congrArg TwitterPlugin.m_isAuthed
    (registerOffer_outsidePeers self screenName peerData)
  change (registerOffer self screenName peerData).m_isAuthed = self.m_isAuthed at ha
  unfold isValid at h ⊢
  rcases registerOffer_cachedPeers self screenName peerData with e | ⟨stored, _, e⟩
  · rw [ha, e]; exact h
  · rw [e, QHash.isEmpty_insert]; simp

theorem registerOffer_barrierKept (self : TwitterPlugin) (screenName : QString)
    (peerData : PeerData) : BarrierKept self (registerOffer self screenName peerData) := by
  have h := registerOffer_outsidePeers self screenName peerData
  have h1 := congrArg TwitterPlugin.m_finishedFriends h
  have h2 := congrArg TwitterPlugin.m_finishedMentions h
  have h3 := congrArg TwitterPlugin.m_directMessages h
  exact ⟨h1, h2, h3, directMessageFetches_of_logExtends (registerOffer_log _ _ _),
    registerOffer_isValid _ _ _⟩

theorem barrierKept_refl (a : TwitterPlugin) : BarrierKept a a :=
  ⟨rfl, rfl, rfl, rfl, id⟩

theorem barrierKept_trans {a b c : TwitterPlugin} (h1 : BarrierKept a b)
    (h2 : BarrierKept b c) : BarrierKept a c :=
  ⟨h2.1.trans h1.1, h2.2.1.trans h1.2.1, h2.2.2.1.trans h1.2.2.1,
    h2.2.2.2.1.trans h1.2.2.2.1, fun h => h2.2.2.2.2 (h1.2.2.2.2 h)⟩

theorem friendsTimelineStatus_barrierKept (myScreenName : QString) (self : TwitterPlugin)
    (status : QTweetStatus) :
    BarrierKept self (friendsTimelineStatus myScreenName self status) := by
  have h1 : BarrierKept self (if status.id > self.m_cachedFriendsSinceId then
      ({ self with m_cachedFriendsSinceId := status.id } : TwitterPlugin) else self) := by
    split
    · exact ⟨rfl, rfl, rfl, rfl, id⟩
    · exact barrierKept_refl _
  unfold friendsTimelineStatus
  dsimp only
  generalize (if status.id > self.m_cachedFriendsSinceId then
      ({ self with m_cachedFriendsSinceId := status.id } : TwitterPlugin) else self) = self1
    at h1 ⊢
  split_ifs
  · exact h1
  · exact barrierKept_trans h1 (registerOffer_barrierKept _ _ _)
  · exact h1
  · exact h1

theorem mentionsStatus_barrierKept (myScreenName : QString) (self : TwitterPlugin)
    (status : QTweetStatus) :
    BarrierKept self (mentionsStatus myScreenName self status) := by
  have h1 : BarrierKept self (if status.id > self.m_cachedMentionsSinceId then
      ({ self with m_cachedMentionsSinceId := status.id } : TwitterPlugin) else self) := by
    split
    · exact ⟨rfl, rfl, rfl, rfl, id⟩
    · exact barrierKept_refl _
  unfold mentionsStatus
  dsimp only
  generalize (if status.id > self.m_cachedMentionsSinceId then
      ({ self with m_cachedMentionsSinceId := status.id } : TwitterPlugin) else self) = self1
    at h1 ⊢
  split_ifs
  · exact h1
  · exact barrierKept_trans h1 (registerOffer_barrierKept _ _ _)
  · exact h1
  · exact h1

theorem foldl_friendsTimelineStatus_barrierKept (myScreenName : QString)
    (statuses : List QTweetStatus) (self : TwitterPlugin) :
    BarrierKept self (statuses.foldl (friendsTimelineStatus myScreenName) self) := by
  induction statuses generalizing self with
  | nil => exact barrierKept_refl _
  | cons st sts ih =>
    exact barrierKept_trans (friendsTimelineStatus_barrierKept myScreenName self st) (ih _)

theorem foldl_mentionsStatus_barrierKept (myScreenName : QString)
    (statuses : List QTweetStatus) (self : TwitterPlugin) :
    BarrierKept self (statuses.foldl (mentionsStatus myScreenName) self) := by
  induction statuses generalizing self with
  | nil => exact barrierKept_refl _
  | cons st sts ih =>
    exact barrierKept_trans (mentionsStatus_barrierKept myScreenName self st) (ih _)

/-- `pollDirectMessages` on a valid plugin with the direct-message client
bound: with both halves of the barrier set it resets them and issues one
fetch, otherwise it does nothing. -/
theorem pollDirectMessages_barrier (self : TwitterPlugin) (hv : self.isValid = true)
    (hb : self.m_directMessages = true) :
    (pollDirectMessages self).isValid = true
      ∧ (pollDirectMessages self).m_directMessages = true
      ∧ ((self.m_finishedFriends = true ∧ self.m_finishedMentions = true
            ∧ (pollDirectMessages self).m_finishedFriends = false
            ∧ (pollDirectMessages self).m_finishedMentions = false
            ∧ directMessageFetches (pollDirectMessages self) = directMessageFetches self + 1)
          ∨ ((self.m_finishedFriends = false ∨ self.m_finishedMentions = false)
            ∧ pollDirectMessages self = self)) := by
  have hf := pollDirectMessages_outsideBarrier self
  have h1 := congrArg TwitterPlugin.isValid hf
  have h2 := congrArg TwitterPlugin.m_directMessages hf
  change (pollDirectMessages self).isValid = self.isValid at h1
  change (pollDirectMessages self).m_directMessages = self.m_directMessages at h2
  refine ⟨h1.trans hv, h2.trans hb, ?_⟩
  unfold pollDirectMessages
  by_cases hm : self.m_finishedMentions = true
  · by_cases hr : self.m_finishedFriends = true
    · left
      have hv1 : ({ self with m_finishedFriends := false, m_finishedMentions := false }
          : TwitterPlugin).isValid = true := hv
      simp only [hm, hr, hv1, Bool.not_true, Bool.or_self, Bool.false_eq_true, if_false]
      refine ⟨trivial, trivial, ?_⟩
      split <;>
        simp [hb, emit, directMessageFetches, List.countP_append, Effect.isFetchDirectMessages]
    · right
      simp only [Bool.not_eq_true] at hr
      simp [hr]
  · right
    simp only [Bool.not_eq_true] at hm
    simp [hm]

theorem friendsTimelineStatuses_barrier (self : TwitterPlugin) (statuses : List QTweetStatus)
    (hv : self.isValid = true) (hb : self.m_directMessages = true) :
    (friendsTimelineStatuses self statuses).isValid = true
      ∧ (friendsTimelineStatuses self statuses).m_directMessages = true
      ∧ ((self.m_finishedMentions = true
            ∧ (friendsTimelineStatuses self statuses).m_finishedFriends = false
            ∧ (friendsTimelineStatuses self statuses).m_finishedMentions = false
            ∧ directMessageFetches (friendsTimelineStatuses self statuses)
                = directMessageFetches self + 1)
          ∨ (self.m_finishedMentions = false
            ∧ (friendsTimelineStatuses self statuses).m_finishedFriends = true
            ∧ (friendsTimelineStatuses self statuses).m_finishedMentions = false
            ∧ directMessageFetches (friendsTimelineStatuses self statuses)
                = directMessageFetches self)) := by
  have K := foldl_friendsTimelineStatus_barrierKept self.settings.twitterScreenName statuses self
  unfold friendsTimelineStatuses
  dsimp only
  generalize statuses.foldl (friendsTimelineStatus self.settings.twitterScreenName) self = F
    at K ⊢
  obtain ⟨_, k2, k3, k4, k5⟩ := K
  generalize hX : ({ F with
      settings := { F.settings with twitterCachedFriendsSinceId := F.m_cachedFriendsSinceId }
      log := F.log ++ [Effect.setTwitterCachedFriendsSinceId F.m_cachedFriendsSinceId]
      m_finishedFriends := true } : TwitterPlugin) = X
  have x1 : X.isValid = true := by rw [← hX]; exact k5 hv
  have x2 : X.m_directMessages = true := by rw [← hX]; exact k3.trans hb
  have x3 : X.m_finishedFriends = true := by rw [← hX]
  have x4 : X.m_finishedMentions = self.m_finishedMentions := by rw [← hX]; exact k2
  have x5 : directMessageFetches X = directMessageFetches self := by
    rw [← hX, ← k4]
    simp [directMessageFetches, List.countP_append, Effect.isFetchDirectMessages]
  obtain ⟨p1, p2, p3⟩ := pollDirectMessages_barrier X x1 x2
  refine ⟨p1, p2, ?_⟩
  rcases p3 with ⟨_, q2, q3, q4, q5⟩ | ⟨q1, q2⟩
  · exact Or.inl ⟨x4 ▸ q2, q3, q4, x5 ▸ q5⟩
  · rw [q2]
    rcases q1 with q | q
    · rw [x3] at q; exact absurd q (by decide)
    · exact Or.inr ⟨x4 ▸ q, x3, q, x5⟩

theorem mentionsStatuses_barrier (self : TwitterPlugin) (statuses : List QTweetStatus)
    (hv : self.isValid = true) (hb : self.m_directMessages = true) :
    (mentionsStatuses self statuses).isValid = true
      ∧ (mentionsStatuses self statuses).m_directMessages = true
      ∧ ((self.m_finishedFriends = true
            ∧ (mentionsStatuses self statuses).m_finishedFriends = false
            ∧ (mentionsStatuses self statuses).m_finishedMentions = false
            ∧ directMessageFetches (mentionsStatuses self statuses)
                = directMessageFetches self + 1)
          ∨ (self.m_finishedFriends = false
            ∧ (mentionsStatuses self statuses).m_finishedFriends = false
            ∧ (mentionsStatuses self statuses).m_finishedMentions = true
            ∧ directMessageFetches (mentionsStatuses self statuses)
                = directMessageFetches self)) := by
  have K := foldl_mentionsStatus_barrierKept self.settings.twitterScreenName statuses self
  unfold mentionsStatuses
  dsimp only
  generalize statuses.foldl (mentionsStatus self.settings.twitterScreenName) self = F
    at K ⊢
  obtain ⟨k1, _, k3, k4, k5⟩ := K
  generalize hX : ({ F with
      settings := { F.settings with twitterCachedMentionsSinceId := F.m_cachedMentionsSinceId }
      log := F.log ++ [Effect.setTwitterCachedMentionsSinceId F.m_cachedMentionsSinceId]
      m_finishedMentions := true } : TwitterPlugin) = X
  have x1 : X.isValid = true := by rw [← hX]; exact k5 hv
  have x2 : X.m_directMessages = true := by rw [← hX]; exact k3.trans hb
  have x3 : X.m_finishedMentions = true := by rw [← hX]
  have x4 : X.m_finishedFriends = self.m_finishedFriends := by rw [← hX]; exact k1
  have x5 : directMessageFetches X = directMessageFetches self := by
    rw [← hX, ← k4]
    simp [directMessageFetches, List.countP_append, Effect.isFetchDirectMessages]
  obtain ⟨p1, p2, p3⟩ := pollDirectMessages_barrier X x1 x2
  refine ⟨p1, p2, ?_⟩
  rcases p3 with ⟨q1, _, q3, q4, q5⟩ | ⟨q1, q2⟩
  · exact Or.inl ⟨x4 ▸ q1, q3, q4, x5 ▸ q5⟩
  · rw [q2]
    rcases q1 with q | q
    · exact Or.inr ⟨x4 ▸ q, q, x3, x5⟩
    · rw [x3] at q; exact absurd q (by decide)

theorem barrier_general (evs : List Completion) (self : TwitterPlugin)
    (hv : self.isValid = true) (hb : self.m_directMessages = true)
    (hnot : ¬ (self.m_finishedFriends = true ∧ self.m_finishedMentions = true)) :
    directMessageFetches self ≤ directMessageFetches (evs.foldl complete self)
      ∧ (directMessageFetches self < directMessageFetches (evs.foldl complete self)
          ↔ (self.m_finishedFriends = true ∨ ∃ e ∈ evs, e.isTimeline = true)
            ∧ (self.m_finishedMentions = true ∨ ∃ e ∈ evs, e.isMentions = true)) := by
  induction evs generalizing self with
  | nil =>
    simp only [List.foldl_nil, le_refl, lt_self_iff_false, List.not_mem_nil, false_and,
      exists_false, or_false, true_and, false_iff]
    exact hnot
  | cons ev rest ih =>
    simp only [List.foldl_cons]
    cases ev with
    | timeline sts =>
      obtain ⟨v1, b1, h⟩ := friendsTimelineStatuses_barrier self sts hv hb
      rcases h with ⟨m, f1, f2, c⟩ | ⟨m, f1, f2, c⟩
      · obtain ⟨i1, _⟩ := ih (friendsTimelineStatuses self sts) v1 b1 (by simp [f1])
        have hlt : directMessageFetches self
            < directMessageFetches (rest.foldl complete (friendsTimelineStatuses self sts)) := by
          change directMessageFetches (friendsTimelineStatuses self sts) ≤ _ at i1
          omega
        refine ⟨le_of_lt hlt, ?_⟩
        simp only [complete, hlt, true_iff]
        exact ⟨Or.inr ⟨_, List.mem_cons_self _ _, rfl⟩, Or.inl m⟩
      · obtain ⟨i1, i2⟩ := ih (friendsTimelineStatuses self sts) v1 b1 (by simp [f2])
        change directMessageFetches (friendsTimelineStatuses self sts) ≤ _ at i1
        change directMessageFetches (friendsTimelineStatuses self sts) < _ ↔ _ at i2
        rw [c] at i1 i2
        refine ⟨i1, ?_⟩
        simp only [complete]
        rw [i2]
        have t1 : (Completion.timeline sts).isTimeline = true := rfl
        have t2 : (Completion.timeline sts).isMentions = false := rfl
        simp only [f1, f2, m, true_or, or_true, true_and, Bool.false_eq_true, false_or,
          List.mem_cons, exists_eq_or_imp, t1, t2]
    | mentions sts =>
      obtain ⟨v1, b1, h⟩ := mentionsStatuses_barrier self sts hv hb
      rcases h with ⟨m, f1, f2, c⟩ | ⟨m, f1, f2, c⟩
      · obtain ⟨i1, _⟩ := ih (mentionsStatuses self sts) v1 b1 (by simp [f1])
        have hlt : directMessageFetches self
            < directMessageFetches (rest.foldl complete (mentionsStatuses self sts)) := by
          change directMessageFetches (mentionsStatuses self sts) ≤ _ at i1
          omega
        refine ⟨le_of_lt hlt, ?_⟩
        simp only [complete, hlt, true_iff]
        exact ⟨Or.inl m, Or.inr ⟨_, List.mem_cons_self _ _, rfl⟩⟩
      · obtain ⟨i1, i2⟩ := ih (mentionsStatuses self sts) v1 b1 (by simp [f1])
        change directMessageFetches (mentionsStatuses self sts) ≤ _ at i1
        change directMessageFetches (mentionsStatuses self sts) < _ ↔ _ at i2
        rw [c] at i1 i2
        refine ⟨i1, ?_⟩
        simp only [complete]
        rw [i2]
        have t1 : (Completion.mentions sts).isTimeline = false := rfl
        have t2 : (Completion.mentions sts).isMentions = true := rfl
        simp only [f1, f2, m, true_or, or_true, and_true, Bool.false_eq_true, false_or,
          List.mem_cons, exists_eq_or_imp, t1, t2]

/-- C7: from a reset barrier, with a valid session and the direct-message
client bound, a direct-message fetch is issued during a run of completions iff
the run holds both a timeline completion and a mentions completion; for either
order of the two completions no fetch is issued at the first, exactly one at
the second, and afterwards both halves of the barrier are `false` again. -/
theorem join_barrier (self : TwitterPlugin) (a b : List QTweetStatus) (evs : List Completion)
    (hf : self.m_finishedFriends = false) (hm : self.m_finishedMentions = false)
    (hv : self.isValid = true) (hb : self.m_directMessages = true) :
    (directMessageFetches self < directMessageFetches (evs.foldl complete self)
        ↔ (∃ e ∈ evs, e.isTimeline = true) ∧ (∃ e ∈ evs, e.isMentions = true))
      ∧ (directMessageFetches (friendsTimelineStatuses self a) = directMessageFetches self
        ∧ directMessageFetches (mentionsStatuses (friendsTimelineStatuses self a) b)
            = directMessageFetches self + 1
        ∧ (mentionsStatuses (friendsTimelineStatuses self a) b).m_finishedFriends = false
        ∧ (mentionsStatuses (friendsTimelineStatuses self a) b).m_finishedMentions = false)
      ∧ (directMessageFetches (mentionsStatuses self a) = directMessageFetches self
        ∧ directMessageFetches (friendsTimelineStatuses (mentionsStatuses self a) b)
            = directMessageFetches self + 1
        ∧ (friendsTimelineStatuses (mentionsStatuses self a) b).m_finishedFriends = false
        ∧ (friendsTimelineStatuses (mentionsStatuses self a) b).m_finishedMentions = false) := by
  refine ⟨?_, ?_, ?_⟩
  · have g := (barrier_general evs self hv hb (by simp [hf])).2
    rw [g]
    simp [hf, hm]
  · obtain ⟨v1, b1, h⟩ := friendsTimelineStatuses_barrier self a hv hb
    rcases h with ⟨m, _⟩ | ⟨_, f1, _, c⟩
    · rw [hm] at m; exact absurd m (by decide)
    · obtain ⟨_, _, h2⟩ := mentionsStatuses_barrier (friendsTimelineStatuses self a) b v1 b1
      rcases h2 with ⟨_, g1, g2, c2⟩ | ⟨m2, _⟩
      · exact ⟨c, by rw [c2, c], g1, g2⟩
      · rw [f1] at m2; exact absurd m2 (by decide)
  · obtain ⟨v1, b1, h⟩ := mentionsStatuses_barrier self a hv hb
    rcases h with ⟨m, _⟩ | ⟨_, _, f2, c⟩
    · rw [hf] at m; exact absurd m (by decide)
    · obtain ⟨_, _, h2⟩ := friendsTimelineStatuses_barrier (mentionsStatuses self a) b v1 b1
      rcases h2 with ⟨_, g1, g2, c2⟩ | ⟨m2, _⟩
      · exact ⟨c, by rw [c2, c], g1, g2⟩
      · rw [f2] at m2; exact absurd m2 (by decide)

/-- C7, witness: the authed plugin, a timeline batch with one invitation and an
empty mentions batch. -/
theorem join_barrier_witness :
    directMessageFetches (friendsTimelineStatuses (authedPlugin (serventAt (qs "1.2.3.4") 4111))
        [⟨9, qs "someone", qs "Got Tomahawk?"⟩])
      = directMessageFetches (authedPlugin (serventAt (qs "1.2.3.4") 4111))
    ∧ directMessageFetches (mentionsStatuses
        (friendsTimelineStatuses (authedPlugin (serventAt (qs "1.2.3.4") 4111))
          [⟨9, qs "someone", qs "Got Tomahawk?"⟩]) [])
      = directMessageFetches (authedPlugin (serventAt (qs "1.2.3.4") 4111)) + 1 :=
  have w := (join_barrier (authedPlugin (serventAt (qs "1.2.3.4") 4111))
    [⟨9, qs "someone", qs "Got Tomahawk?"⟩] [] []
    (by decide) (by decide) (by decide) (by decide)).2.1
  ⟨w.1, w.2.1⟩

/-! ## C8 and C9: usable without credentials, `isValid` -/

theorem registerOffer_not_isEmpty (self : TwitterPlugin) (screenName : QString)
    (peerData : PeerData) (h : self.m_cachedPeers.isEmpty = false) :
    (registerOffer self screenName peerData).m_cachedPeers.isEmpty = false := by
  rcases registerOffer_cachedPeers self screenName peerData with e | ⟨stored, _, e⟩
  · rw [e]; exact h
  · rw [e]; exact QHash.isEmpty_insert _ _ _

theorem foldl_connectPeer (names : List QString) (self : TwitterPlugin) :
    outsidePeers (names.foldl connectPeer self) = outsidePeers self
      ∧ (self.m_cachedPeers.isEmpty = false →
          (names.foldl connectPeer self).m_cachedPeers.isEmpty = false) := by
  induction names generalizing self with
  | nil => exact ⟨rfl, id⟩
  | cons n ns ih =>
    simp only [List.foldl_cons]
    refine ⟨(ih _).1.trans (registerOffer_outsidePeers _ _ _), fun h => (ih _).2 ?_⟩
    exact registerOffer_not_isEmpty _ _ _ h

/-- What `connectPlugin` returns without credentials: `true` exactly when the
peer cache loaded from the settings store is empty. -/
theorem connectPlugin_absent_credentials (self : TwitterPlugin)
    (h : self.settings.twitterOAuthToken = [] ∨ self.settings.twitterOAuthTokenSecret = []) :
    (connectPlugin self).2 = self.settings.twitterCachedPeers.isEmpty := by
  unfold connectPlugin
  dsimp only
  generalize hs1 : ({ self with m_cachedPeers := self.settings.twitterCachedPeers }
    : TwitterPlugin) = self1
  have hp : self1.m_cachedPeers = self.settings.twitterCachedPeers := by rw [← hs1]
  have hset : self1.settings = self.settings := by rw [← hs1]
  obtain ⟨f1, f2⟩ := foldl_connectPeer (qStableSort self.settings.twitterCachedPeers.keys) self1
  have t1 := congrArg (fun s => s.settings.twitterOAuthToken) f1
  have t2 := congrArg (fun s => s.settings.twitterOAuthTokenSecret) f1
  change ((qStableSort self.settings.twitterCachedPeers.keys).foldl connectPeer self1
    ).settings.twitterOAuthToken = self1.settings.twitterOAuthToken at t1
  change ((qStableSort self.settings.twitterCachedPeers.keys).foldl connectPeer self1
    ).settings.twitterOAuthTokenSecret = self1.settings.twitterOAuthTokenSecret at t2
  rw [t1, t2, hset]
  have hc : (List.isEmpty self.settings.twitterOAuthToken
      || List.isEmpty self.settings.twitterOAuthTokenSecret) = true := by
    rcases h with e | e <;> simp [e]
  rw [if_pos hc]
  dsimp only
  cases hE : self.settings.twitterCachedPeers.isEmpty with
  | false => exact f2 (hp ▸ hE)
  | true =>
    have hk : self.settings.twitterCachedPeers.keys = [] := by
      unfold QHash.isEmpty at hE
      unfold QHash.keys
      rw [List.isEmpty_iff.1 hE]
      rfl
    rw [hk]
    change self1.m_cachedPeers.isEmpty = true
    rw [hp]; exact hE

/-- C8, the code at the failing inputs: without credentials `connectPlugin`
returns `false` when the settings store holds one cached peer (although the
plugin it leaves is valid), and `true` when it holds none (although the plugin
it leaves is not valid). -/
theorem connectPlugin_absent_credentials_inverted :
    (connectPlugin (TwitterPlugin.init
        (settingsWithPeer (advertisedRecord (qs "1.2.3.4") 4111 (qs "abc")) 0)
        (serventAt (qs "1.2.3.4") 4111) sampleUuids)).2 = false
      ∧ (connectPlugin (TwitterPlugin.init
          (settingsWithPeer (advertisedRecord (qs "1.2.3.4") 4111 (qs "abc")) 0)
          (serventAt (qs "1.2.3.4") 4111) sampleUuids)).1.isValid = true
      ∧ (connectPlugin (TwitterPlugin.init emptySettings
          (serventAt (qs "1.2.3.4") 4111) sampleUuids)).2 = true
      ∧ (connectPlugin (TwitterPlugin.init emptySettings
          (serventAt (qs "1.2.3.4") 4111) sampleUuids)).1.isValid = false := by
  refine ⟨by decide, by decide, by decide, by decide⟩

/-- C9: `isValid()` is `true` if and only if the session is authed or the peer
cache in memory holds at least one peer record. -/
theorem isValid_iff (self : TwitterPlugin) :
    self.isValid = true
      ↔ (self.m_isAuthed = true ∨ ∃ screenName, self.m_cachedPeers.contains screenName = true) := by
  unfold isValid QHash.isEmpty QHash.contains
  cases self.m_cachedPeers.entries with
  | nil => simp
  | cons e es =>
    simp only [List.isEmpty_cons, Bool.not_false, Bool.or_true, true_iff]
    exact Or.inr ⟨e.1, by simp⟩

/-! ## C10: no second announcement of an unchanged address -/

theorem makeConnection_quiet (self : TwitterPlugin) (screenName : QString)
    (peerData : PeerData) :
    posts (makeConnection self screenName peerData) = posts self
      ∧ (makeConnection self screenName peerData).settings = self.settings := by
  unfold makeConnection emit posts
  split
  · exact ⟨rfl, rfl⟩
  · dsimp only
    split
    · exact ⟨by simp [List.filter_append, Effect.isPost], rfl⟩
    · exact ⟨rfl, rfl⟩

/-- C10: for every peer record that already holds a local handshake key and
whose advertised address `(ohst, oprt)` equals the current external address of
the servent, `registerOffer` posts no offer message, generates no key, and
leaves the peer cache in memory and the peer cache in the settings store as
they were. -/
theorem registerOffer_suppresses_reannouncement (self : TwitterPlugin) (screenName : QString)
    (peerData : PeerData)
    (hokey : peerData.contains (qs "okey") = true)
    (hohst : peerData.contains (qs "ohst") = true)
    (hoprt : peerData.contains (qs "oprt") = true)
    (hhost : (peerData.get (qs "ohst")).toString = self.servent.externalAddress)
    (hport : (peerData.get (qs "oprt")).toInt = self.servent.externalPort) :
    posts (registerOffer self screenName peerData) = posts self
      ∧ (registerOffer self screenName peerData).m_cachedPeers = self.m_cachedPeers
      ∧ (registerOffer self screenName peerData).settings.twitterCachedPeers
          = self.settings.twitterCachedPeers
      ∧ (registerOffer self screenName peerData).uuidsTaken = self.uuidsTaken := by
  have e0 : RegisterOffer.generateKey ⟨self, peerData, false, false, false⟩
      = ⟨self, peerData, false, false, false⟩ := by
    unfold RegisterOffer.generateKey
    simp [hokey]
  have e1 : ∃ b, RegisterOffer.checkKeyCache ⟨self, peerData, false, false, false⟩
      = ⟨self, peerData, false, false, b⟩ := by
    unfold RegisterOffer.checkKeyCache
    split
    · exact ⟨true, rfl⟩
    · exact ⟨false, rfl⟩
  obtain ⟨b, e1⟩ := e1
  have e2 : RegisterOffer.checkAdvertised ⟨self, peerData, false, false, b⟩
      = ⟨self, peerData, false, false, b⟩ := by
    unfold RegisterOffer.checkAdvertised
    simp [hohst, hoprt, hhost, hport]
  have e3 : ∃ plugin : TwitterPlugin,
      RegisterOffer.addToCache ('@' :: screenName) ⟨self, peerData, false, false, b⟩
        = ⟨plugin, peerData, false, false, b⟩
      ∧ posts plugin = posts self ∧ plugin.m_cachedPeers = self.m_cachedPeers
      ∧ plugin.settings = self.settings ∧ plugin.uuidsTaken = self.uuidsTaken := by
    unfold RegisterOffer.addToCache
    split
    · exact ⟨_, rfl, by simp [posts, List.filter_append, Effect.isPost], rfl, rfl, rfl⟩
    · exact ⟨_, rfl, rfl, rfl, rfl, rfl⟩
  obtain ⟨plugin, e3, q1, q2, q3, q4⟩ := e3
  have e4 : RegisterOffer.send screenName ⟨plugin, peerData, false, false, b⟩
      = ⟨plugin, peerData, false, false, b⟩ := by
    unfold RegisterOffer.send
    simp
  unfold registerOffer
  rw [e0, e1, e2, e3, e4]
  unfold RegisterOffer.connect RegisterOffer.persist
  have mq := makeConnection_quiet plugin screenName peerData
  have mc := makeConnection_cachedPeers plugin screenName peerData
  split
  · dsimp only
    simp only [Bool.false_eq_true, if_false]
    refine ⟨mq.1.trans q1, mc.trans q2, by rw [mq.2, q3], ?_⟩
    unfold makeConnection emit
    split
    · exact q4
    · dsimp only
      split <;> exact q4
  · dsimp only
    simp only [Bool.false_eq_true, if_false]
    exact ⟨q1, q2, by rw [q3], q4⟩

/-- C10, witness: the cached record of `peer`, advertised at `1.2.3.4`, port
`4111`, with the key `abc`, while the servent still is at that address. -/
theorem registerOffer_suppresses_reannouncement_witness :
    posts (registerOffer (authedPlugin (serventAt (qs "1.2.3.4") 4111)) (qs "peer")
        (advertisedRecord (qs "1.2.3.4") 4111 (qs "abc")))
      = posts (authedPlugin (serventAt (qs "1.2.3.4") 4111)) :=
  (registerOffer_suppresses_reannouncement (authedPlugin (serventAt (qs "1.2.3.4") 4111))
    (qs "peer") (advertisedRecord (qs "1.2.3.4") 4111 (qs "abc"))
    (by decide) (by decide) (by decide) (by decide) (by decide)).1

/-! ## `registerOffer` in closed form -/

theorem checkKeyCache_eq (plugin : TwitterPlugin) (peerData : PeerData) (a b c : Bool) :
    RegisterOffer.checkKeyCache ⟨plugin, peerData, a, b, c⟩
      = ⟨plugin, peerData, a, b,
          c || !plugin.m_keyCache.contains (peerData.get (qs "okey")).toString⟩ := by
  unfold RegisterOffer.checkKeyCache
  cases h : plugin.m_keyCache.contains (peerData.get (qs "okey")).toString <;>
    cases c <;> simp [h]

theorem checkAdvertised_eq (plugin : TwitterPlugin) (peerData : PeerData) (a b c : Bool) :
    RegisterOffer.checkAdvertised ⟨plugin, peerData, a, b, c⟩
      = ⟨plugin, peerData, a, b || stale plugin.servent peerData, c⟩ := by
  unfold RegisterOffer.checkAdvertised stale
  dsimp only
  split
  · rename_i h
    rw [h, Bool.or_true]
  · rename_i h
    simp only [Bool.not_eq_true] at h
    rw [h, Bool.or_false]

theorem makeConnection_eq (self : TwitterPlugin) (screenName : QString)
    (peerData : PeerData) (h : Connectable peerData = true) :
    makeConnection self screenName peerData
      = { self with
          log := self.log ++
            (if !self.servent.sessions.contains ('@' :: screenName) then
              [Effect.connectToPeer (peerData.get (qs "host")).toString
                (toInt (peerData.get (qs "port")).toString)
                (peerData.get (qs "pkey")).toString ('@' :: screenName) ('@' :: screenName)]
            else []) } := by
  unfold Connectable at h
  simp only [Bool.and_eq_true] at h
  unfold makeConnection emit
  simp only [h.1.1, h.1.2, h.2, Bool.not_true, Bool.or_self, Bool.false_eq_true, if_false]
  split
  · rfl
  · simp

theorem sendOffer_eq (self : TwitterPlugin) (screenName : QString) (peerData : PeerData) :
    sendOffer self screenName peerData
      = { self with
          log := self.log ++
            (if self.m_directMessageNew then [Effect.post screenName (offerString peerData)]
            else []) } := by
  unfold sendOffer emit
  split
  · rfl
  · simp

theorem addToCache_eq (node : QString) (f : RegisterOffer) :
    f.addToCache node
      = { f with
          plugin :=
            { f.plugin with
              m_keyCache := f.plugin.m_keyCache ++
                (if f.needToAddToCache then
                  [f.plugin.servent.connectionKey node node (f.peerData.get (qs "okey")).toString]
                else [])
              log := f.plugin.log ++
                (if f.needToAddToCache then
                  [Effect.createConnectionKey node node (f.peerData.get (qs "okey")).toString]
                else []) } } := by
  unfold RegisterOffer.addToCache
  split
  · rfl
  · simp

theorem send_eq (screenName : QString) (f : RegisterOffer) :
    f.send screenName
      = { f with
          plugin :=
            { f.plugin with
              m_cachedPeers := f.cache screenName
              log := f.plugin.log ++ f.sendEffects screenName }
          peerData := f.sent
          peersChanged := f.peersChanged || f.needToSend } := by
  obtain ⟨plugin, peerData, a, b, c⟩ := f
  unfold RegisterOffer.send RegisterOffer.cache RegisterOffer.sendEffects RegisterOffer.sent
  cases b
  · simp
  · simp only [if_true, sendOffer_eq, Bool.or_true, Bool.true_and]

theorem connect_eq (screenName : QString) (f : RegisterOffer) :
    f.connect screenName
      = { f with
          plugin :=
            { f.plugin with
              log := f.plugin.log ++
                (if Connectable f.peerData
                    && !f.plugin.servent.sessions.contains ('@' :: screenName) then
                  [Effect.connectToPeer (f.peerData.get (qs "host")).toString
                    (toInt (f.peerData.get (qs "port")).toString)
                    (f.peerData.get (qs "pkey")).toString
                    ('@' :: screenName) ('@' :: screenName)]
                else []) } } := by
  unfold RegisterOffer.connect
  cases h : Connectable f.peerData
  · have h' : (f.peerData.contains (qs "host") && f.peerData.contains (qs "port")
        && f.peerData.contains (qs "pkey")) = false := h
    simp [h']
  · have h' : (f.peerData.contains (qs "host") && f.peerData.contains (qs "port")
        && f.peerData.contains (qs "pkey")) = true := h
    rw [if_pos h', makeConnection_eq _ _ _ h]
    simp

theorem persist_eq (f : RegisterOffer) :
    f.persist
      = { f.plugin with
          settings :=
            { f.plugin.settings with
              twitterCachedPeers :=
                if f.peersChanged then f.plugin.m_cachedPeers
                else f.plugin.settings.twitterCachedPeers }
          log := f.plugin.log ++
            (if f.peersChanged then [Effect.setTwitterCachedPeers f.plugin.m_cachedPeers]
            else []) } := by
  unfold RegisterOffer.persist setTwitterCachedPeers
  split
  · rfl
  · simp

/-- The state a run of `registerOffer` ends in, from the frame it has when it
reaches the block `if( needToAddToCache )`. -/
theorem registerOffer_tail (screenName : QString) (f : RegisterOffer) :
    RegisterOffer.persist (RegisterOffer.connect screenName (RegisterOffer.send screenName
        (RegisterOffer.addToCache ('@' :: screenName) f)))
      = { f.plugin with
          m_keyCache := f.plugin.m_keyCache ++
            (if f.needToAddToCache then
              [f.plugin.servent.connectionKey ('@' :: screenName) ('@' :: screenName)
                (f.peerData.get (qs "okey")).toString]
            else [])
          m_cachedPeers := f.cache screenName
          settings :=
            { f.plugin.settings with
              twitterCachedPeers :=
                if f.peersChanged || f.needToSend then f.cache screenName
                else f.plugin.settings.twitterCachedPeers }
          log := f.plugin.log ++ f.effects screenName } := by
  rw [persist_eq, connect_eq, send_eq, addToCache_eq]
  simp only [RegisterOffer.effects, RegisterOffer.registrationEffects,
    RegisterOffer.connectEffects, RegisterOffer.persistEffects, RegisterOffer.cache,
    RegisterOffer.sendEffects, RegisterOffer.sent, RegisterOffer.advertise, List.append_assoc]

/-- `registerOffer` in closed form: the state it ends in, from the frame it has
when it reaches the block `if( needToAddToCache )`. -/
theorem registerOffer_eq (self : TwitterPlugin) (screenName : QString) (peerData : PeerData) :
    registerOffer self screenName peerData
      = { (RegisterOffer.decided self peerData).plugin with
          m_keyCache := (RegisterOffer.decided self peerData).plugin.m_keyCache ++
            (if (RegisterOffer.decided self peerData).needToAddToCache then
              [(RegisterOffer.decided self peerData).plugin.servent.connectionKey
                ('@' :: screenName) ('@' :: screenName)
                ((RegisterOffer.decided self peerData).peerData.get (qs "okey")).toString]
            else [])
          m_cachedPeers := (RegisterOffer.decided self peerData).cache screenName
          settings :=
            { (RegisterOffer.decided self peerData).plugin.settings with
              twitterCachedPeers :=
                if (RegisterOffer.decided self peerData).peersChanged
                    || (RegisterOffer.decided self peerData).needToSend then
                  (RegisterOffer.decided self peerData).cache screenName
                else (RegisterOffer.decided self peerData).plugin.settings.twitterCachedPeers }
          log := (RegisterOffer.decided self peerData).plugin.log
            ++ (RegisterOffer.decided self peerData).effects screenName } :=
  registerOffer_tail screenName (RegisterOffer.decided self peerData)

/-- The frame of `registerOffer` for a record that holds a local handshake
key: no key is generated, an offer is needed when the advertised address is
stale, a registration when the key is not in the key cache. -/
theorem decided_of_key (self : TwitterPlugin) (peerData : PeerData)
    (h : peerData.contains (qs "okey") = true) :
    RegisterOffer.decided self peerData
      = ⟨self, peerData, false, stale self.servent peerData,
          !self.m_keyCache.contains (peerData.get (qs "okey")).toString⟩ := by
  unfold RegisterOffer.decided RegisterOffer.generateKey
  simp only [h, Bool.not_true, Bool.false_eq_true, if_false]
  rw [checkKeyCache_eq, checkAdvertised_eq]
  simp only [Bool.false_or]

/-- The frame of `registerOffer` for a record without local handshake key: a
key is generated from the next uuid, and a registration and an offer are
needed. -/
theorem decided_of_no_key (self : TwitterPlugin) (peerData : PeerData)
    (h : peerData.contains (qs "okey") = false) :
    RegisterOffer.decided self peerData
      = ⟨{ self with uuidsTaken := self.uuidsTaken + 1 },
          peerData.insert (qs "okey")
            (QVariant.string (freshKey (self.uuids self.uuidsTaken))),
          true, true, true⟩ := by
  unfold RegisterOffer.decided RegisterOffer.generateKey
  simp only [h, Bool.not_false, if_true]
  rw [checkKeyCache_eq, checkAdvertised_eq]
  simp only [Bool.true_or]

theorem decided_plugin (self : TwitterPlugin) (peerData : PeerData) :
    (RegisterOffer.decided self peerData).plugin
      = { self with
          uuidsTaken :=
            if peerData.contains (qs "okey") then self.uuidsTaken else self.uuidsTaken + 1 } := by
  cases h : peerData.contains (qs "okey")
  · rw [decided_of_no_key self peerData h]
    simp
  · rw [decided_of_key self peerData h]
    simp

theorem effects_filter_isPost (screenName : QString) (f : RegisterOffer) :
    (f.effects screenName).filter Effect.isPost = f.sendEffects screenName := by
  unfold RegisterOffer.effects RegisterOffer.registrationEffects RegisterOffer.sendEffects
    RegisterOffer.connectEffects RegisterOffer.persistEffects
  simp only [List.filter_append]
  split_ifs <;> simp [Effect.isPost]

/-- The posts of one run of `registerOffer`. -/
theorem registerOffer_posts (self : TwitterPlugin) (screenName : QString)
    (peerData : PeerData) :
    posts (registerOffer self screenName peerData)
      = posts self ++ (RegisterOffer.decided self peerData).sendEffects screenName := by
  rw [registerOffer_eq]
  unfold posts
  simp only [List.filter_append, effects_filter_isPost, decided_plugin]

theorem contains_of_get (peerData : PeerData) (key : QString)
    (h : peerData.get key ≠ QVariant.invalid) : peerData.contains key = true := by
  rw [QHash.contains_eq_isSome]
  unfold PeerData.get QHash.value at h
  cases hf : QHash.find peerData.entries key with
  | none => rw [hf] at h; exact absurd rfl h
  | some v => rfl

theorem stale_of_changed (servent : Servent) (peerData : PeerData) (h : QString) (p : Int)
    (h1 : peerData.get (qs "ohst") = QVariant.string h)
    (h2 : peerData.get (qs "oprt") = QVariant.int p)
    (hchg : h ≠ servent.externalAddress ∨ p ≠ servent.externalPort) :
    stale servent peerData = true := by
  unfold stale
  rw [h1, h2]
  simp only [QVariant.toString, QVariant.toInt]
  rcases hchg with e | e <;> simp [e]

/-- C11 (as amended): for every peer record advertised at `(h, p)` with local
handshake key `k`, when the external address of the servent is `(h', p')`
different from `(h, p)`, the message client is bound and `h'` holds no `%`,
`registerOffer` posts exactly one message, to that peer, with the text
`TOMAHAWKPEER:Host=<h'>:Port=<p'>:PKey=<k>`; the cached record of the peer
then has the advertised address `(h', p')` and still the key `k`, and the peer
cache in the settings store equals the one in memory. -/
theorem registerOffer_readvertises (self : TwitterPlugin) (screenName : QString)
    (peerData : PeerData) (h k : QString) (p : Int)
    (h1 : peerData.get (qs "ohst") = QVariant.string h)
    (h2 : peerData.get (qs "oprt") = QVariant.int p)
    (h3 : peerData.get (qs "okey") = QVariant.string k)
    (hchg : h ≠ self.servent.externalAddress ∨ p ≠ self.servent.externalPort)
    (hbound : self.m_directMessageNew = true)
    (hpercent : '%' ∉ self.servent.externalAddress) :
    posts (registerOffer self screenName peerData)
        = posts self ++ [Effect.post screenName
            (qs "TOMAHAWKPEER:Host=" ++ (self.servent.externalAddress ++ (qs ":Port="
              ++ (number self.servent.externalPort ++ (qs ":PKey=" ++ k)))))]
      ∧ PeerData.get ((registerOffer self screenName peerData).m_cachedPeers.value
            screenName QHash.empty) (qs "ohst") = QVariant.string self.servent.externalAddress
      ∧ PeerData.get ((registerOffer self screenName peerData).m_cachedPeers.value
            screenName QHash.empty) (qs "oprt") = QVariant.int self.servent.externalPort
      ∧ PeerData.get ((registerOffer self screenName peerData).m_cachedPeers.value
            screenName QHash.empty) (qs "okey") = QVariant.string k
      ∧ (registerOffer self screenName peerData).settings.twitterCachedPeers
          = (registerOffer self screenName peerData).m_cachedPeers := by
  have hk : peerData.contains (qs "okey") = true :=
    contains_of_get _ _ (by rw [h3]; exact fun e => QVariant.noConfusion e)
  have hs := stale_of_changed self.servent peerData h p h1 h2 hchg
  have hd := decided_of_key self peerData hk
  rw [hs] at hd
  have a1 : PeerData.get (RegisterOffer.advertise ⟨self, peerData, false, true,
      !self.m_keyCache.contains (peerData.get (qs "okey")).toString⟩) (qs "ohst")
      = QVariant.string self.servent.externalAddress := by
    unfold RegisterOffer.advertise
    rw [peerData_get_insert_ne _ _ _ _ (by decide), peerData_get_insert_same]
  have a2 : PeerData.get (RegisterOffer.advertise ⟨self, peerData, false, true,
      !self.m_keyCache.contains (peerData.get (qs "okey")).toString⟩) (qs "oprt")
      = QVariant.int self.servent.externalPort := by
    unfold RegisterOffer.advertise
    rw [peerData_get_insert_same]
  have a3 : PeerData.get (RegisterOffer.advertise ⟨self, peerData, false, true,
      !self.m_keyCache.contains (peerData.get (qs "okey")).toString⟩) (qs "okey")
      = QVariant.string k := by
    unfold RegisterOffer.advertise
    rw [peerData_get_insert_ne _ _ _ _ (by decide), peerData_get_insert_ne _ _ _ _ (by decide),
      h3]
  refine ⟨?_, ?_, ?_, ?_, ?_⟩
  · rw [registerOffer_posts, hd]
    unfold RegisterOffer.sendEffects
    simp only [hbound, Bool.and_self, if_true]
    rw [offerString_eq _ _ _ _ hpercent a1 a2 a3]
  · rw [registerOffer_eq, hd]
    simp only [RegisterOffer.cache, if_true, QHash.value_insert_same]
    exact a1
  · rw [registerOffer_eq, hd]
    simp only [RegisterOffer.cache, if_true, QHash.value_insert_same]
    exact a2
  · rw [registerOffer_eq, hd]
    simp only [RegisterOffer.cache, if_true, QHash.value_insert_same]
    exact a3
  · rw [registerOffer_eq, hd]
    simp

/-- C11, witness: the record of `peer` advertised at `1.2.3.4`, port `4111`,
with the key `abc`, after the servent moved to `5.6.7.8`, port `4112`. -/
theorem registerOffer_readvertises_witness :
    posts (registerOffer (authedPlugin (serventAt (qs "5.6.7.8") 4112)) (qs "peer")
        (advertisedRecord (qs "1.2.3.4") 4111 (qs "abc")))
      = posts (authedPlugin (serventAt (qs "5.6.7.8") 4112))
          ++ [Effect.post (qs "peer") (qs "TOMAHAWKPEER:Host=5.6.7.8:Port=4112:PKey=abc")] :=
  (registerOffer_readvertises (authedPlugin (serventAt (qs "5.6.7.8") 4112)) (qs "peer")
    (advertisedRecord (qs "1.2.3.4") 4111 (qs "abc")) (qs "1.2.3.4") (qs "abc") 4111
    (by decide) (by decide) (by decide) (Or.inl (by decide)) (by decide) (by decide)).1

/-- C11, counterexample: on the plugin as constructed, whose message client is
not bound, `registerOffer` for a record advertised at another address posts
nothing, although it stores the new address as advertised; and with the
message client bound and the external address `%3`, the text posted carries
the key in place of the address. -/
theorem registerOffer_readvertises_fails :
    posts (registerOffer (TwitterPlugin.init emptySettings (serventAt (qs "5.6.7.8") 4112)
        sampleUuids) (qs "peer") (advertisedRecord (qs "1.2.3.4") 4111 (qs "abc"))) = []
      ∧ PeerData.get ((registerOffer (TwitterPlugin.init emptySettings
            (serventAt (qs "5.6.7.8") 4112) sampleUuids) (qs "peer")
            (advertisedRecord (qs "1.2.3.4") 4111 (qs "abc"))).m_cachedPeers.value
              (qs "peer") QHash.empty) (qs "ohst") = QVariant.string (qs "5.6.7.8")
      ∧ posts (registerOffer (authedPlugin (serventAt (qs "%3") 4112)) (qs "peer")
          (advertisedRecord (qs "1.2.3.4") 4111 (qs "abc")))
        = [Effect.post (qs "peer") (qs "TOMAHAWKPEER:Host=abc:Port=4112:PKey=abc")] := by
  refine ⟨by decide, by decide, by decide⟩

/-! ## C12: the local handshake key is generated once -/

theorem effects_keepsKey (screenName identity key : QString) (f : RegisterOffer)
    (h : screenName = identity → (f.peerData.get (qs "okey")).toString = key) :
    ∀ e ∈ f.effects screenName, Effect.keepsKey identity key e = true := by
  intro e he
  unfold RegisterOffer.effects RegisterOffer.registrationEffects RegisterOffer.sendEffects
    RegisterOffer.connectEffects RegisterOffer.persistEffects at he
  simp only [List.mem_append] at he
  rcases he with he | he | he | he
  · split at he
    · rw [List.mem_singleton.1 he]
      unfold Effect.keepsKey
      by_cases hs : screenName = identity
      · simp [h hs]
      · simp [hs]
    · exact absurd he (List.not_mem_nil _)
  · split at he
    · rw [List.mem_singleton.1 he]; rfl
    · exact absurd he (List.not_mem_nil _)
  · split at he
    · rw [List.mem_singleton.1 he]; rfl
    · exact absurd he (List.not_mem_nil _)
  · split at he
    · rw [List.mem_singleton.1 he]; rfl
    · exact absurd he (List.not_mem_nil _)

theorem registerOffer_log_eq (self : TwitterPlugin) (screenName : QString)
    (peerData : PeerData) :
    (registerOffer self screenName peerData).log
      = self.log ++ (RegisterOffer.decided self peerData).effects screenName := by
  rw [registerOffer_eq, decided_plugin]

theorem registerOffer_cache_eq (self : TwitterPlugin) (screenName : QString)
    (peerData : PeerData) :
    (registerOffer self screenName peerData).m_cachedPeers
      = if (RegisterOffer.decided self peerData).needToSend then
          self.m_cachedPeers.insert screenName (RegisterOffer.decided self peerData).advertise
        else self.m_cachedPeers := by
  rw [registerOffer_eq]
  simp only [RegisterOffer.cache, decided_plugin]

/-- `registerOffer`, called for another identity or with a record that holds
the key, keeps the key of `identity` and registers no other key for it. -/
theorem registerOffer_holdsKey (self : TwitterPlugin) (screenName : QString)
    (peerData : PeerData) (identity : QString) (okey : QVariant)
    (h : HoldsKey self identity okey)
    (hpd : screenName = identity →
      peerData.contains (qs "okey") = true ∧ peerData.get (qs "okey") = okey) :
    HoldsKey (registerOffer self screenName peerData) identity okey
      ∧ LogExtends (Effect.keepsKey identity okey.toString) self
          (registerOffer self screenName peerData) := by
  constructor
  · unfold HoldsKey
    rw [registerOffer_cache_eq]
    split
    · by_cases hs : screenName = identity
      · subst hs
        obtain ⟨c, g⟩ := hpd rfl
        rw [decided_of_key self peerData c]
        simp only [QHash.contains_insert_same, QHash.value_insert_same,
          RegisterOffer.advertise, true_and]
        rw [QHash.contains_insert_ne _ _ _ _ (by decide),
          QHash.contains_insert_ne _ _ _ _ (by decide),
          peerData_get_insert_ne _ _ _ _ (by decide),
          peerData_get_insert_ne _ _ _ _ (by decide)]
        exact ⟨c, g⟩
      · rw [QHash.contains_insert_ne _ _ _ _ (Ne.symm hs),
          QHash.value_insert_ne _ _ _ _ _ (Ne.symm hs)]
        exact h
    · exact h
  · refine ⟨_, registerOffer_log_eq self screenName peerData, ?_⟩
    apply effects_keepsKey
    intro hs
    obtain ⟨c, g⟩ := hpd hs
    rw [decided_of_key self peerData c, g]

theorem holdsKey_of_cache_eq {a b : TwitterPlugin} (identity : QString) (okey : QVariant)
    (hc : b.m_cachedPeers = a.m_cachedPeers) (h : HoldsKey a identity okey) :
    HoldsKey b identity okey := by
  unfold HoldsKey at h ⊢
  rw [hc]
  exact h

theorem friendsTimelineStatus_holdsKey (myScreenName : QString) (self : TwitterPlugin)
    (status : QTweetStatus) (identity : QString) (okey : QVariant)
    (h : HoldsKey self identity okey) :
    HoldsKey (friendsTimelineStatus myScreenName self status) identity okey
      ∧ LogExtends (Effect.keepsKey identity okey.toString) self
          (friendsTimelineStatus myScreenName self status) := by
  have h1 : HoldsKey (if status.id > self.m_cachedFriendsSinceId then
        ({ self with m_cachedFriendsSinceId := status.id } : TwitterPlugin) else self)
        identity okey
      ∧ LogExtends (Effect.keepsKey identity okey.toString) self
        (if status.id > self.m_cachedFriendsSinceId then
          ({ self with m_cachedFriendsSinceId := status.id } : TwitterPlugin) else self) := by
    split
    · exact ⟨holdsKey_of_cache_eq identity okey rfl h, logExtends_of_log_eq rfl⟩
    · exact ⟨h, logExtends_refl _ _⟩
  unfold friendsTimelineStatus
  dsimp only
  generalize (if status.id > self.m_cachedFriendsSinceId then
      ({ self with m_cachedFriendsSinceId := status.id } : TwitterPlugin) else self) = self1
    at h1 ⊢
  split_ifs with c1 c2 c3
  · exact h1
  · have hne : status.screenName ≠ identity := by
      intro e
      rw [e, h1.1.1] at c3
      exact absurd c3 (by decide)
    obtain ⟨k, l⟩ := registerOffer_holdsKey self1 status.screenName QHash.empty identity okey
      h1.1 (fun e => absurd e hne)
    exact ⟨k, logExtends_trans h1.2 l⟩
  · exact h1
  · exact h1

theorem mentionsStatus_holdsKey (myScreenName : QString) (self : TwitterPlugin)
    (status : QTweetStatus) (identity : QString) (okey : QVariant)
    (h : HoldsKey self identity okey) :
    HoldsKey (mentionsStatus myScreenName self status) identity okey
      ∧ LogExtends (Effect.keepsKey identity okey.toString) self
          (mentionsStatus myScreenName self status) := by
  have h1 : HoldsKey (if status.id > self.m_cachedMentionsSinceId then
        ({ self with m_cachedMentionsSinceId := status.id } : TwitterPlugin) else self)
        identity okey
      ∧ LogExtends (Effect.keepsKey identity okey.toString) self
        (if status.id > self.m_cachedMentionsSinceId then
          ({ self with m_cachedMentionsSinceId := status.id } : TwitterPlugin) else self) := by
    split
    · exact ⟨holdsKey_of_cache_eq identity okey rfl h, logExtends_of_log_eq rfl⟩
    · exact ⟨h, logExtends_refl _ _⟩
  unfold mentionsStatus
  dsimp only
  generalize (if status.id > self.m_cachedMentionsSinceId then
      ({ self with m_cachedMentionsSinceId := status.id } : TwitterPlugin) else self) = self1
    at h1 ⊢
  split_ifs with c1 c2 c3
  · exact h1
  · have hne : status.screenName ≠ identity := by
      intro e
      rw [e, h1.1.1] at c3
      exact absurd c3 (by decide)
    obtain ⟨k, l⟩ := registerOffer_holdsKey self1 status.screenName QHash.empty identity okey
      h1.1 (fun e => absurd e hne)
    exact ⟨k, logExtends_trans h1.2 l⟩
  · exact h1
  · exact h1

theorem connectTimerPeer_holdsKey (self : TwitterPlugin) (screenName identity : QString)
    (okey : QVariant) (h : HoldsKey self identity okey) :
    HoldsKey (connectTimerPeer self screenName) identity okey
      ∧ LogExtends (Effect.keepsKey identity okey.toString) self
          (connectTimerPeer self screenName) := by
  unfold connectTimerPeer
  dsimp only
  split
  · exact ⟨h, logExtends_refl _ _⟩
  · exact registerOffer_holdsKey self screenName _ identity okey h
      (fun e => by subst e; exact ⟨h.2.1, h.2.2⟩)

theorem directMessage_holdsKey (acc : TwitterPlugin × Bool) (status : QTweetDMStatus)
    (identity : QString) (okey : QVariant) (h : HoldsKey acc.1 identity okey) :
    HoldsKey (directMessage acc status).1 identity okey
      ∧ LogExtends (Effect.keepsKey identity okey.toString) acc.1
          (directMessage acc status).1 := by
  cases hp : parseOffer status.text with
  | none =>
    rw [directMessage_discard _ _ hp]
    exact ⟨holdsKey_of_cache_eq identity okey rfl h, logExtends_of_log_eq rfl⟩
  | some offer =>
    have h1 : HoldsKey (if status.id > acc.1.m_cachedDirectMessagesSinceId then
          ({ acc.1 with m_cachedDirectMessagesSinceId := status.id } : TwitterPlugin)
          else acc.1) identity okey
        ∧ LogExtends (Effect.keepsKey identity okey.toString) acc.1
          (if status.id > acc.1.m_cachedDirectMessagesSinceId then
            ({ acc.1 with m_cachedDirectMessagesSinceId := status.id } : TwitterPlugin)
            else acc.1) := by
      split
      · exact ⟨holdsKey_of_cache_eq identity okey rfl h, logExtends_of_log_eq rfl⟩
      · exact ⟨h, logExtends_refl _ _⟩
    unfold directMessage
    simp only [hp]
    generalize (if status.id > acc.1.m_cachedDirectMessagesSinceId then
        ({ acc.1 with m_cachedDirectMessagesSinceId := status.id } : TwitterPlugin)
        else acc.1) = self1 at h1 ⊢
    generalize hpd0 : (if self1.m_cachedPeers.contains status.senderScreenName = true then
        self1.m_cachedPeers.value status.senderScreenName QHash.empty
      else QHash.empty) = peerData0
    generalize hpd : ((peerData0.insert (qs "host") (QVariant.string offer.host)).insert
          (qs "port") (QVariant.int offer.port)).insert (qs "pkey")
          (QVariant.string offer.pkey) = peerData
    have hkey : status.senderScreenName = identity →
        peerData.contains (qs "okey") = true ∧ PeerData.get peerData (qs "okey") = okey := by
      intro e
      rw [← hpd, QHash.contains_insert_ne _ _ _ _ (by decide),
        QHash.contains_insert_ne _ _ _ _ (by decide),
        QHash.contains_insert_ne _ _ _ _ (by decide),
        peerData_get_insert_ne _ _ _ _ (by decide),
        peerData_get_insert_ne _ _ _ _ (by decide),
        peerData_get_insert_ne _ _ _ _ (by decide), ← hpd0, e, if_pos h1.1.1]
      exact ⟨h1.1.2.1, h1.1.2.2⟩
    have h2 : HoldsKey ({ self1 with
        m_cachedPeers := self1.m_cachedPeers.insert status.senderScreenName peerData }
        : TwitterPlugin) identity okey := by
      unfold HoldsKey
      by_cases e : status.senderScreenName = identity
      · dsimp only
        rw [e, QHash.contains_insert_same, QHash.value_insert_same]
        exact ⟨rfl, hkey e⟩
      · dsimp only
        rw [QHash.contains_insert_ne _ _ _ _ (Ne.symm e),
          QHash.value_insert_ne _ _ _ _ _ (Ne.symm e)]
        exact h1.1
    obtain ⟨k, l⟩ := registerOffer_holdsKey _ status.senderScreenName peerData identity okey
      h2 hkey
    have l2 : LogExtends (Effect.keepsKey identity okey.toString) self1
        (registerOffer { self1 with
          m_cachedPeers := self1.m_cachedPeers.insert status.senderScreenName peerData }
          status.senderScreenName peerData) :=
      logExtends_trans (logExtends_of_log_eq rfl) l
    split
    · exact ⟨holdsKey_of_cache_eq identity okey rfl k,
        logExtends_trans h1.2 (logExtends_trans l2 (logExtends_emit _ _ _ rfl))⟩
    · exact ⟨k, logExtends_trans h1.2 l2⟩

theorem logExtends_mono {ok ok1 : Effect → Bool} {a b : TwitterPlugin}
    (h : LogExtends ok a b) (hm : ∀ e, ok e = true → ok1 e = true) : LogExtends ok1 a b := by
  obtain ⟨extra, hl, ho⟩ := h
  exact ⟨extra, hl, fun e he => hm e (ho e he)⟩

theorem pollDirectMessages_log (self : TwitterPlugin) :
    LogExtends Effect.isFetchDirectMessages self (pollDirectMessages self) := by
  unfold pollDirectMessages
  dsimp only
  split_ifs
  · exact logExtends_refl _ _
  · exact logExtends_of_log_eq rfl
  · exact logExtends_trans (logExtends_of_log_eq rfl) (logExtends_emit _ _ _ rfl)
  · exact logExtends_of_log_eq rfl
  · exact logExtends_trans (logExtends_of_log_eq rfl) (logExtends_emit _ _ _ rfl)
  · exact logExtends_of_log_eq rfl

theorem foldl_friendsTimelineStatus_holdsKey (myScreenName : QString)
    (statuses : List QTweetStatus) (self : TwitterPlugin) (identity : QString)
    (okey : QVariant) (h : HoldsKey self identity okey) :
    HoldsKey (statuses.foldl (friendsTimelineStatus myScreenName) self) identity okey
      ∧ LogExtends (Effect.keepsKey identity okey.toString) self
          (statuses.foldl (friendsTimelineStatus myScreenName) self) := by
  induction statuses generalizing self with
  | nil => exact ⟨h, logExtends_refl _ _⟩
  | cons st sts ih =>
    obtain ⟨k, l⟩ := friendsTimelineStatus_holdsKey myScreenName self st identity okey h
    obtain ⟨k2, l2⟩ := ih _ k
    exact ⟨k2, logExtends_trans l l2⟩

theorem foldl_mentionsStatus_holdsKey (myScreenName : QString)
    (statuses : List QTweetStatus) (self : TwitterPlugin) (identity : QString)
    (okey : QVariant) (h : HoldsKey self identity okey) :
    HoldsKey (statuses.foldl (mentionsStatus myScreenName) self) identity okey
      ∧ LogExtends (Effect.keepsKey identity okey.toString) self
          (statuses.foldl (mentionsStatus myScreenName) self) := by
  induction statuses generalizing self with
  | nil => exact ⟨h, logExtends_refl _ _⟩
  | cons st sts ih =>
    obtain ⟨k, l⟩ := mentionsStatus_holdsKey myScreenName self st identity okey h
    obtain ⟨k2, l2⟩ := ih _ k
    exact ⟨k2, logExtends_trans l l2⟩

theorem foldl_connectTimerPeer_holdsKey (names : List QString) (self : TwitterPlugin)
    (identity : QString) (okey : QVariant) (h : HoldsKey self identity okey) :
    HoldsKey (names.foldl connectTimerPeer self) identity okey
      ∧ LogExtends (Effect.keepsKey identity okey.toString) self
          (names.foldl connectTimerPeer self) := by
  induction names generalizing self with
  | nil => exact ⟨h, logExtends_refl _ _⟩
  | cons n ns ih =>
    obtain ⟨k, l⟩ := connectTimerPeer_holdsKey self n identity okey h
    obtain ⟨k2, l2⟩ := ih _ k
    exact ⟨k2, logExtends_trans l l2⟩

theorem foldl_directMessage_holdsKey (messages : List QTweetDMStatus)
    (acc : TwitterPlugin × Bool) (identity : QString) (okey : QVariant)
    (h : HoldsKey acc.1 identity okey) :
    HoldsKey (messages.foldl directMessage acc).1 identity okey
      ∧ LogExtends (Effect.keepsKey identity okey.toString) acc.1
          (messages.foldl directMessage acc).1 := by
  induction messages generalizing acc with
  | nil => exact ⟨h, logExtends_refl _ _⟩
  | cons m ms ih =>
    obtain ⟨k, l⟩ := directMessage_holdsKey acc m identity okey h
    obtain ⟨k2, l2⟩ := ih _ k
    exact ⟨k2, logExtends_trans l l2⟩

theorem keepsKey_of_isFetchDirectMessages (identity key : QString) (e : Effect)
    (h : e.isFetchDirectMessages = true) : Effect.keepsKey identity key e = true := by
  cases e <;> simp_all [Effect.isFetchDirectMessages, Effect.keepsKey]

theorem friendsTimelineStatuses_holdsKey (self : TwitterPlugin)
    (statuses : List QTweetStatus) (identity : QString) (okey : QVariant)
    (h : HoldsKey self identity okey) :
    HoldsKey (friendsTimelineStatuses self statuses) identity okey
      ∧ LogExtends (Effect.keepsKey identity okey.toString) self
          (friendsTimelineStatuses self statuses) := by
  obtain ⟨k, l⟩ := foldl_friendsTimelineStatus_holdsKey self.settings.twitterScreenName
    statuses self identity okey h
  unfold friendsTimelineStatuses
  dsimp only
  generalize statuses.foldl (friendsTimelineStatus self.settings.twitterScreenName) self = F
    at k l ⊢
  refine ⟨holdsKey_of_cache_eq identity okey
    ((pollDirectMessages_cachedPeers _).trans rfl) k, ?_⟩
  refine logExtends_trans l (logExtends_trans ?_
    (logExtends_mono (pollDirectMessages_log _) (keepsKey_of_isFetchDirectMessages _ _)))
  exact ⟨[_], rfl, fun e he => by rw [List.mem_singleton.1 he]; rfl⟩

theorem mentionsStatuses_holdsKey (self : TwitterPlugin)
    (statuses : List QTweetStatus) (identity : QString) (okey : QVariant)
    (h : HoldsKey self identity okey) :
    HoldsKey (mentionsStatuses self statuses) identity okey
      ∧ LogExtends (Effect.keepsKey identity okey.toString) self
          (mentionsStatuses self statuses) := by
  obtain ⟨k, l⟩ := foldl_mentionsStatus_holdsKey self.settings.twitterScreenName
    statuses self identity okey h
  unfold mentionsStatuses
  dsimp only
  generalize statuses.foldl (mentionsStatus self.settings.twitterScreenName) self = F
    at k l ⊢
  refine ⟨holdsKey_of_cache_eq identity okey
    ((pollDirectMessages_cachedPeers _).trans rfl) k, ?_⟩
  refine logExtends_trans l (logExtends_trans ?_
    (logExtends_mono (pollDirectMessages_log _) (keepsKey_of_isFetchDirectMessages _ _)))
  exact ⟨[_], rfl, fun e he => by rw [List.mem_singleton.1 he]; rfl⟩

theorem connectTimerFired_holdsKey (self : TwitterPlugin) (identity : QString)
    (okey : QVariant) (h : HoldsKey self identity okey) :
    HoldsKey (connectTimerFired self) identity okey
      ∧ LogExtends (Effect.keepsKey identity okey.toString) self (connectTimerFired self) := by
  unfold connectTimerFired
  split
  · exact ⟨h, logExtends_refl _ _⟩
  · exact foldl_connectTimerPeer_holdsKey _ self identity okey h

theorem directMessages_holdsKey (self : TwitterPlugin) (messages : List QTweetDMStatus)
    (identity : QString) (okey : QVariant) (h : HoldsKey self identity okey) :
    HoldsKey (directMessages self messages) identity okey
      ∧ LogExtends (Effect.keepsKey identity okey.toString) self
          (directMessages self messages) := by
  obtain ⟨k, l⟩ := foldl_directMessage_holdsKey messages (self, false) identity okey h
  refine ⟨holdsKey_of_cache_eq identity okey (directMessages_cachedPeers self messages) k, ?_⟩
  unfold directMessages
  dsimp only
  generalize messages.foldl directMessage (self, false) = r at k l ⊢
  refine logExtends_trans l ?_
  split
  · refine ⟨[Effect.setTwitterCachedPeers r.1.m_cachedPeers,
      Effect.setTwitterCachedDirectMessagesSinceId r.1.m_cachedDirectMessagesSinceId],
      by simp [setTwitterCachedPeers], fun e he => ?_⟩
    simp only [List.mem_cons, List.mem_singleton, List.not_mem_nil, or_false] at he
    rcases he with e1 | e1 <;> (rw [e1]; rfl)
  · exact ⟨[_], rfl, fun e he => by rw [List.mem_singleton.1 he]; rfl⟩

/-- C12: when the cached record of an identity holds a local handshake key,
none of `registerOffer` (called for another identity, or for this one with a
record that holds the key, as each of its callers does), `connectTimerFired`,
`friendsTimelineStatuses`, `mentionsStatuses` and `directMessages`, for any
batch, changes the `okey` of that record, and none registers a key other than
this one for the identity: no new key is generated for it. -/
theorem local_key_generated_once (self : TwitterPlugin) (identity : QString)
    (okey : QVariant) (screenName : QString) (peerData : PeerData)
    (statuses : List QTweetStatus) (messages : List QTweetDMStatus)
    (h : HoldsKey self identity okey)
    (hpd : screenName = identity →
      peerData.contains (qs "okey") = true ∧ peerData.get (qs "okey") = okey) :
    (HoldsKey (registerOffer self screenName peerData) identity okey
        ∧ LogExtends (Effect.keepsKey identity okey.toString) self
            (registerOffer self screenName peerData))
      ∧ (HoldsKey (connectTimerFired self) identity okey
        ∧ LogExtends (Effect.keepsKey identity okey.toString) self (connectTimerFired self))
      ∧ (HoldsKey (friendsTimelineStatuses self statuses) identity okey
        ∧ LogExtends (Effect.keepsKey identity okey.toString) self
            (friendsTimelineStatuses self statuses))
      ∧ (HoldsKey (mentionsStatuses self statuses) identity okey
        ∧ LogExtends (Effect.keepsKey identity okey.toString) self
            (mentionsStatuses self statuses))
      ∧ (HoldsKey (directMessages self messages) identity okey
        ∧ LogExtends (Effect.keepsKey identity okey.toString) self
            (directMessages self messages)) :=
  ⟨registerOffer_holdsKey self screenName peerData identity okey h hpd,
    connectTimerFired_holdsKey self identity okey h,
    friendsTimelineStatuses_holdsKey self statuses identity okey h,
    mentionsStatuses_holdsKey self statuses identity okey h,
    directMessages_holdsKey self messages identity okey h⟩

/-- C12, witness: the plugin after `connectPlugin` found the cached peer `peer`
with the key `abc`; two offers from `peer` in one batch leave the key as it
was. -/
theorem local_key_generated_once_witness :
    HoldsKey
      (directMessages
        (connectPlugin (TwitterPlugin.init
          (settingsWithPeer (advertisedRecord (qs "1.2.3.4") 4111 (qs "abc")) 0)
          (serventAt (qs "1.2.3.4") 4111) sampleUuids)).1
        [⟨1, qs "peer", qs "TOMAHAWKPEER:Host=9.9.9.9:Port=50210:PKey=k1"⟩,
         ⟨2, qs "peer", qs "TOMAHAWKPEER:Host=9.9.9.8:Port=50211:PKey=k2"⟩])
      (qs "peer") (QVariant.string (qs "abc")) :=
  (local_key_generated_once
    (connectPlugin (TwitterPlugin.init
      (settingsWithPeer (advertisedRecord (qs "1.2.3.4") 4111 (qs "abc")) 0)
      (serventAt (qs "1.2.3.4") 4111) sampleUuids)).1
    (qs "peer") (QVariant.string (qs "abc")) (qs "peer")
    (advertisedRecord (qs "1.2.3.4") 4111 (qs "abc"))
    [⟨9, qs "peer", qs "Got Tomahawk?"⟩]
    [⟨1, qs "peer", qs "TOMAHAWKPEER:Host=9.9.9.9:Port=50210:PKey=k1"⟩,
     ⟨2, qs "peer", qs "TOMAHAWKPEER:Host=9.9.9.8:Port=50211:PKey=k2"⟩]
    ⟨by decide, by decide, by decide⟩
    (fun _ => ⟨by decide, by decide⟩)).2.2.2.2.1

/-! ## C13: which direct messages are deleted from the relay -/

theorem destroyedIds_of_logExtends {a b : TwitterPlugin}
    (h : LogExtends Effect.isRegisterOfferEffect a b) : destroyedIds b = destroyedIds a := by
  obtain ⟨extra, hl, hok⟩ := h
  unfold destroyedIds
  rw [hl, List.filterMap_append]
  have : extra.filterMap Effect.destroyedId = [] := by
    rw [List.filterMap_eq_nil_iff]
    intro e he
    have := hok e he
    cases e <;> simp_all [Effect.isRegisterOfferEffect, Effect.destroyedId]
  rw [this, List.append_nil]

theorem directMessage_destroyed (acc : TwitterPlugin × Bool) (status : QTweetDMStatus)
    (hb : acc.1.m_directMessageDestroy = true) :
    (directMessage acc status).1.m_directMessageDestroy = true
      ∧ destroyedIds (directMessage acc status).1
          = destroyedIds acc.1 ++ (if isOffer status then [status.id] else []) := by
  have hf := congrArg TwitterPlugin.m_directMessageDestroy (directMessage_outsidePeers acc status)
  change (directMessage acc status).1.m_directMessageDestroy = acc.1.m_directMessageDestroy at hf
  refine ⟨hf.trans hb, ?_⟩
  unfold isOffer
  cases hp : parseOffer status.text with
  | none =>
    rw [directMessage_discard _ _ hp]
    simp [destroyedIds]
  | some offer =>
    unfold directMessage
    simp only [hp, Option.isSome_some, if_true]
    generalize hs2 : ({ (if status.id > acc.1.m_cachedDirectMessagesSinceId then
        ({ acc.1 with m_cachedDirectMessagesSinceId := status.id } : TwitterPlugin)
        else acc.1) with
        m_cachedPeers := (if status.id > acc.1.m_cachedDirectMessagesSinceId then
          ({ acc.1 with m_cachedDirectMessagesSinceId := status.id } : TwitterPlugin)
          else acc.1).m_cachedPeers.insert status.senderScreenName _ } : TwitterPlugin) = self2
    have d2 : destroyedIds self2 = destroyedIds acc.1 := by
      rw [← hs2]
      unfold destroyedIds
      dsimp only
      split <;> rfl
    have b2 : self2.m_directMessageDestroy = true := by
      rw [← hs2]
      dsimp only
      split <;> exact hb
    generalize hpd : (QHash.insert _ (qs "pkey") (QVariant.string offer.pkey)) = peerData
    have d3 : destroyedIds (registerOffer self2 status.senderScreenName peerData)
        = destroyedIds acc.1 :=
      (destroyedIds_of_logExtends (registerOffer_log _ _ _)).trans d2
    have b3 : (registerOffer self2 status.senderScreenName peerData).m_directMessageDestroy
        = true := by
      have := congrArg TwitterPlugin.m_directMessageDestroy
        (registerOffer_outsidePeers self2 status.senderScreenName peerData)
      change (registerOffer self2 status.senderScreenName peerData).m_directMessageDestroy
        = self2.m_directMessageDestroy at this
      exact this.trans b2
    rw [if_pos b3]
    unfold emit
    simp only [destroyedIds, List.filterMap_append] at d3 ⊢
    rw [d3]
    rfl

theorem foldl_directMessage_destroyed (messages : List QTweetDMStatus)
    (acc : TwitterPlugin × Bool) (hb : acc.1.m_directMessageDestroy = true) :
    destroyedIds (messages.foldl directMessage acc).1
      = destroyedIds acc.1 ++ (messages.filter isOffer).map (fun m => m.id) := by
  induction messages generalizing acc with
  | nil => simp
  | cons m ms ih =>
    obtain ⟨b1, d1⟩ := directMessage_destroyed acc m hb
    simp only [List.foldl_cons]
    rw [ih _ b1, d1]
    cases hm : isOffer m <;> simp [List.filter_cons, hm]

/-- The checks `directMessages` runs on a text, spelled out: the text is
accepted exactly when it splits at `:` into four fields, the first is
`TOMAHAWKPEER`, the others start with `Host=`, `Port=` and `PKey=`, and what
follows `Port=` converts to an `int` other than `0`. -/
theorem isOffer_iff (m : QTweetDMStatus) :
    isOffer m = true
      ↔ ((split ':' m.text).length = 4
        ∧ (split ':' m.text).getD 0 [] = qs "TOMAHAWKPEER"
        ∧ startsWith ((split ':' m.text).getD 1 []) (qs "Host=") = true
        ∧ startsWith ((split ':' m.text).getD 2 []) (qs "Port=") = true
        ∧ startsWith ((split ':' m.text).getD 3 []) (qs "PKey=") = true
        ∧ toInt (mid ((split ':' m.text).getD 2 []) 5) ≠ 0) := by
  unfold isOffer parseOffer
  dsimp only
  split_ifs with h1 h2 h3 h4
  · simp only [Option.isSome_none, Bool.false_eq_true, false_iff]
    rintro ⟨a, -⟩
    exact h1 a
  · simp only [Option.isSome_none, Bool.false_eq_true, false_iff]
    rintro ⟨-, a, -⟩
    exact h2 a
  · simp only [Option.isSome_none, Bool.false_eq_true, false_iff]
    rintro ⟨-, -, a, b, c, -⟩
    rw [a, b, c] at h3
    simp at h3
  · simp only [Option.isSome_none, Bool.false_eq_true, false_iff]
    rintro ⟨-, -, -, -, -, a⟩
    exact a h4
  · simp only [Option.isSome_some, true_iff]
    simp only [Bool.or_eq_true, Bool.not_eq_true', not_or, Bool.not_eq_false] at h3
    exact ⟨not_not.1 h1, not_not.1 h2, h3.1.1, h3.1.2, h3.2, h4⟩

/-- C13 (as amended): with the message-destroy client bound, `directMessages`
requests the deletion from the relay of exactly the messages of the batch
whose text it accepts as an offer, in the order of the batch, and of no
other message. A text is accepted exactly when it splits at `:` into four
fields, the first is `TOMAHAWKPEER`, the others start with `Host=`, `Port=`
and `PKey=`, and what follows `Port=` converts to an `int` other than `0`;
what follows `Host=` and `PKey=` may be empty. -/
theorem directMessages_destroys_accepted (self : TwitterPlugin)
    (messages : List QTweetDMStatus) (hb : self.m_directMessageDestroy = true) :
    destroyedIds (directMessages self messages)
        = destroyedIds self ++ (messages.filter isOffer).map (fun m => m.id)
      ∧ ∀ m : QTweetDMStatus, isOffer m = true
          ↔ ((split ':' m.text).length = 4
            ∧ (split ':' m.text).getD 0 [] = qs "TOMAHAWKPEER"
            ∧ startsWith ((split ':' m.text).getD 1 []) (qs "Host=") = true
            ∧ startsWith ((split ':' m.text).getD 2 []) (qs "Port=") = true
            ∧ startsWith ((split ':' m.text).getD 3 []) (qs "PKey=") = true
            ∧ toInt (mid ((split ':' m.text).getD 2 []) 5) ≠ 0) := by
  refine ⟨?_, isOffer_iff⟩
  have hf := foldl_directMessage_destroyed messages (self, false) hb
  unfold directMessages setTwitterCachedPeers
  dsimp only
  generalize messages.foldl directMessage (self, false) = r at hf ⊢
  split <;>
    (simp only [destroyedIds, List.filterMap_append] at hf ⊢
     rw [hf]
     simp [Effect.destroyedId])

/-- C13, witness: a batch of one offer, one other text and one offer with an
empty host and an empty key on the authed plugin: the two offers are deleted,
the other text is not. -/
theorem directMessages_destroys_accepted_witness :
    destroyedIds (directMessages (authedPlugin (serventAt (qs "1.2.3.4") 4111))
        [⟨5, qs "peer", qs "TOMAHAWKPEER:Host=9.9.9.9:Port=50210:PKey=k1"⟩,
         ⟨6, qs "friend", qs "hello world"⟩,
         ⟨8, qs "other", qs "TOMAHAWKPEER:Host=:Port=5:PKey="⟩])
      = [5, 8] :=
  (directMessages_destroys_accepted (authedPlugin (serventAt (qs "1.2.3.4") 4111))
    [⟨5, qs "peer", qs "TOMAHAWKPEER:Host=9.9.9.9:Port=50210:PKey=k1"⟩,
     ⟨6, qs "friend", qs "hello world"⟩,
     ⟨8, qs "other", qs "TOMAHAWKPEER:Host=:Port=5:PKey="⟩] (by decide)).1

/-- C13, counterexample: with the message-destroy client bound, the batch of
the single message `hello world` is handled without any deletion request. -/
theorem directMessages_keeps_discarded :
    (authedPlugin (serventAt (qs "1.2.3.4") 4111)).m_directMessageDestroy = true
      ∧ destroyedIds (directMessages (authedPlugin (serventAt (qs "1.2.3.4") 4111))
          [⟨6, qs "friend", qs "hello world"⟩]) = [] := by
  refine ⟨by decide, by decide⟩

/-! ## C14: what an accepted offer changes in the peer cache -/

theorem registerOffer_other (self : TwitterPlugin) (screenName : QString)
    (peerData : PeerData) (other : QString) (h : other ≠ screenName) :
    (registerOffer self screenName peerData).m_cachedPeers.contains other
        = self.m_cachedPeers.contains other
      ∧ ∀ dflt, (registerOffer self screenName peerData).m_cachedPeers.value other dflt
        = self.m_cachedPeers.value other dflt := by
  rw [registerOffer_cache_eq]
  split
  · exact ⟨QHash.contains_insert_ne _ _ _ _ h, fun d => QHash.value_insert_ne _ _ _ _ _ h⟩
  · exact ⟨rfl, fun _ => rfl⟩

theorem registerOffer_contains (self : TwitterPlugin) (screenName : QString)
    (peerData : PeerData) (h : self.m_cachedPeers.contains screenName = true) :
    (registerOffer self screenName peerData).m_cachedPeers.contains screenName = true := by
  rw [registerOffer_cache_eq]
  split
  · exact QHash.contains_insert_same _ _ _
  · exact h

theorem registerOffer_connectable (self : TwitterPlugin) (screenName : QString)
    (peerData : PeerData) (hc : Connectable peerData = true)
    (hv : self.m_cachedPeers.value screenName QHash.empty = peerData) :
    Connectable ((registerOffer self screenName peerData).m_cachedPeers.value
      screenName QHash.empty) = true := by
  rcases registerOffer_cachedPeers self screenName peerData with e | ⟨stored, hs, e⟩
  · rw [e, hv]; exact hc
  · rw [e, QHash.value_insert_same]
    unfold Connectable at hc ⊢
    rw [(hs _ (by decide) (by decide) (by decide)).2,
      (hs _ (by decide) (by decide) (by decide)).2,
      (hs _ (by decide) (by decide) (by decide)).2]
    exact hc

/-- What the body of the loop of `directMessages` does to the peer cache on an
accepted offer. -/
theorem directMessage_accept_cache (acc : TwitterPlugin × Bool) (status : QTweetDMStatus)
    (offer : InboundOffer) (h : parseOffer status.text = some offer) :
    (directMessage acc status).1.m_cachedPeers.contains status.senderScreenName = true
      ∧ Connectable ((directMessage acc status).1.m_cachedPeers.value
            status.senderScreenName QHash.empty) = true
      ∧ ∀ other, other ≠ status.senderScreenName →
          (directMessage acc status).1.m_cachedPeers.contains other
              = acc.1.m_cachedPeers.contains other
            ∧ ∀ dflt, (directMessage acc status).1.m_cachedPeers.value other dflt
              = acc.1.m_cachedPeers.value other dflt := by
  unfold directMessage
  simp only [h]
  generalize hs1 : (if status.id > acc.1.m_cachedDirectMessagesSinceId then
      ({ acc.1 with m_cachedDirectMessagesSinceId := status.id } : TwitterPlugin)
    else acc.1) = self1
  have c1 : self1.m_cachedPeers = acc.1.m_cachedPeers := by
    rw [← hs1]
    split <;> rfl
  generalize hp0 : (if self1.m_cachedPeers.contains status.senderScreenName = true then
      self1.m_cachedPeers.value status.senderScreenName QHash.empty
    else QHash.empty) = peerData0
  generalize hpd : ((peerData0.insert (qs "host") (QVariant.string offer.host)).insert
        (qs "port") (QVariant.int offer.port)).insert (qs "pkey") (QVariant.string offer.pkey)
      = peerData
  have hconn : Connectable peerData = true := by
    rw [← hpd]
    unfold Connectable
    rw [QHash.contains_insert_ne _ _ _ _ (by decide),
      QHash.contains_insert_ne _ _ _ _ (by decide), QHash.contains_insert_same,
      QHash.contains_insert_ne _ _ _ _ (by decide), QHash.contains_insert_same,
      QHash.contains_insert_same]
    rfl
  have hc : ∀ s3 : TwitterPlugin,
      (if s3.m_directMessageDestroy = true then s3.emit (Effect.destroyMessage status.id)
        else s3).m_cachedPeers = s3.m_cachedPeers := by
    intro s3
    split <;> rfl
  rw [hc]
  refine ⟨?_, ?_, ?_⟩
  · exact registerOffer_contains _ _ _ (QHash.contains_insert_same _ _ _)
  · exact registerOffer_connectable _ _ _ hconn (QHash.value_insert_same _ _ _ _)
  · intro other ho
    obtain ⟨r1, r2⟩ := registerOffer_other
      { self1 with m_cachedPeers := self1.m_cachedPeers.insert status.senderScreenName peerData }
      status.senderScreenName peerData other ho
    refine ⟨?_, fun d => ?_⟩
    · rw [r1]
      dsimp only
      rw [QHash.contains_insert_ne _ _ _ _ ho, c1]
    · rw [r2]
      dsimp only
      rw [QHash.value_insert_ne _ _ _ _ _ ho, c1]

theorem directMessage_other (acc : TwitterPlugin × Bool) (status : QTweetDMStatus)
    (other : QString) (h : isOffer status = true → status.senderScreenName ≠ other) :
    (directMessage acc status).1.m_cachedPeers.contains other
        = acc.1.m_cachedPeers.contains other
      ∧ ∀ dflt, (directMessage acc status).1.m_cachedPeers.value other dflt
        = acc.1.m_cachedPeers.value other dflt := by
  cases hp : parseOffer status.text with
  | none =>
    rw [directMessage_discard acc status hp]
    exact ⟨rfl, fun _ => rfl⟩
  | some offer =>
    have hne : other ≠ status.senderScreenName := by
      intro e
      exact h (by unfold isOffer; rw [hp]; rfl) e.symm
    exact (directMessage_accept_cache acc status offer hp).2.2 other hne

theorem foldl_directMessage_other (messages : List QTweetDMStatus) (other : QString) :
    ∀ acc : TwitterPlugin × Bool,
      (∀ m ∈ messages, isOffer m = true → m.senderScreenName ≠ other) →
      (messages.foldl directMessage acc).1.m_cachedPeers.contains other
          = acc.1.m_cachedPeers.contains other
        ∧ ∀ dflt, (messages.foldl directMessage acc).1.m_cachedPeers.value other dflt
          = acc.1.m_cachedPeers.value other dflt := by
  induction messages with
  | nil => intro acc _; exact ⟨rfl, fun _ => rfl⟩
  | cons m rest ih =>
    intro acc h
    rw [List.foldl_cons]
    obtain ⟨a1, a2⟩ := ih (directMessage acc m) (fun x hx => h x (List.mem_cons_of_mem _ hx))
    obtain ⟨b1, b2⟩ := directMessage_other acc m other (h m (List.mem_cons_self _ _))
    exact ⟨a1.trans b1, fun d => (a2 d).trans (b2 d)⟩

/-- C14: when `directMessages` handles a batch, the sender of an accepted offer
has, after the handler, a peer record (created if there was none) whose host,
port and pkey are the values read from the last accepted offer of that sender
in the batch, and every identity from which the batch holds no accepted offer
keeps its record (or its absence) unchanged. For a batch of one accepted
message from `S` these are all identities other than `S`. -/
theorem directMessages_merges_offer (self : TwitterPlugin)
    (before after : List QTweetDMStatus) (status : QTweetDMStatus) (offer : InboundOffer)
    (h : parseOffer status.text = some offer)
    (hlast : ∀ m ∈ after, isOffer m = true → m.senderScreenName ≠ status.senderScreenName) :
    (directMessages self (before ++ status :: after)).m_cachedPeers.contains
        status.senderScreenName = true
      ∧ Connectable ((directMessages self (before ++ status :: after)).m_cachedPeers.value
          status.senderScreenName QHash.empty) = true
      ∧ PeerData.get ((directMessages self (before ++ status :: after)).m_cachedPeers.value
          status.senderScreenName QHash.empty) (qs "host") = QVariant.string offer.host
      ∧ PeerData.get ((directMessages self (before ++ status :: after)).m_cachedPeers.value
          status.senderScreenName QHash.empty) (qs "port") = QVariant.int offer.port
      ∧ PeerData.get ((directMessages self (before ++ status :: after)).m_cachedPeers.value
          status.senderScreenName QHash.empty) (qs "pkey") = QVariant.string offer.pkey
      ∧ ∀ other : QString,
          (∀ m ∈ before ++ status :: after, isOffer m = true → m.senderScreenName ≠ other) →
          (directMessages self (before ++ status :: after)).m_cachedPeers.contains other
              = self.m_cachedPeers.contains other
            ∧ ∀ dflt, (directMessages self (before ++ status :: after)).m_cachedPeers.value
                other dflt = self.m_cachedPeers.value other dflt := by
  rw [directMessages_cachedPeers]
  refine ⟨?_, ?_, ?_, ?_, ?_, ?_⟩
  · rw [List.foldl_append, List.foldl_cons]
    rw [(foldl_directMessage_other after status.senderScreenName _ hlast).1]
    exact (directMessage_accept_cache _ status offer h).1
  · rw [List.foldl_append, List.foldl_cons]
    rw [(foldl_directMessage_other after status.senderScreenName _ hlast).2]
    exact (directMessage_accept_cache _ status offer h).2.1
  · rw [List.foldl_append, List.foldl_cons]
    rw [(foldl_directMessage_other after status.senderScreenName _ hlast).2]
    exact (directMessage_accept _ status offer h).2.1
  · rw [List.foldl_append, List.foldl_cons]
    rw [(foldl_directMessage_other after status.senderScreenName _ hlast).2]
    exact (directMessage_accept _ status offer h).2.2.1
  · rw [List.foldl_append, List.foldl_cons]
    rw [(foldl_directMessage_other after status.senderScreenName _ hlast).2]
    exact (directMessage_accept _ status offer h).2.2.2
  · intro other ho
    exact foldl_directMessage_other _ other (self, false) ho

/-- C14 at a batch of one accepted message from `friend` handled by a plugin
whose cache holds `peer`: `friend` gets a record with the values of the
message and the record of `peer` stays as it was. -/
theorem directMessages_merges_offer_witness :
    (directMessages
        { authedPlugin (serventAt (qs "1.2.3.4") 4111) with
          m_cachedPeers := QHash.empty.insert (qs "peer")
            (advertisedRecord (qs "1.2.3.4") 4111 (qs "abc")) }
        [⟨5, qs "friend", qs "TOMAHAWKPEER:Host=9.9.9.9:Port=50210:PKey=xyz"⟩]).m_cachedPeers.contains
          (qs "friend") = true
      ∧ PeerData.get ((directMessages
          { authedPlugin (serventAt (qs "1.2.3.4") 4111) with
          m_cachedPeers := QHash.empty.insert (qs "peer")
            (advertisedRecord (qs "1.2.3.4") 4111 (qs "abc")) }
          [⟨5, qs "friend", qs "TOMAHAWKPEER:Host=9.9.9.9:Port=50210:PKey=xyz"⟩]).m_cachedPeers.value
            (qs "friend") QHash.empty) (qs "host") = QVariant.string (qs "9.9.9.9")
      ∧ (directMessages
          { authedPlugin (serventAt (qs "1.2.3.4") 4111) with
          m_cachedPeers := QHash.empty.insert (qs "peer")
            (advertisedRecord (qs "1.2.3.4") 4111 (qs "abc")) }
          [⟨5, qs "friend", qs "TOMAHAWKPEER:Host=9.9.9.9:Port=50210:PKey=xyz"⟩]).m_cachedPeers.value
            (qs "peer") QHash.empty = advertisedRecord (qs "1.2.3.4") 4111 (qs "abc") := by
  have t := directMessages_merges_offer
    { authedPlugin (serventAt (qs "1.2.3.4") 4111) with
          m_cachedPeers := QHash.empty.insert (qs "peer")
            (advertisedRecord (qs "1.2.3.4") 4111 (qs "abc")) }
    [] [] ⟨5, qs "friend", qs "TOMAHAWKPEER:Host=9.9.9.9:Port=50210:PKey=xyz"⟩
    ⟨qs "9.9.9.9", 50210, qs "xyz"⟩ (by decide) (by simp)
  refine ⟨t.1, t.2.2.1, ?_⟩
  have u := (t.2.2.2.2.2 (qs "peer") (by
    intro m hm _
    simp only [List.nil_append, List.mem_singleton] at hm
    rw [hm]
    decide)).2 QHash.empty
  exact u.trans (by decide)

/-! ## Discovery of an identity from a public status -/

/-- `registerOffer` on an empty record, in closed form. -/
theorem registerOffer_empty (self : TwitterPlugin) (screenName : QString) :
    registerOffer self screenName QHash.empty
      = { self with
          uuidsTaken := self.uuidsTaken + 1
          m_keyCache := self.m_keyCache ++
            [self.servent.connectionKey ('@' :: screenName) ('@' :: screenName)
              (freshKey (self.uuids self.uuidsTaken))]
          m_cachedPeers := self.m_cachedPeers.insert screenName (discoveryRecord self)
          settings :=
            { self.settings with
              twitterCachedPeers := self.m_cachedPeers.insert screenName (discoveryRecord self) }
          log := self.log ++
            (Effect.createConnectionKey ('@' :: screenName) ('@' :: screenName)
                (freshKey (self.uuids self.uuidsTaken))
              :: ((if self.m_directMessageNew then
                    [Effect.post screenName (offerString (discoveryRecord self))]
                  else [])
                ++ [Effect.setTwitterCachedPeers
                      (self.m_cachedPeers.insert screenName (discoveryRecord self))])) } := by
  rw [registerOffer_eq, decided_of_no_key self QHash.empty rfl]
  have hc : Connectable (discoveryRecord self) = false := by
    unfold Connectable discoveryRecord
    rw [QHash.contains_insert_ne _ _ _ _ (by decide), QHash.contains_insert_ne _ _ _ _ (by decide),
      QHash.contains_insert_ne _ _ _ _ (by decide)]
    rfl
  have hk : (PeerData.get (QHash.empty.insert (qs "okey")
      (QVariant.string (freshKey (self.uuids self.uuidsTaken)))) (qs "okey")).toString
      = freshKey (self.uuids self.uuidsTaken) := by
    rw [peerData_get_insert_same]
    rfl
  have ha : RegisterOffer.advertise ⟨{ self with uuidsTaken := self.uuidsTaken + 1 },
      QHash.empty.insert (qs "okey") (QVariant.string (freshKey (self.uuids self.uuidsTaken))),
      true, true, true⟩ = discoveryRecord self := rfl
  simp only [RegisterOffer.cache, RegisterOffer.effects, RegisterOffer.registrationEffects,
    RegisterOffer.sendEffects, RegisterOffer.connectEffects, RegisterOffer.persistEffects,
    RegisterOffer.sent, ha, hc, hk, if_true, Bool.true_and, Bool.false_and, Bool.or_true,
    List.nil_append, List.singleton_append, List.cons_append, Bool.false_eq_true, if_false]

theorem friendsTimelineStatus_eq (myScreenName : QString) (self : TwitterPlugin)
    (status : QTweetStatus) :
    friendsTimelineStatus myScreenName self status
      = if discovered myScreenName self status then
          registerOffer
            { self with m_cachedFriendsSinceId := max self.m_cachedFriendsSinceId status.id }
            status.screenName QHash.empty
        else { self with m_cachedFriendsSinceId := max self.m_cachedFriendsSinceId status.id } := by
  have h1 : (if status.id > self.m_cachedFriendsSinceId then
      ({ self with m_cachedFriendsSinceId := status.id } : TwitterPlugin) else self)
      = { self with m_cachedFriendsSinceId := max self.m_cachedFriendsSinceId status.id } := by
    split
    · rename_i hlt
      rw [max_eq_right (le_of_lt hlt)]
    · rename_i hlt
      rw [max_eq_left (not_lt.1 hlt)]
  unfold friendsTimelineStatus discovered
  simp only [h1]
  by_cases a : status.screenName = myScreenName
  · simp [a]
  · cases b : regexExactMatch status.text <;> cases c : self.m_cachedPeers.contains status.screenName
      <;> simp [a, b, c]

theorem mentionsStatus_eq (myScreenName : QString) (self : TwitterPlugin)
    (status : QTweetStatus) :
    mentionsStatus myScreenName self status
      = if discovered myScreenName self status then
          registerOffer
            { self with m_cachedMentionsSinceId := max self.m_cachedMentionsSinceId status.id }
            status.screenName QHash.empty
        else { self with m_cachedMentionsSinceId := max self.m_cachedMentionsSinceId status.id } := by
  have h1 : (if status.id > self.m_cachedMentionsSinceId then
      ({ self with m_cachedMentionsSinceId := status.id } : TwitterPlugin) else self)
      = { self with m_cachedMentionsSinceId := max self.m_cachedMentionsSinceId status.id } := by
    split
    · rename_i hlt
      rw [max_eq_right (le_of_lt hlt)]
    · rename_i hlt
      rw [max_eq_left (not_lt.1 hlt)]
  unfold mentionsStatus discovered
  simp only [h1]
  by_cases a : status.screenName = myScreenName
  · simp [a]
  · cases b : regexExactMatch status.text <;> cases c : self.m_cachedPeers.contains status.screenName
      <;> simp [a, b, c]

theorem startsWith_iff (str s : QString) :
    startsWith str s = true ↔ ∃ rest, str = s ++ rest := by
  unfold startsWith
  rw [List.isPrefixOf_iff_prefix]
  constructor
  · rintro ⟨t, ht⟩
    exact ⟨t, ht.symm⟩
  · rintro ⟨t, ht⟩
    exact ⟨t, ht.symm⟩

theorem takeWhile_screenName (name rest : QString)
    (h : ∀ c ∈ name, isScreenNameChar c = true) :
    (name ++ ' ' :: rest).takeWhile isScreenNameChar = name
      ∧ (name ++ ' ' :: rest).dropWhile isScreenNameChar = ' ' :: rest := by
  induction name with
  | nil => exact ⟨rfl, rfl⟩
  | cons c cs ih =>
    have hc := h c (List.mem_cons_self _ _)
    obtain ⟨i1, i2⟩ := ih (fun x hx => h x (List.mem_cons_of_mem _ hx))
    constructor
    · rw [List.cons_append, List.takeWhile_cons, if_pos hc, i1]
    · rw [List.cons_append, List.dropWhile_cons, if_pos hc, i2]

/-- The texts `regexExactMatch` accepts: `Got Tomahawk?` in exactly this
spelling followed by anything, optionally preceded by `@`, a non-empty name of
characters of the class and one blank. -/
theorem regexExactMatch_iff (text : QString) :
    regexExactMatch text = true
      ↔ (∃ rest, text = qs "Got Tomahawk?" ++ rest)
        ∨ ∃ name rest, name ≠ [] ∧ (∀ c ∈ name, isScreenNameChar c = true)
            ∧ text = '@' :: (name ++ (qs " Got Tomahawk?" ++ rest)) := by
  unfold regexExactMatch
  rw [Bool.or_eq_true, startsWith_iff]
  constructor
  · rintro (h | h)
    · exact Or.inl h
    · right
      cases text with
      | nil => exact absurd h (by simp)
      | cons c rest =>
        simp only [Bool.and_eq_true, decide_eq_true_eq, Bool.not_eq_true', List.isEmpty_eq_false,
          ] at h
        obtain ⟨⟨hc, hn⟩, hs⟩ := h
        obtain ⟨r, hr⟩ := (startsWith_iff _ _).1 hs
        refine ⟨rest.takeWhile isScreenNameChar, r, ?_, ?_, ?_⟩
        · intro e
          rw [e] at hn
          exact absurd rfl hn
        · intro x hx
          exact (List.mem_takeWhile_imp hx)
        · rw [hc, ← hr, List.takeWhile_append_dropWhile]
  · rintro (h | ⟨name, rest, hn, hall, ht⟩)
    · exact Or.inl h
    · right
      rw [ht]
      have e : name ++ (qs " Got Tomahawk?" ++ rest)
          = name ++ ' ' :: (qs "Got Tomahawk?" ++ rest) := rfl
      dsimp only
      rw [e, (takeWhile_screenName name _ hall).1, (takeWhile_screenName name _ hall).2]
      simp only [decide_True, Bool.true_and, Bool.and_eq_true, Bool.not_eq_true',
        ]
      refine ⟨?_, ?_⟩
      · cases name with
        | nil => exact absurd rfl hn
        | cons _ _ => rfl
      · exact (startsWith_iff _ _).2 ⟨rest, rfl⟩

/-! ## C15: the invitation pattern -/

/-- C15 (as amended): the invitation pattern is matched with the letter case as
written. For a status authored by an identity other than the local one and
not yet in the peer cache, the loops of `friendsTimelineStatuses` and
`mentionsStatuses` invoke `registerOffer` for the author, with an empty
record, exactly when the text is `Got Tomahawk?` in this spelling followed by
anything, optionally preceded by `@`, a non-empty name of letters and digits
and one blank; on every other text they only advance the cursor. -/
theorem invitation_matched_case_sensitively (myScreenName : QString) (self : TwitterPlugin)
    (status : QTweetStatus) (hlocal : status.screenName ≠ myScreenName)
    (hnew : self.m_cachedPeers.contains status.screenName = false) :
    (regexExactMatch status.text = true
        ↔ (∃ rest, status.text = qs "Got Tomahawk?" ++ rest)
          ∨ ∃ name rest, name ≠ [] ∧ (∀ c ∈ name, isScreenNameChar c = true)
              ∧ status.text = '@' :: (name ++ (qs " Got Tomahawk?" ++ rest)))
      ∧ (regexExactMatch status.text = true →
          friendsTimelineStatus myScreenName self status
              = registerOffer
                  { self with
                    m_cachedFriendsSinceId := max self.m_cachedFriendsSinceId status.id }
                  status.screenName QHash.empty
            ∧ mentionsStatus myScreenName self status
              = registerOffer
                  { self with
                    m_cachedMentionsSinceId := max self.m_cachedMentionsSinceId status.id }
                  status.screenName QHash.empty)
      ∧ (regexExactMatch status.text = false →
          friendsTimelineStatus myScreenName self status
              = { self with m_cachedFriendsSinceId := max self.m_cachedFriendsSinceId status.id }
            ∧ mentionsStatus myScreenName self status
              = { self with
                  m_cachedMentionsSinceId := max self.m_cachedMentionsSinceId status.id }) := by
  refine ⟨regexExactMatch_iff status.text, ?_, ?_⟩
  · intro hm
    have hd : discovered myScreenName self status = true := by
      unfold discovered
      rw [hm, hnew]
      simp [hlocal]
    rw [friendsTimelineStatus_eq, mentionsStatus_eq, hd]
    exact ⟨rfl, rfl⟩
  · intro hm
    have hd : discovered myScreenName self status = false := by
      unfold discovered
      rw [hm]
      simp
    rw [friendsTimelineStatus_eq, mentionsStatus_eq, hd]
    exact ⟨rfl, rfl⟩

/-- C15, witness: the status `Got Tomahawk?` of `friend` in the friends
timeline of the authed plugin of `me`. -/
theorem invitation_matched_case_sensitively_witness :
    friendsTimelineStatus (qs "me") (authedPlugin (serventAt (qs "1.2.3.4") 4111))
        ⟨7, qs "friend", qs "Got Tomahawk?"⟩
      = registerOffer
          { authedPlugin (serventAt (qs "1.2.3.4") 4111) with
            m_cachedFriendsSinceId :=
              max (authedPlugin (serventAt (qs "1.2.3.4") 4111)).m_cachedFriendsSinceId 7 }
          (qs "friend") QHash.empty :=
  ((invitation_matched_case_sensitively (qs "me")
    (authedPlugin (serventAt (qs "1.2.3.4") 4111)) ⟨7, qs "friend", qs "Got Tomahawk?"⟩
    (by decide) (by decide)).2.1 (by decide)).1

/-- C15, counterexample: the text `got tomahawk?` of the claim does not match;
on the authed plugin of `me`, with an empty peer cache, neither handler
registers or messages its author `friend`, while the text `Got Tomahawk?` makes
both do so. -/
theorem invitation_lower_case_ignored :
    regexExactMatch (qs "got tomahawk?") = false
      ∧ (friendsTimelineStatuses (authedPlugin (serventAt (qs "1.2.3.4") 4111))
          [⟨7, qs "friend", qs "got tomahawk?"⟩]).m_cachedPeers.contains (qs "friend") = false
      ∧ posts (friendsTimelineStatuses (authedPlugin (serventAt (qs "1.2.3.4") 4111))
          [⟨7, qs "friend", qs "got tomahawk?"⟩]) = []
      ∧ (mentionsStatuses (authedPlugin (serventAt (qs "1.2.3.4") 4111))
          [⟨7, qs "friend", qs "got tomahawk?"⟩]).m_cachedPeers.contains (qs "friend") = false
      ∧ posts (mentionsStatuses (authedPlugin (serventAt (qs "1.2.3.4") 4111))
          [⟨7, qs "friend", qs "got tomahawk?"⟩]) = []
      ∧ (friendsTimelineStatuses (authedPlugin (serventAt (qs "1.2.3.4") 4111))
          [⟨7, qs "friend", qs "Got Tomahawk?"⟩]).m_cachedPeers.contains (qs "friend") = true
      ∧ (mentionsStatuses (authedPlugin (serventAt (qs "1.2.3.4") 4111))
          [⟨7, qs "friend", qs "Got Tomahawk?"⟩]).m_cachedPeers.contains (qs "friend") = true := by
  decide

theorem friendsTimelineStatus_discoveryStep (myScreenName : QString) :
    DiscoveryStep myScreenName (friendsTimelineStatus myScreenName) := by
  intro self status
  exact ⟨{ self with m_cachedFriendsSinceId := max self.m_cachedFriendsSinceId status.id },
    rfl, rfl, rfl, rfl, rfl, rfl, friendsTimelineStatus_eq myScreenName self status⟩

theorem mentionsStatus_discoveryStep (myScreenName : QString) :
    DiscoveryStep myScreenName (mentionsStatus myScreenName) := by
  intro self status
  exact ⟨{ self with m_cachedMentionsSinceId := max self.m_cachedMentionsSinceId status.id },
    rfl, rfl, rfl, rfl, rfl, rfl, mentionsStatus_eq myScreenName self status⟩

theorem discoveryRecord_congr (a b : TwitterPlugin) (h1 : a.uuids = b.uuids)
    (h2 : a.uuidsTaken = b.uuidsTaken) (h3 : a.servent = b.servent) :
    discoveryRecord a = discoveryRecord b := by
  unfold discoveryRecord
  rw [h1, h2, h3]

theorem discoveryStep_bound {myScreenName : QString}
    {step : TwitterPlugin → QTweetStatus → TwitterPlugin} (hs : DiscoveryStep myScreenName step)
    (self : TwitterPlugin) (status : QTweetStatus) :
    (step self status).m_directMessageNew = self.m_directMessageNew
      ∧ (step self status).servent = self.servent
      ∧ (step self status).uuids = self.uuids := by
  obtain ⟨self1, -, -, hu, -, hv, hb, he⟩ := hs self status
  rw [he]
  split
  · rw [registerOffer_empty]
    exact ⟨hb, hv, hu⟩
  · exact ⟨hb, hv, hu⟩

theorem foldl_discoveryStep_bound {myScreenName : QString}
    {step : TwitterPlugin → QTweetStatus → TwitterPlugin} (hs : DiscoveryStep myScreenName step)
    (statuses : List QTweetStatus) :
    ∀ self : TwitterPlugin,
      (statuses.foldl step self).m_directMessageNew = self.m_directMessageNew
        ∧ (statuses.foldl step self).servent = self.servent
        ∧ (statuses.foldl step self).uuids = self.uuids := by
  induction statuses with
  | nil => intro self; exact ⟨rfl, rfl, rfl⟩
  | cons st sts ih =>
    intro self
    rw [List.foldl_cons]
    obtain ⟨a1, a2, a3⟩ := ih (step self st)
    obtain ⟨b1, b2, b3⟩ := discoveryStep_bound hs self st
    exact ⟨a1.trans b1, a2.trans b2, a3.trans b3⟩

/-- A discovery: the record stored, and the effects logged in program order. -/
theorem discoveryStep_discovers {myScreenName : QString}
    {step : TwitterPlugin → QTweetStatus → TwitterPlugin} (hs : DiscoveryStep myScreenName step)
    (self : TwitterPlugin) (status : QTweetStatus)
    (hd : discovered myScreenName self status = true) (hb : self.m_directMessageNew = true) :
    (step self status).m_cachedPeers
        = self.m_cachedPeers.insert status.screenName (discoveryRecord self)
      ∧ (step self status).log
        = self.log ++ (discoveryEffects self status.screenName
            ++ [Effect.setTwitterCachedPeers
                  (self.m_cachedPeers.insert status.screenName (discoveryRecord self))])
      ∧ (step self status).uuidsTaken = self.uuidsTaken + 1 := by
  obtain ⟨self1, hc, hl, hu, ht, hv, hb1, he⟩ := hs self status
  rw [he, if_pos hd, registerOffer_empty]
  dsimp only
  rw [discoveryRecord_congr self1 self hu ht hv, hc, hl, hb1, hb, hu, ht]
  exact ⟨rfl, rfl, rfl⟩

/-- An identity that has a record keeps it, and is addressed no effect. -/
theorem discoveryStep_frame {myScreenName : QString}
    {step : TwitterPlugin → QTweetStatus → TwitterPlugin} (hs : DiscoveryStep myScreenName step)
    (self : TwitterPlugin) (status : QTweetStatus) (identity : QString)
    (hc : self.m_cachedPeers.contains identity = true) :
    (step self status).m_cachedPeers.contains identity = true
      ∧ (∀ dflt, (step self status).m_cachedPeers.value identity dflt
          = self.m_cachedPeers.value identity dflt)
      ∧ (step self status).log.filter (Effect.concerns identity)
          = self.log.filter (Effect.concerns identity) := by
  obtain ⟨self1, hc1, hl, hu, ht, hv, hb1, he⟩ := hs self status
  rw [he]
  split
  · rename_i hd
    have hne : identity ≠ status.screenName := by
      intro e
      unfold discovered at hd
      rw [← e, hc] at hd
      simp at hd
    rw [registerOffer_empty]
    dsimp only
    refine ⟨?_, ?_, ?_⟩
    · rw [QHash.contains_insert_ne _ _ _ _ hne, hc1]
      exact hc
    · intro d
      rw [QHash.value_insert_ne _ _ _ _ _ hne, hc1]
    · rw [List.filter_append, hl]
      have hne1 : ¬ status.screenName = identity := fun e => hne e.symm
      have hne2 : ¬ ('@' :: status.screenName) = '@' :: identity := by
        intro e
        exact hne1 (List.cons_injective e)
      cases self1.m_directMessageNew <;>
        simp [List.filter, Effect.concerns, hne1, hne2]
  · exact ⟨hc1 ▸ hc, fun d => by rw [hc1], by rw [hl]⟩

theorem foldl_discoveryStep_frame {myScreenName : QString}
    {step : TwitterPlugin → QTweetStatus → TwitterPlugin} (hs : DiscoveryStep myScreenName step)
    (statuses : List QTweetStatus) (identity : QString) :
    ∀ self : TwitterPlugin, self.m_cachedPeers.contains identity = true →
      (statuses.foldl step self).m_cachedPeers.contains identity = true
        ∧ (∀ dflt, (statuses.foldl step self).m_cachedPeers.value identity dflt
            = self.m_cachedPeers.value identity dflt)
        ∧ (statuses.foldl step self).log.filter (Effect.concerns identity)
            = self.log.filter (Effect.concerns identity) := by
  induction statuses with
  | nil => intro self hc; exact ⟨hc, fun _ => rfl, rfl⟩
  | cons st sts ih =>
    intro self hc
    rw [List.foldl_cons]
    obtain ⟨b1, b2, b3⟩ := discoveryStep_frame hs self st identity hc
    obtain ⟨a1, a2, a3⟩ := ih (step self st) b1
    exact ⟨a1, fun d => (a2 d).trans (b2 d), a3.trans b3⟩

/-- The loop of a status handler over a batch in which the author of `status`
is discovered. -/
theorem foldl_discoveryStep_discovers {myScreenName : QString}
    {step : TwitterPlugin → QTweetStatus → TwitterPlugin} (hs : DiscoveryStep myScreenName step)
    (self : TwitterPlugin) (before after : List QTweetStatus) (status : QTweetStatus)
    (hb : self.m_directMessageNew = true)
    (hd : discovered myScreenName (before.foldl step self) status = true) :
    ((before ++ status :: after).foldl step self).m_cachedPeers.contains status.screenName = true
      ∧ ((before ++ status :: after).foldl step self).m_cachedPeers.value
          status.screenName QHash.empty = discoveryRecord (before.foldl step self)
      ∧ ((before ++ status :: after).foldl step self).log.filter
          (Effect.concerns status.screenName)
        = (before.foldl step self).log.filter (Effect.concerns status.screenName)
            ++ discoveryEffects (before.foldl step self) status.screenName := by
  rw [List.foldl_append, List.foldl_cons]
  have hb1 : (before.foldl step self).m_directMessageNew = true :=
    (foldl_discoveryStep_bound hs before self).1.trans hb
  obtain ⟨d1, d2, -⟩ := discoveryStep_discovers hs (before.foldl step self) status hd hb1
  have hc : (step (before.foldl step self) status).m_cachedPeers.contains status.screenName
      = true := by
    rw [d1]
    exact QHash.contains_insert_same _ _ _
  obtain ⟨f1, f2, f3⟩ := foldl_discoveryStep_frame hs after status.screenName _ hc
  refine ⟨f1, ?_, ?_⟩
  · rw [f2, d1, QHash.value_insert_same]
  · rw [f3, d2, List.filter_append, List.filter_append]
    congr 1
    simp [discoveryEffects, List.filter, Effect.concerns]

theorem filter_concerns_of_logExtends {ok : Effect → Bool} {a b : TwitterPlugin}
    (identity : QString) (h : LogExtends ok a b)
    (hok : ∀ e, ok e = true → Effect.concerns identity e = false) :
    b.log.filter (Effect.concerns identity) = a.log.filter (Effect.concerns identity) := by
  obtain ⟨extra, hl, ho⟩ := h
  rw [hl, List.filter_append]
  have : extra.filter (Effect.concerns identity) = [] := by
    rw [List.filter_eq_nil_iff]
    intro e he
    rw [hok e (ho e he)]
    exact Bool.false_ne_true
  rw [this, List.append_nil]

theorem pollDirectMessages_concerns (self : TwitterPlugin) (identity : QString) :
    (pollDirectMessages self).log.filter (Effect.concerns identity)
      = self.log.filter (Effect.concerns identity) :=
  filter_concerns_of_logExtends identity (pollDirectMessages_log self) (by
    intro e he
    cases e <;> first | rfl | exact absurd he (by simp [Effect.isFetchDirectMessages]))

theorem friendsTimelineStatuses_view (self : TwitterPlugin) (statuses : List QTweetStatus)
    (identity : QString) :
    (friendsTimelineStatuses self statuses).m_cachedPeers
        = (statuses.foldl (friendsTimelineStatus self.settings.twitterScreenName)
            self).m_cachedPeers
      ∧ (friendsTimelineStatuses self statuses).log.filter (Effect.concerns identity)
        = (statuses.foldl (friendsTimelineStatus self.settings.twitterScreenName)
            self).log.filter (Effect.concerns identity) := by
  unfold friendsTimelineStatuses
  dsimp only
  rw [pollDirectMessages_cachedPeers, pollDirectMessages_concerns]
  refine ⟨rfl, ?_⟩
  dsimp only
  rw [List.filter_append]
  simp [List.filter, Effect.concerns]

theorem mentionsStatuses_view (self : TwitterPlugin) (statuses : List QTweetStatus)
    (identity : QString) :
    (mentionsStatuses self statuses).m_cachedPeers
        = (statuses.foldl (mentionsStatus self.settings.twitterScreenName)
            self).m_cachedPeers
      ∧ (mentionsStatuses self statuses).log.filter (Effect.concerns identity)
        = (statuses.foldl (mentionsStatus self.settings.twitterScreenName)
            self).log.filter (Effect.concerns identity) := by
  unfold mentionsStatuses
  dsimp only
  rw [pollDirectMessages_cachedPeers, pollDirectMessages_concerns]
  refine ⟨rfl, ?_⟩
  dsimp only
  rw [List.filter_append]
  simp [List.filter, Effect.concerns]

/-! ## C16: discovery -/

theorem discovered_of_cached (myScreenName : QString)
    (self : TwitterPlugin) (status : QTweetStatus)
    (hc : self.m_cachedPeers.contains status.screenName = true) :
    discovered myScreenName self status = false := by
  unfold discovered
  rw [hc]
  simp

theorem registerOffer_settings_eq (self : TwitterPlugin) (screenName : QString)
    (peerData : PeerData) :
    (registerOffer self screenName peerData).settings
      = { self.settings with
          twitterCachedPeers :=
            if (RegisterOffer.decided self peerData).peersChanged
                || (RegisterOffer.decided self peerData).needToSend then
              (registerOffer self screenName peerData).m_cachedPeers
            else self.settings.twitterCachedPeers } := by
  rw [registerOffer_eq]
  simp only [decided_plugin]

theorem registerOffer_persisted (self : TwitterPlugin) (screenName : QString)
    (peerData : PeerData) (h : PeersPersisted self) :
    PeersPersisted (registerOffer self screenName peerData) := by
  unfold PeersPersisted at h ⊢
  rw [registerOffer_settings_eq]
  dsimp only
  split
  · rfl
  · rename_i hn
    have hs : (RegisterOffer.decided self peerData).needToSend = false := by
      cases hx : (RegisterOffer.decided self peerData).needToSend
      · rfl
      · rw [hx, Bool.or_true] at hn
        exact absurd rfl hn
    rw [registerOffer_cache_eq, hs]
    exact h

theorem foldl_connectPeer_persisted (names : List QString) :
    ∀ self : TwitterPlugin, PeersPersisted self →
      PeersPersisted (names.foldl connectPeer self) := by
  induction names with
  | nil => intro self h; exact h
  | cons n ns ih =>
    intro self h
    rw [List.foldl_cons]
    exact ih _ (registerOffer_persisted _ _ _ h)

theorem connectPlugin_persisted (self : TwitterPlugin) :
    PeersPersisted (connectPlugin self).1 := by
  have h := foldl_connectPeer_persisted (qStableSort self.settings.twitterCachedPeers.keys)
    { self with m_cachedPeers := self.settings.twitterCachedPeers } rfl
  unfold connectPlugin
  dsimp only
  split
  · exact h
  · exact h

theorem foldl_friendsTimelineStatus_persisted (myScreenName : QString)
    (statuses : List QTweetStatus) :
    ∀ self : TwitterPlugin, PeersPersisted self →
      PeersPersisted (statuses.foldl (friendsTimelineStatus myScreenName) self) := by
  induction statuses with
  | nil => intro self h; exact h
  | cons st sts ih =>
    intro self h
    rw [List.foldl_cons]
    apply ih
    rw [friendsTimelineStatus_eq]
    split
    · exact registerOffer_persisted _ _ _ h
    · exact h

theorem foldl_mentionsStatus_persisted (myScreenName : QString)
    (statuses : List QTweetStatus) :
    ∀ self : TwitterPlugin, PeersPersisted self →
      PeersPersisted (statuses.foldl (mentionsStatus myScreenName) self) := by
  induction statuses with
  | nil => intro self h; exact h
  | cons st sts ih =>
    intro self h
    rw [List.foldl_cons]
    apply ih
    rw [mentionsStatus_eq]
    split
    · exact registerOffer_persisted _ _ _ h
    · exact h

theorem pollDirectMessages_persisted (self : TwitterPlugin) (h : PeersPersisted self) :
    PeersPersisted (pollDirectMessages self) := by
  unfold PeersPersisted at h ⊢
  rw [pollDirectMessages_settings, pollDirectMessages_cachedPeers]
  exact h

theorem friendsTimelineStatuses_persisted (self : TwitterPlugin)
    (statuses : List QTweetStatus) (h : PeersPersisted self) :
    PeersPersisted (friendsTimelineStatuses self statuses) := by
  unfold friendsTimelineStatuses
  dsimp only
  apply pollDirectMessages_persisted
  exact foldl_friendsTimelineStatus_persisted _ statuses self h

theorem mentionsStatuses_persisted (self : TwitterPlugin)
    (statuses : List QTweetStatus) (h : PeersPersisted self) :
    PeersPersisted (mentionsStatuses self statuses) := by
  unfold mentionsStatuses
  dsimp only
  apply pollDirectMessages_persisted
  exact foldl_mentionsStatus_persisted _ statuses self h

theorem foldl_connectTimerPeer_persisted (names : List QString) :
    ∀ self : TwitterPlugin, PeersPersisted self →
      PeersPersisted (names.foldl connectTimerPeer self) := by
  induction names with
  | nil => intro self h; exact h
  | cons n ns ih =>
    intro self h
    rw [List.foldl_cons]
    apply ih
    unfold connectTimerPeer
    dsimp only
    split
    · exact h
    · exact registerOffer_persisted _ _ _ h

theorem connectTimerFired_persisted (self : TwitterPlugin) (h : PeersPersisted self) :
    PeersPersisted (connectTimerFired self) := by
  unfold connectTimerFired
  split
  · exact h
  · exact foldl_connectTimerPeer_persisted _ self h

/-- In the loop of `directMessages`, either the local `peersChanged` is set or
the persisted cache is the cache in memory. -/
theorem foldl_directMessage_persisted (messages : List QTweetDMStatus) :
    ∀ acc : TwitterPlugin × Bool, (acc.2 = true ∨ PeersPersisted acc.1) →
      ((messages.foldl directMessage acc).2 = true
        ∨ PeersPersisted (messages.foldl directMessage acc).1) := by
  induction messages with
  | nil => intro acc h; exact h
  | cons m ms ih =>
    intro acc h
    rw [List.foldl_cons]
    apply ih
    cases hp : parseOffer m.text with
    | none =>
      rw [directMessage_discard acc m hp]
      exact h
    | some offer => exact Or.inl (directMessage_accept acc m offer hp).1

theorem directMessages_persisted (self : TwitterPlugin) (messages : List QTweetDMStatus)
    (h : PeersPersisted self) : PeersPersisted (directMessages self messages) := by
  have hf := foldl_directMessage_persisted messages (self, false) (Or.inr h)
  unfold directMessages
  dsimp only
  split
  · rfl
  · rename_i hn
    rcases hf with hf | hf
    · exact absurd hf hn
    · exact hf

theorem checkTimerFired_persisted (self : TwitterPlugin) (h : PeersPersisted self) :
    PeersPersisted (checkTimerFired self) := by
  unfold PeersPersisted at h ⊢
  unfold checkTimerFired emit
  dsimp only
  split_ifs <;> exact h

theorem connectAuthVerifyReply_persisted (self : TwitterPlugin) (id : Int)
    (screenName : QString) (h : PeersPersisted self) :
    PeersPersisted (connectAuthVerifyReply self id screenName) := by
  unfold connectAuthVerifyReply
  split_ifs
  · exact h
  · exact checkTimerFired_persisted _ h
  · exact h

theorem disconnectPlugin_persisted (self : TwitterPlugin) :
    PeersPersisted (disconnectPlugin self) := rfl

/-- C18: once `connectPlugin` has loaded the peer cache from the settings
store, after every operation of the plugin (`registerOffer`,
`friendsTimelineStatuses`, `mentionsStatuses`, `directMessages`,
`connectTimerFired` and the operations that leave the cache alone) the peer
cache persisted in the settings store equals the peer cache in memory. -/
theorem peer_cache_written_through (self : TwitterPlugin) (h : Connected self) :
    PeersPersisted self := by
  induction h with
  | afterConnectPlugin s => exact connectPlugin_persisted s
  | afterRegisterOffer sn pd _ ih => exact registerOffer_persisted _ sn pd ih
  | afterFriendsTimelineStatuses sts _ ih => exact friendsTimelineStatuses_persisted _ sts ih
  | afterMentionsStatuses sts _ ih => exact mentionsStatuses_persisted _ sts ih
  | afterDirectMessages ms _ ih => exact directMessages_persisted _ ms ih
  | afterConnectTimerFired _ ih => exact connectTimerFired_persisted _ ih
  | afterCheckTimerFired _ ih => exact checkTimerFired_persisted _ ih
  | afterPollDirectMessages _ ih => exact pollDirectMessages_persisted _ ih
  | afterConnectAuthVerifyReply id sn _ ih => exact connectAuthVerifyReply_persisted _ id sn ih
  | afterDisconnectPlugin _ _ => exact disconnectPlugin_persisted _

/-- C18, witness: the plugin of `me`, connected and authed at `1.2.3.4`, port
`4111`, after a direct message with an offer from `friend`: the settings
store holds the cache in memory, with the record of `friend`. -/
theorem peer_cache_written_through_witness :
    PeersPersisted (directMessages (authedPlugin (serventAt (qs "1.2.3.4") 4111))
        [⟨5, qs "friend", qs "TOMAHAWKPEER:Host=9.9.9.9:Port=50210:PKey=xyz"⟩])
      ∧ (directMessages (authedPlugin (serventAt (qs "1.2.3.4") 4111))
          [⟨5, qs "friend", qs "TOMAHAWKPEER:Host=9.9.9.9:Port=50210:PKey=xyz"⟩]
          ).settings.twitterCachedPeers.contains (qs "friend") = true :=
  ⟨peer_cache_written_through _
    (Connected.afterDirectMessages _
      (Connected.afterConnectAuthVerifyReply 42 (qs "me") (Connected.afterConnectPlugin _))),
    by decide⟩

/-! ## Connection attempts and the connect timer -/

theorem decided_sent_sameRemote (self : TwitterPlugin) (peerData : PeerData) :
    SameRemote (RegisterOffer.decided self peerData).sent peerData := by
  cases h : peerData.contains (qs "okey")
  · rw [decided_of_no_key self peerData h]
    unfold RegisterOffer.sent
    rw [if_pos rfl]
    exact sameRemote_trans (advertise_sameRemote _) (sameRemote_insert_okey _ _)
  · rw [decided_of_key self peerData h]
    unfold RegisterOffer.sent
    split
    · exact advertise_sameRemote _
    · exact sameRemote_refl _

theorem connectable_of_sameRemote {a b : PeerData} (h : SameRemote a b) :
    Connectable a = Connectable b := by
  unfold Connectable
  rw [(h _ (by decide) (by decide) (by decide)).2, (h _ (by decide) (by decide) (by decide)).2,
    (h _ (by decide) (by decide) (by decide)).2]

theorem connectAttempt_of_sameRemote (screenName : QString) {a b : PeerData}
    (h : SameRemote a b) : connectAttempt screenName a = connectAttempt screenName b := by
  unfold connectAttempt
  rw [(h _ (by decide) (by decide) (by decide)).1, (h _ (by decide) (by decide) (by decide)).1,
    (h _ (by decide) (by decide) (by decide)).1]

theorem effects_filter_isConnectToPeer (screenName : QString) (f : RegisterOffer) :
    (f.effects screenName).filter Effect.isConnectToPeer = f.connectEffects screenName := by
  unfold RegisterOffer.effects RegisterOffer.registrationEffects RegisterOffer.sendEffects
    RegisterOffer.connectEffects RegisterOffer.persistEffects
  simp only [List.filter_append]
  split_ifs <;> simp [Effect.isConnectToPeer]

theorem connectEffects_eq (self : TwitterPlugin) (screenName : QString) (peerData : PeerData) :
    (RegisterOffer.decided self peerData).connectEffects screenName
      = if Connectable peerData && !self.servent.sessions.contains ('@' :: screenName) then
          [connectAttempt screenName peerData]
        else [] := by
  unfold RegisterOffer.connectEffects
  rw [connectable_of_sameRemote (decided_sent_sameRemote self peerData), decided_plugin]
  have h := connectAttempt_of_sameRemote screenName (decided_sent_sameRemote self peerData)
  unfold connectAttempt at h ⊢
  rw [h]

theorem registerOffer_servent (self : TwitterPlugin) (screenName : QString)
    (peerData : PeerData) : (registerOffer self screenName peerData).servent = self.servent := by
  have h := congrArg TwitterPlugin.servent (registerOffer_outsidePeers self screenName peerData)
  exact h

theorem stale_advertise (f : RegisterOffer) : stale f.plugin.servent f.advertise = false := by
  unfold stale RegisterOffer.advertise
  rw [QHash.contains_insert_ne _ _ _ _ (by decide), QHash.contains_insert_same,
    QHash.contains_insert_same, peerData_get_insert_ne _ _ _ _ (by decide),
    peerData_get_insert_same, peerData_get_insert_same]
  simp [QVariant.toString, QVariant.toInt]

/-- After `registerOffer` for the cached record of a peer, the advertised
address of the record is the external address of the servent. -/
theorem registerOffer_not_stale (self : TwitterPlugin) (screenName : QString)
    (peerData : PeerData) (hv : self.m_cachedPeers.value screenName QHash.empty = peerData) :
    stale self.servent
      ((registerOffer self screenName peerData).m_cachedPeers.value screenName QHash.empty)
      = false := by
  rw [registerOffer_cache_eq]
  split
  · rw [QHash.value_insert_same]
    have h := stale_advertise (RegisterOffer.decided self peerData)
    rw [decided_plugin] at h
    exact h
  · rename_i hn
    rw [hv]
    cases hk : peerData.contains (qs "okey")
    · rw [decided_of_no_key self peerData hk] at hn
      exact absurd rfl hn
    · rw [decided_of_key self peerData hk] at hn
      simpa using hn

theorem connectTimerPeer_eq (self : TwitterPlugin) (screenName : QString) :
    connectTimerPeer self screenName
      = if Connectable (self.m_cachedPeers.value screenName QHash.empty) then
          registerOffer self screenName (self.m_cachedPeers.value screenName QHash.empty)
        else self := by
  unfold connectTimerPeer Connectable
  dsimp only
  cases (self.m_cachedPeers.value screenName QHash.empty).contains (qs "host") <;>
    cases (self.m_cachedPeers.value screenName QHash.empty).contains (qs "port") <;>
    cases (self.m_cachedPeers.value screenName QHash.empty).contains (qs "pkey") <;> rfl

theorem connectTimerPeer_log (self : TwitterPlugin) (screenName : QString) :
    LogExtends Effect.isRegisterOfferEffect self (connectTimerPeer self screenName) := by
  rw [connectTimerPeer_eq]
  split
  · exact registerOffer_log _ _ _
  · exact logExtends_refl _ _

theorem foldl_connectTimerPeer_log (names : List QString) :
    ∀ self : TwitterPlugin,
      LogExtends Effect.isRegisterOfferEffect self (names.foldl connectTimerPeer self) := by
  induction names with
  | nil => intro self; exact logExtends_refl _ _
  | cons n ns ih =>
    intro self
    rw [List.foldl_cons]
    exact logExtends_trans (connectTimerPeer_log self n) (ih _)

/-- What one step of the loop of `connectTimerFired` keeps of the record of a
peer with `host`, `port` and `pkey`. -/
theorem connectTimerPeer_connectable (self : TwitterPlugin) (n screenName : QString)
    (hc : Connectable (self.m_cachedPeers.value screenName QHash.empty) = true) :
    SameRemote ((connectTimerPeer self n).m_cachedPeers.value screenName QHash.empty)
        (self.m_cachedPeers.value screenName QHash.empty)
      ∧ (connectTimerPeer self n).servent = self.servent
      ∧ (n ≠ screenName →
          (connectTimerPeer self n).m_cachedPeers.value screenName QHash.empty
            = self.m_cachedPeers.value screenName QHash.empty)
      ∧ (n = screenName →
          stale self.servent
            ((connectTimerPeer self n).m_cachedPeers.value screenName QHash.empty) = false) := by
  rw [connectTimerPeer_eq]
  split
  · rename_i hn
    refine ⟨?_, registerOffer_servent _ _ _, ?_, ?_⟩
    · by_cases e : n = screenName
      · subst e
        rcases registerOffer_cachedPeers self n (self.m_cachedPeers.value n QHash.empty)
          with c | ⟨stored, hs, c⟩
        · rw [c]
          exact sameRemote_refl _
        · rw [c, QHash.value_insert_same]
          exact hs
      · rw [(registerOffer_other self n _ screenName (fun x => e x.symm)).2]
        exact sameRemote_refl _
    · intro e
      exact (registerOffer_other self n _ screenName (fun x => e x.symm)).2 _
    · intro e
      subst e
      exact registerOffer_not_stale self n _ rfl
  · rename_i hn
    refine ⟨sameRemote_refl _, rfl, fun _ => rfl, ?_⟩
    intro e
    subst e
    exact absurd hc hn

theorem foldl_connectTimerPeer_connectable (names : List QString) (screenName : QString) :
    ∀ self : TwitterPlugin,
      Connectable (self.m_cachedPeers.value screenName QHash.empty) = true →
      SameRemote ((names.foldl connectTimerPeer self).m_cachedPeers.value screenName QHash.empty)
          (self.m_cachedPeers.value screenName QHash.empty)
        ∧ (names.foldl connectTimerPeer self).servent = self.servent
        ∧ ((screenName ∈ names
              ∨ stale self.servent (self.m_cachedPeers.value screenName QHash.empty) = false) →
            stale self.servent
              ((names.foldl connectTimerPeer self).m_cachedPeers.value screenName QHash.empty)
              = false) := by
  induction names with
  | nil =>
    intro self _
    refine ⟨sameRemote_refl _, rfl, ?_⟩
    rintro (h | h)
    · exact absurd h (List.not_mem_nil _)
    · exact h
  | cons n ns ih =>
    intro self hc
    rw [List.foldl_cons]
    obtain ⟨s1, s2, s3, s4⟩ := connectTimerPeer_connectable self n screenName hc
    have hc1 : Connectable ((connectTimerPeer self n).m_cachedPeers.value screenName
        QHash.empty) = true := by
      rw [connectable_of_sameRemote s1]
      exact hc
    obtain ⟨i1, i2, i3⟩ := ih (connectTimerPeer self n) hc1
    refine ⟨sameRemote_trans i1 s1, i2.trans s2, ?_⟩
    intro h
    rw [s2] at i3
    apply i3
    by_cases e : n = screenName
    · exact Or.inr (s4 e)
    · rcases h with h | h
      · rcases List.mem_cons.1 h with h1 | h1
        · exact absurd h1.symm e
        · exact Or.inl h1
      · right
        rw [s3 e]
        exact h

theorem mem_qStableSort_keys (h : QHash PeerData) (key : QString) :
    key ∈ qStableSort h.keys ↔ h.contains key = true := by
  unfold qStableSort
  rw [(List.perm_insertionSort _ _).mem_iff]
  unfold QHash.keys QHash.contains
  rw [List.mem_map, List.any_eq_true]
  constructor
  · rintro ⟨e, he, hk⟩
    exact ⟨e, he, by simpa using hk⟩
  · rintro ⟨e, he, hk⟩
    exact ⟨e, he, by simpa using hk⟩

theorem connectTimerFired_eq (self : TwitterPlugin) (hvalid : self.isValid = true) :
    connectTimerFired self = (qStableSort self.m_cachedPeers.keys).foldl connectTimerPeer self := by
  unfold connectTimerFired
  rw [hvalid]
  simp only [Bool.not_true, Bool.false_or]
  split
  · rename_i he
    have : self.m_cachedPeers.keys = [] := by
      unfold QHash.isEmpty at he
      unfold QHash.keys
      cases hx : self.m_cachedPeers.entries with
      | nil => rfl
      | cons a b => rw [hx] at he; exact absurd he (by simp)
    rw [this]
    rfl
  · rfl

theorem foldl_connectTimerPeer_isValid (names : List QString) :
    ∀ self : TwitterPlugin, self.isValid = true →
      (names.foldl connectTimerPeer self).isValid = true := by
  induction names with
  | nil => intro self h; exact h
  | cons n ns ih =>
    intro self h
    rw [List.foldl_cons]
    apply ih
    rw [connectTimerPeer_eq]
    split
    · exact registerOffer_isValid _ _ _ h
    · exact h

theorem isValid_of_contains (self : TwitterPlugin) (screenName : QString)
    (h : self.m_cachedPeers.contains screenName = true) : self.isValid = true := by
  unfold isValid
  have : self.m_cachedPeers.isEmpty = false := by
    unfold QHash.isEmpty
    unfold QHash.contains at h
    cases hx : self.m_cachedPeers.entries with
    | nil => rw [hx] at h; exact absurd h (by simp)
    | cons a b => rfl
  rw [this]
  simp

theorem contains_of_connectable (cache : QHash PeerData) (screenName : QString)
    (h : Connectable (cache.value screenName QHash.empty) = true) :
    cache.contains screenName = true := by
  rw [QHash.contains_eq_isSome]
  unfold QHash.value at h
  cases hf : QHash.find cache.entries screenName with
  | none =>
    rw [hf] at h
    exact absurd h (by decide)
  | some v => rfl

/-- A peer with `host`, `port` and `pkey` to which no session exists gets a
connection attempt in the loop of `connectTimerFired`. -/
theorem foldl_connectTimerPeer_attempts (names : List QString) (screenName : QString) :
    ∀ self : TwitterPlugin, screenName ∈ names →
      Connectable (self.m_cachedPeers.value screenName QHash.empty) = true →
      self.servent.sessions.contains ('@' :: screenName) = false →
      ∃ extra, (names.foldl connectTimerPeer self).log = self.log ++ extra
        ∧ connectAttempt screenName (self.m_cachedPeers.value screenName QHash.empty)
            ∈ extra := by
  induction names with
  | nil => intro self h; exact absurd h (List.not_mem_nil _)
  | cons n ns ih =>
    intro self hm hc hs
    rw [List.foldl_cons]
    by_cases e : n = screenName
    · subst e
      obtain ⟨extra2, l2, -⟩ := foldl_connectTimerPeer_log ns (connectTimerPeer self n)
      have l1 : (connectTimerPeer self n).log
          = self.log ++ (RegisterOffer.decided self
              (self.m_cachedPeers.value n QHash.empty)).effects n := by
        rw [connectTimerPeer_eq, if_pos hc, registerOffer_log_eq]
      refine ⟨(RegisterOffer.decided self (self.m_cachedPeers.value n QHash.empty)).effects n
        ++ extra2, by rw [l2, l1, List.append_assoc], ?_⟩
      apply List.mem_append_left
      unfold RegisterOffer.effects
      rw [connectEffects_eq, hc, hs]
      simp
    · obtain ⟨s1, s2, s3, -⟩ := connectTimerPeer_connectable self n screenName hc
      have hm1 : screenName ∈ ns := by
        rcases List.mem_cons.1 hm with h1 | h1
        · exact absurd h1.symm e
        · exact h1
      obtain ⟨extra1, l1, -⟩ := connectTimerPeer_log self n
      obtain ⟨extra2, l2, m2⟩ := ih (connectTimerPeer self n) hm1
        (by rw [s3 e]; exact hc) (by rw [s2]; exact hs)
      refine ⟨extra1 ++ extra2, by rw [l2, l1, List.append_assoc], ?_⟩
      apply List.mem_append_right
      rw [s3 e] at m2
      exact m2

/-! ## C19: the peers the connect timer handles -/

/-- C20: `registerOffer` for the identity `I` logs a connection attempt if and
only if the record after its updates holds remote host, remote port and
remote handshake key and the servent has no session to `@I`; the attempt, if
any, is the one call `connectToPeer` with the host, port and key of that
record and `@I` as both node names, and the updates leave these three fields
as given; for a record with the host `h`, the port `p` (an `int`) and the key
`k` the call is `connectToPeer( h, p, k, @I, @I )`. Consequently, on every
connect-timer tick, a cached peer with the three fields and without session
gets that call, and the tick leaves it with the same three fields, so that
the next tick finds it in the same condition. -/
theorem registerOffer_connects_iff (self : TwitterPlugin) (identity : QString)
    (peerData : PeerData) :
    SameRemote (RegisterOffer.decided self peerData).sent peerData
      ∧ (registerOffer self identity peerData).log.filter Effect.isConnectToPeer
        = self.log.filter Effect.isConnectToPeer
          ++ (if Connectable (RegisterOffer.decided self peerData).sent
                && !self.servent.sessions.contains ('@' :: identity) then
              [connectAttempt identity (RegisterOffer.decided self peerData).sent]
            else [])
      ∧ (∀ (h k : QString) (p : Int), peerData.get (qs "host") = QVariant.string h →
          peerData.get (qs "port") = QVariant.int p → INT_MIN ≤ p ∧ p ≤ INT_MAX →
          peerData.get (qs "pkey") = QVariant.string k →
          connectAttempt identity (RegisterOffer.decided self peerData).sent
            = Effect.connectToPeer h p k ('@' :: identity) ('@' :: identity))
      ∧ (Connectable (self.m_cachedPeers.value identity QHash.empty) = true →
          self.servent.sessions.contains ('@' :: identity) = false →
          (∃ extra, (connectTimerFired self).log = self.log ++ extra
            ∧ connectAttempt identity (self.m_cachedPeers.value identity QHash.empty) ∈ extra)
          ∧ (connectTimerFired self).isValid = true
          ∧ Connectable ((connectTimerFired self).m_cachedPeers.value identity QHash.empty)
              = true
          ∧ (connectTimerFired self).servent = self.servent
          ∧ connectAttempt identity
                ((connectTimerFired self).m_cachedPeers.value identity QHash.empty)
              = connectAttempt identity (self.m_cachedPeers.value identity QHash.empty)) := by
  refine ⟨decided_sent_sameRemote self peerData, ?_, ?_, ?_⟩
  · rw [registerOffer_log_eq, List.filter_append, effects_filter_isConnectToPeer,
      connectEffects_eq, connectable_of_sameRemote (decided_sent_sameRemote self peerData),
      connectAttempt_of_sameRemote identity (decided_sent_sameRemote self peerData)]
  · intro h k p h1 h2 hr h3
    rw [connectAttempt_of_sameRemote identity (decided_sent_sameRemote self peerData)]
    unfold connectAttempt
    rw [h1, h2, h3]
    simp only [QVariant.toString]
    rw [toInt_number p hr]
  · intro hc hs
    have hvalid : self.isValid = true :=
      isValid_of_contains self identity (contains_of_connectable _ _ hc)
    rw [connectTimerFired_eq self hvalid]
    obtain ⟨f1, f2, -⟩ := foldl_connectTimerPeer_connectable
      (qStableSort self.m_cachedPeers.keys) identity self hc
    refine ⟨?_, foldl_connectTimerPeer_isValid _ self hvalid, ?_, f2,
      connectAttempt_of_sameRemote identity f1⟩
    · exact foldl_connectTimerPeer_attempts _ identity self
        ((mem_qStableSort_keys _ _).2 (contains_of_connectable _ _ hc)) hc hs
    · rw [connectable_of_sameRemote f1]
      exact hc

/-- C20, witness: the authed plugin at `5.6.7.8`, port `4112`, connected to no
session, whose cached peer `peer` is at `9.9.9.9`, port `50210`, with the key
`xyz`: the tick attempts the connection. -/
theorem registerOffer_connects_iff_witness :
    ∃ extra, (connectTimerFired (authedPluginWithPeer (serventAt (qs "5.6.7.8") 4112)
          (remoteRecord (qs "9.9.9.9") 50210 (qs "xyz")))).log
        = (authedPluginWithPeer (serventAt (qs "5.6.7.8") 4112)
            (remoteRecord (qs "9.9.9.9") 50210 (qs "xyz"))).log ++ extra
      ∧ Effect.connectToPeer (qs "9.9.9.9") 50210 (qs "xyz") (qs "@peer") (qs "@peer")
          ∈ extra :=
  ((registerOffer_connects_iff
    (authedPluginWithPeer (serventAt (qs "5.6.7.8") 4112)
      (remoteRecord (qs "9.9.9.9") 50210 (qs "xyz"))) (qs "peer") QHash.empty).2.2.2
    (by decide) (by decide)).1

/-! ## C21: an offer lost while the message client is unbound -/

theorem decided_needToSend (self : TwitterPlugin) (peerData : PeerData) :
    (RegisterOffer.decided self peerData).needToSend
      = (!peerData.contains (qs "okey") || stale self.servent peerData) := by
  cases h : peerData.contains (qs "okey")
  · rw [decided_of_no_key self peerData h]
    rfl
  · rw [decided_of_key self peerData h]
    rfl

theorem decided_advertise_okey (self : TwitterPlugin) (peerData : PeerData) :
    (RegisterOffer.decided self peerData).advertise.contains (qs "okey") = true := by
  unfold RegisterOffer.advertise
  rw [QHash.contains_insert_ne _ _ _ _ (by decide), QHash.contains_insert_ne _ _ _ _ (by decide)]
  cases h : peerData.contains (qs "okey")
  · rw [decided_of_no_key self peerData h]
    exact QHash.contains_insert_same _ _ _
  · rw [decided_of_key self peerData h]
    exact h

theorem stale_congr (a b : Servent) (peerData : PeerData)
    (h1 : a.externalAddress = b.externalAddress) (h2 : a.externalPort = b.externalPort) :
    stale a peerData = stale b peerData := by
  unfold stale
  rw [h1, h2]

/-- C21: let `registerOffer` run while the message client is unbound, on a
record whose advertised address is not the external address of the servent.
Then nothing is posted, yet the record stored in the peer cache, in memory and
in the settings store, has the external address as advertised address; and
`registerOffer` on that stored record, in any later state whose servent has
the same external address, message client bound or not, posts nothing. -/
theorem registerOffer_unbound_loses_offer (self : TwitterPlugin) (screenName : QString)
    (peerData : PeerData) (hunbound : self.m_directMessageNew = false)
    (hstale : stale self.servent peerData = true) :
    posts (registerOffer self screenName peerData) = posts self
      ∧ (registerOffer self screenName peerData).m_cachedPeers.contains screenName = true
      ∧ PeerData.get ((registerOffer self screenName peerData).m_cachedPeers.value
            screenName QHash.empty) (qs "ohst") = QVariant.string self.servent.externalAddress
      ∧ PeerData.get ((registerOffer self screenName peerData).m_cachedPeers.value
            screenName QHash.empty) (qs "oprt") = QVariant.int self.servent.externalPort
      ∧ (registerOffer self screenName peerData).settings.twitterCachedPeers
          = (registerOffer self screenName peerData).m_cachedPeers
      ∧ ∀ later : TwitterPlugin,
          later.servent.externalAddress = self.servent.externalAddress →
          later.servent.externalPort = self.servent.externalPort →
          posts (registerOffer later screenName
              ((registerOffer self screenName peerData).m_cachedPeers.value
                screenName QHash.empty))
            = posts later := by
  have hn : (RegisterOffer.decided self peerData).needToSend = true := by
    rw [decided_needToSend, hstale, Bool.or_true]
  have hcache := registerOffer_cache_eq self screenName peerData
  rw [hn, if_pos rfl] at hcache
  have hserv : (RegisterOffer.decided self peerData).plugin.servent = self.servent := by
    rw [decided_plugin]
  refine ⟨?_, ?_, ?_, ?_, ?_, ?_⟩
  · rw [registerOffer_posts]
    unfold RegisterOffer.sendEffects
    rw [decided_plugin]
    dsimp only
    rw [hunbound, Bool.and_false]
    simp
  · rw [hcache]
    exact QHash.contains_insert_same _ _ _
  · rw [hcache, QHash.value_insert_same]
    unfold RegisterOffer.advertise
    rw [peerData_get_insert_ne _ _ _ _ (by decide), peerData_get_insert_same, hserv]
  · rw [hcache, QHash.value_insert_same]
    unfold RegisterOffer.advertise
    rw [peerData_get_insert_same, hserv]
  · rw [registerOffer_settings_eq, hn]
    simp
  · intro later ha hp
    rw [hcache, QHash.value_insert_same, registerOffer_posts]
    have hs : stale later.servent (RegisterOffer.decided self peerData).advertise = false := by
      rw [stale_congr later.servent (RegisterOffer.decided self peerData).plugin.servent _
        (by rw [hserv]; exact ha) (by rw [hserv]; exact hp)]
      exact stale_advertise _
    unfold RegisterOffer.sendEffects
    rw [decided_needToSend, decided_advertise_okey, hs]
    simp

/-- C21, witness: `connectPlugin` on a plugin at `5.6.7.8`, port `4112`, whose
settings store holds `peer` advertised at `1.2.3.4`, port `4111`: the run of
`registerOffer` for `peer`, on the plugin as constructed with the cache
loaded, posts nothing, and once the plugin is authed, with the message client
bound, `registerOffer` on the stored record posts nothing either. -/
theorem registerOffer_unbound_loses_offer_witness :
    posts (registerOffer
        { TwitterPlugin.init
            (settingsWithPeer (advertisedRecord (qs "1.2.3.4") 4111 (qs "abc")) 0)
            (serventAt (qs "5.6.7.8") 4112) sampleUuids with
          m_cachedPeers := QHash.empty.insert (qs "peer")
            (advertisedRecord (qs "1.2.3.4") 4111 (qs "abc")) }
        (qs "peer") (advertisedRecord (qs "1.2.3.4") 4111 (qs "abc"))) = []
      ∧ posts (registerOffer (authedPlugin (serventAt (qs "5.6.7.8") 4112)) (qs "peer")
          ((registerOffer
            { TwitterPlugin.init
                (settingsWithPeer (advertisedRecord (qs "1.2.3.4") 4111 (qs "abc")) 0)
                (serventAt (qs "5.6.7.8") 4112) sampleUuids with
              m_cachedPeers := QHash.empty.insert (qs "peer")
                (advertisedRecord (qs "1.2.3.4") 4111 (qs "abc")) }
            (qs "peer") (advertisedRecord (qs "1.2.3.4") 4111 (qs "abc"))).m_cachedPeers.value
              (qs "peer") QHash.empty))
          = posts (authedPlugin (serventAt (qs "5.6.7.8") 4112)) :=
  ⟨(registerOffer_unbound_loses_offer _ (qs "peer")
      (advertisedRecord (qs "1.2.3.4") 4111 (qs "abc")) (by decide) (by decide)).1,
    (registerOffer_unbound_loses_offer _ (qs "peer")
      (advertisedRecord (qs "1.2.3.4") 4111 (qs "abc")) (by decide) (by decide)).2.2.2.2.2
      (authedPlugin (serventAt (qs "5.6.7.8") 4112)) rfl rfl⟩

/-! ## C22: one discovery per batch -/

theorem discoveryRecord_okey (self : TwitterPlugin) :
    (discoveryRecord self).contains (qs "okey") = true
      ∧ ((discoveryRecord self).get (qs "okey")).toString
          = freshKey (self.uuids self.uuidsTaken) := by
  unfold discoveryRecord
  rw [QHash.contains_insert_ne _ _ _ _ (by decide), QHash.contains_insert_ne _ _ _ _ (by decide),
    QHash.contains_insert_same, peerData_get_insert_ne _ _ _ _ (by decide),
    peerData_get_insert_ne _ _ _ _ (by decide), peerData_get_insert_same]
  exact ⟨rfl, rfl⟩

/-- A status that does not make the loop discover `identity` leaves its record,
or its absence, and the effects addressed to it as they are. -/
theorem discoveryStep_other {myScreenName : QString}
    {step : TwitterPlugin → QTweetStatus → TwitterPlugin} (hs : DiscoveryStep myScreenName step)
    (self : TwitterPlugin) (status : QTweetStatus) (identity : QString)
    (hne : discovered myScreenName self status = true → status.screenName ≠ identity) :
    (step self status).m_cachedPeers.contains identity = self.m_cachedPeers.contains identity
      ∧ (step self status).log.filter (Effect.concerns identity)
          = self.log.filter (Effect.concerns identity) := by
  obtain ⟨self1, hc1, hl, hu, ht, hv, hb1, he⟩ := hs self status
  rw [he]
  split
  · rename_i hd
    have hne1 : ¬ status.screenName = identity := hne hd
    have hne2 : ¬ ('@' :: status.screenName) = '@' :: identity := by
      intro e
      exact hne1 (List.cons_injective e)
    rw [registerOffer_empty]
    dsimp only
    refine ⟨?_, ?_⟩
    · rw [QHash.contains_insert_ne _ _ _ _ (fun e => hne1 e.symm), hc1]
    · rw [List.filter_append, hl]
      cases self1.m_directMessageNew <;>
        simp [List.filter, Effect.concerns, hne1, hne2]
  · exact ⟨by rw [hc1], by rw [hl]⟩

theorem discoveryStep_uuidsTaken {myScreenName : QString}
    {step : TwitterPlugin → QTweetStatus → TwitterPlugin} (hs : DiscoveryStep myScreenName step)
    (self : TwitterPlugin) (status : QTweetStatus) :
    (step self status).uuidsTaken
      = self.uuidsTaken + (if discovered myScreenName self status then 1 else 0) := by
  obtain ⟨self1, hc1, hl, hu, ht, hv, hb1, he⟩ := hs self status
  rw [he]
  split
  · rw [registerOffer_empty]
    dsimp only
    rw [ht]
  · rw [ht]
    rfl

/-- Statuses of an identity that has a record draw no uuid. -/
theorem foldl_discoveryStep_uuidsTaken {myScreenName : QString}
    {step : TwitterPlugin → QTweetStatus → TwitterPlugin} (hs : DiscoveryStep myScreenName step)
    (statuses : List QTweetStatus) (identity : QString) :
    ∀ self : TwitterPlugin, self.m_cachedPeers.contains identity = true →
      (∀ m ∈ statuses, m.screenName = identity) →
      (statuses.foldl step self).uuidsTaken = self.uuidsTaken := by
  induction statuses with
  | nil => intro self _ _; rfl
  | cons m ms ih =>
    intro self hc hall
    rw [List.foldl_cons]
    have hm := hall m (List.mem_cons_self _ _)
    have hd : discovered myScreenName self m = false :=
      discovered_of_cached _ self m (by rw [hm]; exact hc)
    have hu := discoveryStep_uuidsTaken hs self m
    rw [hd] at hu
    rw [ih (step self m) (discoveryStep_frame hs self m identity hc).1
      (fun x hx => hall x (List.mem_cons_of_mem _ hx)), hu]
    rfl

/-- The loop of a status handler over a batch that holds at least one matching
status of an identity without record: one registration and one post for it,
whatever the number of its statuses. -/
theorem foldl_discoveryStep_once {myScreenName : QString}
    {step : TwitterPlugin → QTweetStatus → TwitterPlugin} (hs : DiscoveryStep myScreenName step)
    (identity : QString) (hlocal : identity ≠ myScreenName) (statuses : List QTweetStatus) :
    ∀ self : TwitterPlugin, self.m_directMessageNew = true →
      self.m_cachedPeers.contains identity = false →
      (∃ m ∈ statuses, m.screenName = identity ∧ regexExactMatch m.text = true) →
      (statuses.foldl step self).m_cachedPeers.contains identity = true
        ∧ ((statuses.foldl step self).m_cachedPeers.value identity QHash.empty).contains
            (qs "okey") = true
        ∧ (statuses.foldl step self).log.filter (Effect.concerns identity)
          = self.log.filter (Effect.concerns identity)
            ++ [Effect.createConnectionKey ('@' :: identity) ('@' :: identity)
                  (((statuses.foldl step self).m_cachedPeers.value identity QHash.empty).get
                    (qs "okey")).toString,
                Effect.post identity
                  (offerString ((statuses.foldl step self).m_cachedPeers.value identity
                    QHash.empty))]
        ∧ ((∀ m ∈ statuses, m.screenName = identity) →
            (statuses.foldl step self).uuidsTaken = self.uuidsTaken + 1) := by
  induction statuses with
  | nil =>
    intro self _ _ hex
    obtain ⟨m, hm, -⟩ := hex
    exact absurd hm (List.not_mem_nil _)
  | cons m ms ih =>
    intro self hb hc hex
    by_cases hm : m.screenName = identity ∧ regexExactMatch m.text = true
    · obtain ⟨hm1, hm2⟩ := hm
      have hd : discovered myScreenName ([].foldl step self) m = true := by
        unfold discovered
        rw [List.foldl_nil, hm1, hm2, hc]
        simp [hlocal]
      obtain ⟨d1, d2, d3⟩ := foldl_discoveryStep_discovers hs self [] ms m hb hd
      simp only [List.nil_append, List.foldl_nil] at d1 d2 d3
      rw [hm1] at d1 d2 d3
      obtain ⟨k1, k2⟩ := discoveryRecord_okey self
      refine ⟨d1, by rw [d2]; exact k1, ?_, ?_⟩
      · rw [d3, d2]
        unfold discoveryEffects
        rw [← k2]
      · intro hall
        rw [List.foldl_cons]
        obtain ⟨s1, -, s3⟩ := discoveryStep_discovers hs self m hd hb
        have hc1 : (step self m).m_cachedPeers.contains identity = true := by
          rw [s1, hm1]
          exact QHash.contains_insert_same _ _ _
        rw [foldl_discoveryStep_uuidsTaken hs ms identity (step self m) hc1
          (fun x hx => hall x (List.mem_cons_of_mem _ hx)), s3]
    · have hne : discovered myScreenName self m = true → m.screenName ≠ identity := by
        intro hd e
        apply hm
        refine ⟨e, ?_⟩
        unfold discovered at hd
        simp only [Bool.and_eq_true] at hd
        exact hd.1.2
      obtain ⟨o1, o2⟩ := discoveryStep_other hs self m identity hne
      have hex1 : ∃ x ∈ ms, x.screenName = identity ∧ regexExactMatch x.text = true := by
        obtain ⟨x, hx, hp⟩ := hex
        rcases List.mem_cons.1 hx with e | e
        · rw [e] at hp
          exact absurd hp hm
        · exact ⟨x, e, hp⟩
      obtain ⟨i1, i2, i3, i4⟩ := ih (step self m)
        ((discoveryStep_bound hs self m).1.trans hb) (o1.trans hc) hex1
      rw [List.foldl_cons]
      refine ⟨i1, i2, by rw [i3, o2], ?_⟩
      intro hall
      rw [i4 (fun x hx => hall x (List.mem_cons_of_mem _ hx)), discoveryStep_uuidsTaken hs self m]
      have hd : discovered myScreenName self m = false := by
        cases hx : discovered myScreenName self m
        · rfl
        · exact absurd (hall m (List.mem_cons_self _ _)) (hne hx)
      rw [hd]
      rfl

theorem friendsTimelineStatuses_uuidsTaken (self : TwitterPlugin)
    (statuses : List QTweetStatus) :
    (friendsTimelineStatuses self statuses).uuidsTaken
      = (statuses.foldl (friendsTimelineStatus self.settings.twitterScreenName)
          self).uuidsTaken := by
  unfold friendsTimelineStatuses
  dsimp only
  have h := congrArg TwitterPlugin.uuidsTaken (pollDirectMessages_outsideBarrier
    { (statuses.foldl (friendsTimelineStatus self.settings.twitterScreenName) self) with
      settings :=
        { (statuses.foldl (friendsTimelineStatus self.settings.twitterScreenName)
              self).settings with
          twitterCachedFriendsSinceId :=
            (statuses.foldl (friendsTimelineStatus self.settings.twitterScreenName)
              self).m_cachedFriendsSinceId }
      log := (statuses.foldl (friendsTimelineStatus self.settings.twitterScreenName)
          self).log ++
        [Effect.setTwitterCachedFriendsSinceId
          (statuses.foldl (friendsTimelineStatus self.settings.twitterScreenName)
            self).m_cachedFriendsSinceId]
      m_finishedFriends := true })
  exact h

theorem mentionsStatuses_uuidsTaken (self : TwitterPlugin)
    (statuses : List QTweetStatus) :
    (mentionsStatuses self statuses).uuidsTaken
      = (statuses.foldl (mentionsStatus self.settings.twitterScreenName)
          self).uuidsTaken := by
  unfold mentionsStatuses
  dsimp only
  have h := congrArg TwitterPlugin.uuidsTaken (pollDirectMessages_outsideBarrier
    { (statuses.foldl (mentionsStatus self.settings.twitterScreenName) self) with
      settings :=
        { (statuses.foldl (mentionsStatus self.settings.twitterScreenName)
              self).settings with
          twitterCachedMentionsSinceId :=
            (statuses.foldl (mentionsStatus self.settings.twitterScreenName)
              self).m_cachedMentionsSinceId }
      log := (statuses.foldl (mentionsStatus self.settings.twitterScreenName)
          self).log ++
        [Effect.setTwitterCachedMentionsSinceId
          (statuses.foldl (mentionsStatus self.settings.twitterScreenName)
            self).m_cachedMentionsSinceId]
      m_finishedMentions := true })
  exact h

/-- C22: let a timeline or mentions batch hold one or more statuses that match
the invitation pattern and are authored by `A`, which is not the local screen
name and has no record in the peer cache. With the message client bound, the
handler ends with a record for `A` that holds a key, and the effects
addressed to `A` that it adds are exactly one registration, of that key under
`@A`, `@A`, followed by exactly one post to `A`, of the offer built from that
record; when all statuses of the batch are authored by `A`, exactly one uuid
is drawn. -/
theorem discovery_once_per_batch (self : TwitterPlugin) (statuses : List QTweetStatus)
    (identity : QString) (hbound : self.m_directMessageNew = true)
    (hlocal : identity ≠ self.settings.twitterScreenName)
    (hnew : self.m_cachedPeers.contains identity = false)
    (hmatch : ∃ m ∈ statuses, m.screenName = identity ∧ regexExactMatch m.text = true) :
    ((friendsTimelineStatuses self statuses).m_cachedPeers.contains identity = true
        ∧ ((friendsTimelineStatuses self statuses).m_cachedPeers.value identity
            QHash.empty).contains (qs "okey") = true
        ∧ (friendsTimelineStatuses self statuses).log.filter (Effect.concerns identity)
          = self.log.filter (Effect.concerns identity)
            ++ [Effect.createConnectionKey ('@' :: identity) ('@' :: identity)
                  (((friendsTimelineStatuses self statuses).m_cachedPeers.value identity
                    QHash.empty).get (qs "okey")).toString,
                Effect.post identity
                  (offerString ((friendsTimelineStatuses self statuses).m_cachedPeers.value
                    identity QHash.empty))]
        ∧ ((∀ m ∈ statuses, m.screenName = identity) →
            (friendsTimelineStatuses self statuses).uuidsTaken = self.uuidsTaken + 1))
      ∧ ((mentionsStatuses self statuses).m_cachedPeers.contains identity = true
        ∧ ((mentionsStatuses self statuses).m_cachedPeers.value identity
            QHash.empty).contains (qs "okey") = true
        ∧ (mentionsStatuses self statuses).log.filter (Effect.concerns identity)
          = self.log.filter (Effect.concerns identity)
            ++ [Effect.createConnectionKey ('@' :: identity) ('@' :: identity)
                  (((mentionsStatuses self statuses).m_cachedPeers.value identity
                    QHash.empty).get (qs "okey")).toString,
                Effect.post identity
                  (offerString ((mentionsStatuses self statuses).m_cachedPeers.value
                    identity QHash.empty))]
        ∧ ((∀ m ∈ statuses, m.screenName = identity) →
            (mentionsStatuses self statuses).uuidsTaken = self.uuidsTaken + 1)) := by
  constructor
  · obtain ⟨v1, v2⟩ := friendsTimelineStatuses_view self statuses identity
    rw [v1, v2, friendsTimelineStatuses_uuidsTaken]
    exact foldl_discoveryStep_once
      (friendsTimelineStatus_discoveryStep self.settings.twitterScreenName) identity hlocal
      statuses self hbound hnew hmatch
  · obtain ⟨v1, v2⟩ := mentionsStatuses_view self statuses identity
    rw [v1, v2, mentionsStatuses_uuidsTaken]
    exact foldl_discoveryStep_once
      (mentionsStatus_discoveryStep self.settings.twitterScreenName) identity hlocal
      statuses self hbound hnew hmatch

/-- C22, witness: three statuses of `friend` in one timeline batch of the authed
plugin of `me`, two of them matching: one registration and one post for
`friend`, and one uuid drawn. -/
theorem discovery_once_per_batch_witness :
    (friendsTimelineStatuses (authedPlugin (serventAt (qs "1.2.3.4") 4111))
        [⟨7, qs "friend", qs "hello"⟩, ⟨8, qs "friend", qs "Got Tomahawk?"⟩,
          ⟨9, qs "friend", qs "@me Got Tomahawk? again"⟩]).log.filter
          (Effect.concerns (qs "friend"))
      = [Effect.createConnectionKey (qs "@friend") (qs "@friend") (qs "00c04fd430c8"),
          Effect.post (qs "friend")
            (qs "TOMAHAWKPEER:Host=1.2.3.4:Port=4111:PKey=00c04fd430c8")]
      ∧ (friendsTimelineStatuses (authedPlugin (serventAt (qs "1.2.3.4") 4111))
        [⟨7, qs "friend", qs "hello"⟩, ⟨8, qs "friend", qs "Got Tomahawk?"⟩,
          ⟨9, qs "friend", qs "@me Got Tomahawk? again"⟩]).uuidsTaken
        = (authedPlugin (serventAt (qs "1.2.3.4") 4111)).uuidsTaken + 1 :=
  ⟨(discovery_once_per_batch (authedPlugin (serventAt (qs "1.2.3.4") 4111))
      [⟨7, qs "friend", qs "hello"⟩, ⟨8, qs "friend", qs "Got Tomahawk?"⟩,
        ⟨9, qs "friend", qs "@me Got Tomahawk? again"⟩] (qs "friend")
      (by decide) (by decide) (by decide)
      ⟨⟨8, qs "friend", qs "Got Tomahawk?"⟩, by simp, rfl, by decide⟩).1.2.2.1.trans
      (by decide),
    (discovery_once_per_batch (authedPlugin (serventAt (qs "1.2.3.4") 4111))
      [⟨7, qs "friend", qs "hello"⟩, ⟨8, qs "friend", qs "Got Tomahawk?"⟩,
        ⟨9, qs "friend", qs "@me Got Tomahawk? again"⟩] (qs "friend")
      (by decide) (by decide) (by decide)
      ⟨⟨8, qs "friend", qs "Got Tomahawk?"⟩, by simp, rfl, by decide⟩).1.2.2.2
      (by simp)⟩

/-! ## C23: `disconnectPlugin` and the peer cache -/

/-- C23: `disconnectPlugin` writes the peer cache in memory to the settings
store, as its last effect, and leaves the peer cache in memory and the authed
flag as they are; so `isValid()` returns after `disconnectPlugin` what it
returned before, in every state. -/
theorem disconnectPlugin_keeps_isValid (self : TwitterPlugin) :
    (disconnectPlugin self).settings.twitterCachedPeers = self.m_cachedPeers
      ∧ (disconnectPlugin self).log.getLast?
          = some (Effect.setTwitterCachedPeers self.m_cachedPeers)
      ∧ (disconnectPlugin self).m_cachedPeers = self.m_cachedPeers
      ∧ (disconnectPlugin self).m_isAuthed = self.m_isAuthed
      ∧ (disconnectPlugin self).isValid = self.isValid := by
  unfold disconnectPlugin setTwitterCachedPeers emit isValid
  dsimp only
  split_ifs <;> simp

end Tomahawk
